import Mathlib

/-!
Token ledger, escrow and certificate registry chaincodes: a shallow embedding.

Go strings are embedded as Lean `String`s (sequences of characters; on the
ASCII inputs the amount codec accepts, characters and bytes coincide).
`*big.Int` is embedded as `Int`.  The world state is an association list from
keys to stored documents; a `PutState` takes effect for the reads that follow
it in the same invocation.  On a peer such a read still returns the committed
document; the result of a transaction depends on the difference only where it
reads the document of a key it has written, which is `Transfer` from an
address to itself.  A transaction returns its error together with the world
state holding the writes it issued.  Readings of the clock and the result of
the identity lookup are arguments of the transactions that use them; events
are not part of the state and are left out.
-/

set_option maxRecDepth 100000

deriving instance DecidableEq for Except

namespace GoStrings

/-- The predicate `unicode.IsSpace` of the Go standard library. -/
def isSpace (c : Char) : Bool :=
  c = '\t' || c = '\n' || c.toNat = 0x0B || c.toNat = 0x0C || c = '\r' || c = ' '
    || c.toNat = 0x85 || c.toNat = 0xA0 || c.toNat = 0x1680
    || (0x2000 ≤ c.toNat && c.toNat ≤ 0x200A)
    || c.toNat = 0x2028 || c.toNat = 0x2029 || c.toNat = 0x202F
    || c.toNat = 0x205F || c.toNat = 0x3000

/-- The function `strings.TrimSpace`: drops leading and trailing white space. -/
def TrimSpace (s : List Char) : List Char :=
  ((s.dropWhile isSpace).reverse.dropWhile isSpace).reverse

/-- The function `strings.Split(s, ".")`: the pieces of `s` between the
occurrences of the separator; `n` separators give `n + 1` pieces. -/
def SplitDot : List Char → List (List Char)
  | [] => [[]]
  | c :: cs =>
    if c = '.' then [] :: SplitDot cs
    else
      match SplitDot cs with
      | [] => [[c]]
      | p :: ps => (c :: p) :: ps

/-- The function `strings.Repeat("0", n)`. -/
def zeros (n : Nat) : List Char := List.replicate n '0'

/-- The function `strings.TrimRight(s, "0")`: drops the trailing zeros. -/
def TrimRightZeros (s : List Char) : List Char :=
  (s.reverse.dropWhile (fun c => c = '0')).reverse

end GoStrings

namespace BigInt

/-- Value of one ASCII digit. -/
def digitVal (c : Char) : Nat := c.toNat - 48

/-- Value of a string of ASCII digits read in base ten (most significant
digit first); the empty string reads as zero. -/
def digitsValue (cs : List Char) : Nat :=
  cs.foldl (fun acc c => 10 * acc + digitVal c) 0

/-- Whether a string is a non-empty run of ASCII digits. -/
def isNumeral (cs : List Char) : Bool := !cs.isEmpty && cs.all Char.isDigit

/-- The method `(*big.Int).SetString(s, 10)`: an optional sign followed by a
non-empty run of decimal digits; the whole string must be consumed. -/
def SetString (s : List Char) : Option Int :=
  match s with
  | '-' :: ds => if isNumeral ds then some (-(digitsValue ds : Int)) else none
  | '+' :: ds => if isNumeral ds then some (digitsValue ds : Int) else none
  | ds => if isNumeral ds then some (digitsValue ds : Int) else none

/-- Decimal digits of a natural number, most significant first, without
leading zeros (`0` gives `"0"`); the first argument bounds the recursion. -/
def natDigits : Nat → Nat → List Char
  | 0, _ => []
  | fuel + 1, n =>
    if n < 10 then [Nat.digitChar n]
    else natDigits fuel (n / 10) ++ [Nat.digitChar (n % 10)]

/-- The characters of `(*big.Int).String()`: the decimal representation,
with a leading minus sign for negative values. -/
def render (x : Int) : List Char :=
  match x with
  | Int.ofNat n => natDigits (n + 1) n
  | Int.negSucc n => '-' :: natDigits (n + 2) (n + 1)

/-- The method `(*big.Int).String()`. -/
def toStr (x : Int) : String := String.mk (render x)

end BigInt

namespace Stub

/-! ## The chaincode stub

The key-value interface the transactions call.  Reads of the platform are
taken to succeed; `PutState` and `CreateCompositeKey` fail on the keys the
stub rejects.  The error of `CreateCompositeKey` carries one fixed text in
place of the messages of the stub, which name the offending character; the
chaincodes only wrap that text in their own message. -/

/-- The stub call `GetState`: the document under a key, if any. -/
def GetState {V : Type} : List (String × V) → String → Option V
  | [], _ => none
  | (k, v) :: rest, key => if k = key then some v else GetState rest key

/-- Replaces the document under a key, or adds the key. -/
def store {V : Type} : List (String × V) → String → V → List (String × V)
  | [], key, value => [(key, value)]
  | (k, v) :: rest, key, value =>
    if k = key then (key, value) :: rest else (k, v) :: store rest key value

/-- The stub call `PutState`: it rejects the empty key and otherwise writes. -/
def PutState {V : Type} (ws : List (String × V)) (key : String) (value : V) :
    Except String (List (String × V)) :=
  if key = "" then .error "key must not be an empty string"
  else .ok (store ws key value)

/-- The separator of composite keys, the character `U+0000`. -/
def minUnicodeRuneValue : Char := Char.ofNat 0

/-- The largest code point, `U+10FFFF`, which composite keys may not hold. -/
def maxUnicodeRuneValue : Char := Char.ofNat 0x10FFFF

/-- The check the stub makes on each part of a composite key. -/
def validCompositeKeyAttribute (s : String) : Bool :=
  s.data.all (fun c => c ≠ minUnicodeRuneValue && c ≠ maxUnicodeRuneValue)

/-- Appends the attributes of a composite key, each followed by the
separator. -/
def appendAttributes : String → List String → Except String String
  | ck, [] => .ok ck
  | ck, att :: rest =>
    if validCompositeKeyAttribute att then
      appendAttributes (ck ++ att ++ String.singleton minUnicodeRuneValue) rest
    else .error "not a valid utf8 string or contains U+0000 or U+10FFFF"

/-- The stub call `CreateCompositeKey`: separator, object type, separator, and
each attribute followed by a separator. -/
def CreateCompositeKey (objectType : String) (attributes : List String) :
    Except String String :=
  if validCompositeKeyAttribute objectType then
    appendAttributes
      (String.singleton minUnicodeRuneValue ++ objectType
        ++ String.singleton minUnicodeRuneValue) attributes
  else .error "not a valid utf8 string or contains U+0000 or U+10FFFF"

/-- Puts a key with its document at its place in a list ordered by key; keys
compare character by character, which is the order of their UTF-8 bytes. -/
def insertByKey {V : Type} (p : String × V) : List (String × V) → List (String × V)
  | [] => [p]
  | q :: rest =>
    if p.1.data < q.1.data then p :: q :: rest else q :: insertByKey p rest

/-- The stub call `GetStateByRange("", "")`: every simple key with its
document, in the lexical order of the keys.  The platform starts an open
range at the key `"\x01"`, so composite keys, which begin with `U+0000`, are
not part of it. -/
def GetStateByRange {V : Type} (ws : List (String × V)) : List (String × V) :=
  (ws.filter (fun p => !decide (p.1.data < "\x01".data))).foldr insertByKey []

end Stub

namespace BobCoin

open GoStrings Stub

/-- The helper `parseAmount` of bobcoin.go: a decimal string to an integer
scaled by `10^18`. -/
def parseAmount (amountStr : String) : Except String Int :=
  if amountStr = "" ∨ amountStr = "0" then .ok 0
  else
    let amountStr := TrimSpace amountStr.data
    let parts := SplitDot amountStr
    if parts.length > 2 then
      .error ("invalid amount format: " ++ String.mk amountStr)
    else
      let wholePart := parts.getD 0 []
      let decimalPart :=
        if parts.length = 2 then
          let decimalPart := parts.getD 1 []
          if decimalPart.length < 18 then
            decimalPart ++ zeros (18 - decimalPart.length)
          else if decimalPart.length > 18 then
            decimalPart.take 18
          else decimalPart
        else zeros 18
      let combined := wholePart ++ decimalPart
      match BigInt.SetString combined with
      | none => .error ("failed to parse amount: " ++ String.mk amountStr)
      | some amount => .ok amount

/-- The helper `formatAmount` of bobcoin.go: a scaled integer to a decimal
string. -/
def formatAmount (amount : Int) : String :=
  if amount = 0 then "0"
  else
    let amountStr := BigInt.render amount
    let amountStr :=
      if amountStr.length ≤ 18 then zeros (19 - amountStr.length) ++ amountStr
      else amountStr
    let wholePart := amountStr.take (amountStr.length - 18)
    let decimalPart := amountStr.drop (amountStr.length - 18)
    let decimalPart := TrimRightZeros decimalPart
    if decimalPart = [] then String.mk wholePart
    else String.mk (wholePart ++ '.' :: decimalPart)

/-! ### Reading a decimal string (specification side)

The two definitions below do not come from the code: they say what a decimal
string denotes and when it is canonically spelled, so that the output of
`formatAmount` can be compared with the input of `parseAmount`. -/

/-- The rational number a decimal string denotes: digits, optionally followed
by a decimal point and further digits. -/
def decimalValue (s : String) : ℚ :=
  match SplitDot s.data with
  | [w] => (BigInt.digitsValue w : ℚ)
  | [w, f] => (BigInt.digitsValue w : ℚ) + (BigInt.digitsValue f : ℚ) / 10 ^ f.length
  | _ => 0

/-- Canonical spelling of a decimal string: the integer part is a numeral
without leading zeros other than a single `0`; the decimal point is present
only with a non-empty fraction, which does not end in `0`. -/
def isCanonical (s : String) : Bool :=
  let canonicalInt := fun (w : List Char) =>
    BigInt.isNumeral w && (decide (w = ['0']) || decide (w.head? ≠ some '0'))
  match SplitDot s.data with
  | [w] => canonicalInt w
  | [w, f] => canonicalInt w && BigInt.isNumeral f && decide (f.getLast? ≠ some '0')
  | _ => false

/-- A run of ASCII digits that may start with one `+` or `-` sign; the empty
string counts. -/
def signedDigits : List Char → Bool
  | [] => true
  | c :: rest => (c.isDigit || c == '+' || c == '-') && rest.all Char.isDigit

/-! ## The token ledger (bobcoin.go) -/

/-- The record `Token` of bobcoin.go. -/
structure Token where
  Name : String
  Symbol : String
  Decimals : Int
  TotalSupply : String
  deriving DecidableEq, Repr

/-- The record `Balance` of bobcoin.go. -/
structure Balance where
  Address : String
  Amount : String
  deriving DecidableEq, Repr

/-- A JSON document held in the world state of the token chaincode: the
encoding of a `Token` or of a `Balance`. -/
inductive Value where
  | token (t : Token)
  | balance (b : Balance)
  deriving DecidableEq, Repr

/-- The world state of the token chaincode: keys with their documents. -/
abbrev WorldState := List (String × Value)

/-- Decoding with `json.Unmarshal` into a `Token`: absent bytes are a decode
error, and the fields a document does not carry keep their zero value. -/
def unmarshalToken : Option Value → Except String Token
  | none => .error "unexpected end of JSON input"
  | some (.token t) => .ok t
  | some (.balance _) => .ok ⟨"", "", 0, ""⟩

/-- Decoding with `json.Unmarshal` into a `Balance`. -/
def unmarshalBalance : Option Value → Except String Balance
  | none => .error "unexpected end of JSON input"
  | some (.balance b) => .ok b
  | some (.token _) => .ok ⟨"", ""⟩

/-- What an invocation leaves behind: the error it returns (`none` for `nil`)
and the world state with the writes it issued. -/
structure Outcome where
  err : Option String
  state : WorldState
  deriving DecidableEq, Repr

/-- The key of the balance record of an address. -/
def balanceKey (address : String) : String := "BALANCE_" ++ address

/-- The transaction `InitLedger` of bobcoin.go. -/
def InitLedger (ws : WorldState) : Outcome :=
  let token : Token := ⟨"BobCoin", "BOB", 18, "0"⟩
  match PutState ws "TOKEN_METADATA" (.token token) with
  | .error e => ⟨some ("failed to put token metadata: " ++ e), ws⟩
  | .ok ws1 => ⟨none, ws1⟩

/-- The query `TotalSupply` of bobcoin.go. -/
def TotalSupply (ws : WorldState) : Except String String :=
  match GetState ws "TOKEN_METADATA" with
  | none => .ok "0"
  | some tokenJSON =>
    match unmarshalToken (some tokenJSON) with
    | .error e => .error ("failed to unmarshal token: " ++ e)
    | .ok token => .ok token.TotalSupply

/-- The query `BalanceOf` of bobcoin.go. -/
def BalanceOf (ws : WorldState) (address : String) : Except String String :=
  match GetState ws (balanceKey address) with
  | none => .ok "0"
  | some balanceJSON =>
    match unmarshalBalance (some balanceJSON) with
    | .error e => .error ("failed to unmarshal balance: " ++ e)
    | .ok balance =>
      match parseAmount balance.Amount with
      | .error e => .error ("failed to parse balance amount: " ++ e)
      | .ok amount => .ok (BigInt.toStr amount)

/-- The helper `setBalance` of bobcoin.go. -/
def setBalance (ws : WorldState) (address amount : String) :
    Except String WorldState :=
  PutState ws (balanceKey address) (.balance ⟨address, amount⟩)

/-- The transaction `Mint` of bobcoin.go; `mspid` is what the identity lookup
of the platform returns. -/
def Mint (ws : WorldState) (mspid : Except String String) (toAddr amount : String) :
    Outcome :=
  match mspid with
  | .error e => ⟨some ("failed to get client MSP ID: " ++ e), ws⟩
  | .ok _ =>
  match parseAmount amount with
  | .error e => ⟨some ("failed to parse mint amount: " ++ e), ws⟩
  | .ok mintAmount =>
  if mintAmount ≤ 0 then ⟨some "mint amount must be positive", ws⟩
  else
  match TotalSupply ws with
  | .error e => ⟨some e, ws⟩
  | .ok totalSupply =>
  match GetState ws "TOKEN_METADATA" with
  | none => ⟨some "token metadata does not exist. Initialize first", ws⟩
  | some tokenJSON =>
  match parseAmount totalSupply with
  | .error e => ⟨some ("failed to parse current supply: " ++ e), ws⟩
  | .ok currentSupply =>
  let newSupply := currentSupply + mintAmount
  match unmarshalToken (some tokenJSON) with
  | .error e => ⟨some e, ws⟩
  | .ok token =>
  let token := { token with TotalSupply := BigInt.toStr newSupply }
  match PutState ws "TOKEN_METADATA" (.token token) with
  | .error e => ⟨some ("failed to update total supply: " ++ e), ws⟩
  | .ok ws1 =>
  match BalanceOf ws1 toAddr with
  | .error e => ⟨some e, ws1⟩
  | .ok currentBalance =>
  match parseAmount currentBalance with
  | .error e => ⟨some ("failed to parse balance: " ++ e), ws1⟩
  | .ok balance =>
  let newBalance := balance + mintAmount
  match setBalance ws1 toAddr (BigInt.toStr newBalance) with
  | .error e => ⟨some e, ws1⟩
  | .ok ws2 => ⟨none, ws2⟩

/-- The transaction `Burn` of bobcoin.go. -/
def Burn (ws : WorldState) (fromAddr amount : String) : Outcome :=
  match BalanceOf ws fromAddr with
  | .error e => ⟨some e, ws⟩
  | .ok currentBalance =>
  match parseAmount currentBalance with
  | .error e => ⟨some ("failed to parse balance: " ++ e), ws⟩
  | .ok balance =>
  match parseAmount amount with
  | .error e => ⟨some ("failed to parse burn amount: " ++ e), ws⟩
  | .ok burnAmount =>
  if burnAmount ≤ 0 then ⟨some "burn amount must be positive", ws⟩
  else if balance < burnAmount then ⟨some "insufficient balance to burn", ws⟩
  else
  let newBalance := balance - burnAmount
  match setBalance ws fromAddr (BigInt.toStr newBalance) with
  | .error e => ⟨some e, ws⟩
  | .ok ws1 =>
  match TotalSupply ws1 with
  | .error e => ⟨some e, ws1⟩
  | .ok totalSupply =>
  match parseAmount totalSupply with
  | .error e => ⟨some ("failed to parse total supply: " ++ e), ws1⟩
  | .ok currentSupply =>
  let newSupply := currentSupply - burnAmount
  match unmarshalToken (GetState ws1 "TOKEN_METADATA") with
  | .error e => ⟨some e, ws1⟩
  | .ok token =>
  let token := { token with TotalSupply := BigInt.toStr newSupply }
  match PutState ws1 "TOKEN_METADATA" (.token token) with
  | .error e => ⟨some ("failed to update total supply: " ++ e), ws1⟩
  | .ok ws2 => ⟨none, ws2⟩

/-- The transaction `Transfer` of bobcoin.go. -/
def Transfer (ws : WorldState) (fromAddr toAddr amount : String) : Outcome :=
  match parseAmount amount with
  | .error e => ⟨some ("failed to parse transfer amount: " ++ e), ws⟩
  | .ok transferAmount =>
  if transferAmount ≤ 0 then ⟨some "transfer amount must be positive", ws⟩
  else
  match BalanceOf ws fromAddr with
  | .error e => ⟨some e, ws⟩
  | .ok senderBalance =>
  match parseAmount senderBalance with
  | .error e => ⟨some ("failed to parse sender balance: " ++ e), ws⟩
  | .ok balance =>
  if balance < transferAmount then ⟨some "insufficient balance", ws⟩
  else
  let newSenderBalance := balance - transferAmount
  match setBalance ws fromAddr (BigInt.toStr newSenderBalance) with
  | .error e => ⟨some e, ws⟩
  | .ok ws1 =>
  match BalanceOf ws1 toAddr with
  | .error e => ⟨some e, ws1⟩
  | .ok recipientBalance =>
  match parseAmount recipientBalance with
  | .error e => ⟨some ("failed to parse recipient balance: " ++ e), ws1⟩
  | .ok recipientBal =>
  let newRecipientBalance := recipientBal + transferAmount
  match setBalance ws1 toAddr (BigInt.toStr newRecipientBalance) with
  | .error e => ⟨some e, ws1⟩
  | .ok ws2 => ⟨none, ws2⟩

/-- One invocation of a state-changing transaction of the token chaincode. -/
inductive Call where
  | mint (toAddr amount : String)
  | burn (fromAddr amount : String)
  | transfer (fromAddr toAddr amount : String)
  deriving DecidableEq, Repr

/-- Runs one invocation; the identity lookup of `Mint` succeeds. -/
def invoke (ws : WorldState) : Call → Outcome
  | .mint toAddr amount => Mint ws (.ok "Org1MSP") toAddr amount
  | .burn fromAddr amount => Burn ws fromAddr amount
  | .transfer fromAddr toAddr amount => Transfer ws fromAddr toAddr amount

/-- The platform commits the writes of an invocation that returns no error
and discards those of one that fails. -/
def commit (ws : WorldState) (o : Outcome) : WorldState :=
  if o.err = none then o.state else ws

/-- The committed world state after a sequence of invocations. -/
def run (ws : WorldState) (calls : List Call) : WorldState :=
  calls.foldl (fun w c => commit w (invoke w c)) ws

/-- The world state of a freshly initialised ledger. -/
def fresh : WorldState := (InitLedger []).state

/-- The stored total supply read as a raw integer. -/
def storedSupply (ws : WorldState) : Option Int :=
  match GetState ws "TOKEN_METADATA" with
  | some (.token t) => BigInt.SetString t.TotalSupply.data
  | _ => none

/-- The sum of the stored amounts of all balance records, each read as a raw
integer. -/
def balanceSum : WorldState → Option Int
  | [] => some 0
  | (_, .balance b) :: rest =>
    match BigInt.SetString b.Amount.data, balanceSum rest with
    | some a, some s => some (a + s)
    | _, _ => none
  | (_, .token _) :: rest => balanceSum rest

/-- A world state that holds one balance record and no token metadata, used
as a concrete input. -/
def balanceWithoutMetadata : WorldState :=
  [("BALANCE_A", .balance ⟨"A", "5"⟩)]

/-- Every balance record of the world state holds the decimal string of a
natural number (specification side). -/
def balancesNonNegative (ws : WorldState) : Prop :=
  ∀ key b, (key, Value.balance b) ∈ ws → ∃ n : Nat, b.Amount = BigInt.toStr (n : Int)

end BobCoin

namespace Escrow

open Stub

/-! ## The escrow engine (escrow.go) -/

/-- The record `Milestone` of escrow.go. -/
structure Milestone where
  MilestoneID : String
  Description : String
  Amount : String
  Status : String
  ReleasedAt : String
  deriving DecidableEq, Repr

/-- The record `EscrowContractData` of escrow.go. -/
structure EscrowContractData where
  ContractID : String
  ProjectID : String
  ClientAddress : String
  FreelancerAddress : String
  TotalAmount : String
  LockedAmount : String
  Status : String
  Milestones : List Milestone
  CreatedAt : String
  UpdatedAt : String
  deriving DecidableEq, Repr

/-- A value held in the world state of the escrow chaincode: the JSON encoding
of a contract, or the single zero byte of a project index entry. -/
inductive Value where
  | contract (c : EscrowContractData)
  | indexEntry
  deriving DecidableEq, Repr

/-- The world state of the escrow chaincode. -/
abbrev WorldState := List (String × Value)

/-- What an invocation leaves behind: the error it returns (`none` for `nil`)
and the world state with the writes it issued. -/
structure Outcome where
  err : Option String
  state : WorldState
  deriving DecidableEq, Repr

/-- Decoding with `json.Unmarshal` into an `EscrowContractData`; the zero byte
of an index entry is not JSON. -/
def unmarshalContract : Value → Except String EscrowContractData
  | .contract c => .ok c
  | .indexEntry => .error "invalid character '\\x00' looking for beginning of value"

/-- The query `GetContract` of escrow.go. -/
def GetContract (ws : WorldState) (contractID : String) :
    Except String EscrowContractData :=
  match GetState ws contractID with
  | none => .error ("contract " ++ contractID ++ " does not exist")
  | some contractJSON =>
    match unmarshalContract contractJSON with
    | .error e => .error ("failed to unmarshal contract: " ++ e)
    | .ok contract => .ok contract

/-- The transaction `CreateContract` of escrow.go.  `milestonesJSON` is the
argument as `json.Unmarshal` decodes it into a list of milestones;
`createdAt` and `updatedAt` are the two readings of the clock. -/
def CreateContract (ws : WorldState) (contractID projectID clientAddress
    freelancerAddress totalAmount : String)
    (milestonesJSON : Except String (List Milestone)) (createdAt updatedAt : String) :
    Outcome :=
  match GetState ws contractID with
  | some _ => ⟨some ("contract " ++ contractID ++ " already exists"), ws⟩
  | none =>
  match milestonesJSON with
  | .error e => ⟨some ("failed to parse milestones: " ++ e), ws⟩
  | .ok milestones =>
  let milestones := milestones.map (fun m => { m with Status := "PENDING" })
  let contract : EscrowContractData :=
    { ContractID := contractID, ProjectID := projectID, ClientAddress := clientAddress,
      FreelancerAddress := freelancerAddress, TotalAmount := totalAmount,
      LockedAmount := "0", Status := "CREATED", Milestones := milestones,
      CreatedAt := createdAt, UpdatedAt := updatedAt }
  match PutState ws contractID (.contract contract) with
  | .error e => ⟨some ("failed to put contract: " ++ e), ws⟩
  | .ok ws1 =>
  match CreateCompositeKey "project" [projectID, contractID] with
  | .error e => ⟨some ("failed to create composite key: " ++ e), ws1⟩
  | .ok projectIndexKey =>
  match PutState ws1 projectIndexKey .indexEntry with
  | .error e => ⟨some ("failed to put project index: " ++ e), ws1⟩
  | .ok ws2 => ⟨none, ws2⟩

/-- The transaction `LockFunds` of escrow.go; `now` is the reading of the
clock. -/
def LockFunds (ws : WorldState) (contractID amount now : String) : Outcome :=
  match GetContract ws contractID with
  | .error e => ⟨some e, ws⟩
  | .ok contract =>
  if contract.Status ≠ "CREATED" ∧ contract.Status ≠ "FUNDED" then
    ⟨some "contract must be in CREATED or FUNDED status to lock funds", ws⟩
  else
  let contract := { contract with LockedAmount := amount, Status := "FUNDED", UpdatedAt := now }
  match PutState ws contractID (.contract contract) with
  | .error e => ⟨some ("failed to update contract: " ++ e), ws⟩
  | .ok ws1 => ⟨none, ws1⟩

/-- The first loop of `ReleaseMilestone`: the first milestone with the given
identifier is released if it is pending (an error otherwise); the flag tells
whether a milestone was found. -/
def findAndRelease : List Milestone → String → String →
    Except String (List Milestone × Bool)
  | [], _, _ => .ok ([], false)
  | m :: rest, milestoneID, now =>
    if m.MilestoneID = milestoneID then
      if m.Status ≠ "PENDING" then
        .error ("milestone " ++ milestoneID ++ " is not in PENDING status")
      else .ok ({ m with Status := "RELEASED", ReleasedAt := now } :: rest, true)
    else
      match findAndRelease rest milestoneID now with
      | .error e => .error e
      | .ok (rest1, found) => .ok (m :: rest1, found)

/-- The second loop of `ReleaseMilestone`: whether every milestone is
released. -/
def allReleased (milestones : List Milestone) : Bool :=
  milestones.all (fun m => decide (m.Status = "RELEASED"))

/-- The transaction `ReleaseMilestone` of escrow.go; `releasedAt` and
`updatedAt` are the two readings of the clock. -/
def ReleaseMilestone (ws : WorldState) (contractID milestoneID releasedAt
    updatedAt : String) : Outcome :=
  match GetContract ws contractID with
  | .error e => ⟨some e, ws⟩
  | .ok contract =>
  if contract.Status ≠ "FUNDED" ∧ contract.Status ≠ "IN_PROGRESS" then
    ⟨some "contract must be FUNDED or IN_PROGRESS to release milestone", ws⟩
  else
  match findAndRelease contract.Milestones milestoneID releasedAt with
  | .error e => ⟨some e, ws⟩
  | .ok (milestones, milestoneFound) =>
  if !milestoneFound then ⟨some ("milestone " ++ milestoneID ++ " not found"), ws⟩
  else
  let contract := { contract with Milestones := milestones }
  let contract :=
    if allReleased contract.Milestones then { contract with Status := "COMPLETED" }
    else { contract with Status := "IN_PROGRESS" }
  let contract := { contract with UpdatedAt := updatedAt }
  match PutState ws contractID (.contract contract) with
  | .error e => ⟨some ("failed to update contract: " ++ e), ws⟩
  | .ok ws1 => ⟨none, ws1⟩

/-- The transaction `RefundProject` of escrow.go; `now` is the reading of the
clock. -/
def RefundProject (ws : WorldState) (contractID now : String) : Outcome :=
  match GetContract ws contractID with
  | .error e => ⟨some e, ws⟩
  | .ok contract =>
  if contract.Status = "COMPLETED" then ⟨some "cannot refund a completed contract", ws⟩
  else if contract.Status = "REFUNDED" then ⟨some "contract already refunded", ws⟩
  else
  let milestones := contract.Milestones.map (fun m =>
    if m.Status = "PENDING" then { m with Status := "REFUNDED" } else m)
  let contract :=
    { contract with Milestones := milestones, Status := "REFUNDED", UpdatedAt := now }
  match PutState ws contractID (.contract contract) with
  | .error e => ⟨some ("failed to update contract: " ++ e), ws⟩
  | .ok ws1 => ⟨none, ws1⟩

/-- One release request: the milestone identifier and the two readings of the
clock of that invocation. -/
structure Release where
  milestoneID : String
  releasedAt : String
  updatedAt : String
  deriving DecidableEq, Repr

/-- Releases milestones one by one, in the order of the list, stopping at the
first invocation that returns an error. -/
def releaseAll (ws : WorldState) (contractID : String) :
    List Release → Except String WorldState
  | [] => .ok ws
  | r :: rest =>
    match ReleaseMilestone ws contractID r.milestoneID r.releasedAt r.updatedAt with
    | ⟨none, ws1⟩ => releaseAll ws1 contractID rest
    | ⟨some e, _⟩ => .error e

/-- Three pending milestones with distinct identifiers, used as a concrete
input. -/
def sampleMilestones : List Milestone :=
  [⟨"m1", "design", "10", "", ""⟩, ⟨"m2", "build", "20", "RELEASED", ""⟩,
    ⟨"m3", "ship", "30", "", ""⟩]

/-- The world state after creating a contract with the sample milestones on an
empty ledger. -/
def sampleCreated : WorldState :=
  (CreateContract [] "c1" "p1" "client" "freelancer" "60" (.ok sampleMilestones)
    "2024-01-01T00:00:00Z" "2024-01-01T00:00:00Z").state

/-- The world state after locking funds on the sample contract. -/
def sampleFunded : WorldState :=
  (LockFunds sampleCreated "c1" "60" "2024-01-02T00:00:00Z").state

/-- One invocation of a state-changing transaction of the escrow chaincode. -/
inductive Call where
  | createContract (contractID projectID clientAddress freelancerAddress
      totalAmount : String) (milestonesJSON : Except String (List Milestone))
      (createdAt updatedAt : String)
  | lockFunds (contractID amount now : String)
  | releaseMilestone (contractID milestoneID releasedAt updatedAt : String)
  | refundProject (contractID now : String)
  deriving DecidableEq, Repr

/-- Runs one invocation. -/
def invoke (ws : WorldState) : Call → Outcome
  | .createContract contractID projectID clientAddress freelancerAddress totalAmount
      milestonesJSON createdAt updatedAt =>
    CreateContract ws contractID projectID clientAddress freelancerAddress totalAmount
      milestonesJSON createdAt updatedAt
  | .lockFunds contractID amount now => LockFunds ws contractID amount now
  | .releaseMilestone contractID milestoneID releasedAt updatedAt =>
    ReleaseMilestone ws contractID milestoneID releasedAt updatedAt
  | .refundProject contractID now => RefundProject ws contractID now

/-- The platform commits the writes of an invocation that returns no error
and discards those of one that fails. -/
def commit (ws : WorldState) (o : Outcome) : WorldState :=
  if o.err = none then o.state else ws

/-- The committed world state after a sequence of invocations. -/
def run (ws : WorldState) (calls : List Call) : WorldState :=
  calls.foldl (fun w c => commit w (invoke w c)) ws

/-! ### Reading contract records (specification side)

The definitions below do not come from the code: they name the properties of
contract records that the statements about the escrow engine compare. -/

/-- The amounts that the `LockFunds` invocations of a sequence pass for a
contract. -/
def lockedAmounts (contractID : String) (calls : List Call) : List String :=
  calls.filterMap (fun call =>
    match call with
    | .lockFunds id amount _ => if id = contractID then some amount else none
    | _ => none)

/-- Whether the locked amount of a record, read by the amount codec, is
greater than its total amount. -/
def lockedExceedsTotal (c : EscrowContractData) : Bool :=
  match BobCoin.parseAmount c.LockedAmount, BobCoin.parseAmount c.TotalAmount with
  | .ok locked, .ok total => decide (total < locked)
  | _, _ => false

/-- The terms of a milestone that are fixed at creation. -/
def milestoneTerms (m : Milestone) : String × String × String :=
  (m.MilestoneID, m.Description, m.Amount)

/-- Two records of a contract agree on what is fixed at creation: the
identifiers, the parties, the total amount, the creation time, and the list of
milestones with their identifiers, descriptions and amounts, in order. -/
def sameTerms (c c1 : EscrowContractData) : Prop :=
  c1.ContractID = c.ContractID ∧ c1.ProjectID = c.ProjectID
    ∧ c1.ClientAddress = c.ClientAddress ∧ c1.FreelancerAddress = c.FreelancerAddress
    ∧ c1.TotalAmount = c.TotalAmount ∧ c1.CreatedAt = c.CreatedAt
    ∧ c1.Milestones.map milestoneTerms = c.Milestones.map milestoneTerms

instance (c c1 : EscrowContractData) : Decidable (sameTerms c c1) := by
  unfold sameTerms
  infer_instance

/-- A contract record with the given status and milestones, used as a concrete
input. -/
def sampleRecord (status : String) (milestones : List Milestone) : EscrowContractData :=
  { ContractID := "c1", ProjectID := "p1", ClientAddress := "client",
    FreelancerAddress := "freelancer", TotalAmount := "60", LockedAmount := "60",
    Status := status, Milestones := milestones,
    CreatedAt := "2024-01-01T00:00:00Z", UpdatedAt := "2024-01-03T00:00:00Z" }

/-- A world state holding one contract record under the key `c1`. -/
def sampleState (status : String) (milestones : List Milestone) : WorldState :=
  [("c1", .contract (sampleRecord status milestones))]

/-- Milestones of which the first is released, the second pending and the
third refunded. -/
def mixedMilestones : List Milestone :=
  [⟨"m1", "design", "10", "RELEASED", "2024-01-03T00:00:00Z"⟩,
    ⟨"m2", "build", "20", "PENDING", ""⟩, ⟨"m3", "ship", "30", "REFUNDED", ""⟩]

/-- A sequence of invocations that creates a contract with one milestone,
funds it and releases the milestone, used as a concrete input. -/
def completedCalls : List Call :=
  [.createContract "c1" "p1" "client" "freelancer" "60"
      (.ok [⟨"m1", "design", "60", "", ""⟩]) "2024-01-01T00:00:00Z" "2024-01-01T00:00:00Z",
    .lockFunds "c1" "60" "2024-01-02T00:00:00Z",
    .releaseMilestone "c1" "m1" "2024-01-03T00:00:00Z" "2024-01-03T00:00:00Z"]

/-- Two milestones that carry the same identifier, used as a concrete input. -/
def duplicateMilestones : List Milestone :=
  [⟨"m1", "design", "10", "", ""⟩, ⟨"m1", "build", "20", "", ""⟩]

/-- The world state after creating a contract with the two milestones of the
same identifier on an empty ledger. -/
def duplicateCreated : WorldState :=
  (CreateContract [] "c1" "p1" "client" "freelancer" "60" (.ok duplicateMilestones)
    "2024-01-01T00:00:00Z" "2024-01-01T00:00:00Z").state

end Escrow

namespace CertificateRegistry

open Stub

/-! ## The certificate registry (certificate.go) -/

/-- The record `Certificate` of certificate.go. -/
structure Certificate where
  CertificateID : String
  ProjectID : String
  ContractID : String
  MilestoneID : String
  IPFSHash : String
  TransactionHash : String
  FreelancerID : String
  ClientID : String
  Amount : String
  Timestamp : String
  Status : String
  CertificateType : String
  IPFSGroupID : String
  deriving DecidableEq, Repr

/-- The record `Project` of certificate.go. -/
structure Project where
  ProjectID : String
  Title : String
  Description : String
  Category : String
  ClientID : String
  TotalBudget : String
  Deadline : String
  SkillsRequired : List String
  IPFSHash : String
  IPFSGroupID : String
  RegisteredAt : String
  Status : String
  deriving DecidableEq, Repr

/-- The record `IPFSGroup` of certificate.go. -/
structure IPFSGroup where
  GroupID : String
  ProjectID : String
  IPFSHash : String
  Members : List String
  CreatedAt : String
  UpdatedAt : String
  deriving DecidableEq, Repr

/-- A value held in the world state of the registry: the JSON encoding of a
certificate, of a project or of a group, or the single zero byte of an index
entry. -/
inductive Value where
  | certificate (c : Certificate)
  | project (p : Project)
  | group (g : IPFSGroup)
  | indexEntry
  deriving DecidableEq, Repr

/-- The world state of the registry. -/
abbrev WorldState := List (String × Value)

/-- What an invocation leaves behind: the error it returns (`none` for `nil`)
and the world state with the writes it issued. -/
structure Outcome where
  err : Option String
  state : WorldState
  deriving DecidableEq, Repr

/-- Decoding with `json.Unmarshal` into a `Certificate`.  Any JSON object
decodes: the fields whose JSON names the document carries are filled
(`projectId`, `ipfsHash`, `clientId`, `status` and `ipfsGroupId` of a project;
`projectId` and `ipfsHash` of a group), the others keep their zero value.  The
zero byte of an index entry is not JSON. -/
def unmarshalCertificate : Value → Except String Certificate
  | .certificate c => .ok c
  | .project p =>
    .ok { CertificateID := "", ProjectID := p.ProjectID, ContractID := "", MilestoneID := "",
          IPFSHash := p.IPFSHash, TransactionHash := "", FreelancerID := "",
          ClientID := p.ClientID, Amount := "", Timestamp := "", Status := p.Status,
          CertificateType := "", IPFSGroupID := p.IPFSGroupID }
  | .group g =>
    .ok { CertificateID := "", ProjectID := g.ProjectID, ContractID := "", MilestoneID := "",
          IPFSHash := g.IPFSHash, TransactionHash := "", FreelancerID := "", ClientID := "",
          Amount := "", Timestamp := "", Status := "", CertificateType := "",
          IPFSGroupID := "" }
  | .indexEntry => .error "invalid character '\\x00' looking for beginning of value"

/-- Decoding with `json.Unmarshal` into a `Project`. -/
def unmarshalProject : Value → Except String Project
  | .project p => .ok p
  | .certificate c =>
    .ok { ProjectID := c.ProjectID, Title := "", Description := "", Category := "",
          ClientID := c.ClientID, TotalBudget := "", Deadline := "", SkillsRequired := [],
          IPFSHash := c.IPFSHash, IPFSGroupID := c.IPFSGroupID, RegisteredAt := "",
          Status := c.Status }
  | .group g =>
    .ok { ProjectID := g.ProjectID, Title := "", Description := "", Category := "",
          ClientID := "", TotalBudget := "", Deadline := "", SkillsRequired := [],
          IPFSHash := g.IPFSHash, IPFSGroupID := "", RegisteredAt := "", Status := "" }
  | .indexEntry => .error "invalid character '\\x00' looking for beginning of value"

/-- Decoding with `json.Unmarshal` into an `IPFSGroup`. -/
def unmarshalGroup : Value → Except String IPFSGroup
  | .group g => .ok g
  | .project p =>
    .ok { GroupID := "", ProjectID := p.ProjectID, IPFSHash := p.IPFSHash, Members := [],
          CreatedAt := "", UpdatedAt := "" }
  | .certificate c =>
    .ok { GroupID := "", ProjectID := c.ProjectID, IPFSHash := c.IPFSHash, Members := [],
          CreatedAt := "", UpdatedAt := "" }
  | .indexEntry => .error "invalid character '\\x00' looking for beginning of value"

/-- The message for a wrong number of arguments; `got` is `len(args) - 1`. -/
def argumentCountError (expecting : String) (args : List String) : String :=
  "incorrect number of arguments. Expecting " ++ expecting ++ ", got "
    ++ BigInt.toStr ((args.length : Int) - 1)

/-- The transaction `RegisterProject` of certificate.go.  `args` is what
`GetStringArgs` returns (the function name first), `skills` is what
`json.Unmarshal` makes of the skills argument, and `txTimestamp` is the
transaction timestamp as the code formats it, or the error of the lookup. -/
def RegisterProject (ws : WorldState) (args : List String)
    (skills : Except String (List String)) (txTimestamp : Except String String) :
    Outcome :=
  if args.length ≠ 11 then ⟨some (argumentCountError "10" args), ws⟩
  else
  let projectId := args.getD 1 ""
  let title := args.getD 2 ""
  let description := args.getD 3 ""
  let category := args.getD 4 ""
  let clientId := args.getD 5 ""
  let totalBudget := args.getD 6 ""
  let deadline := args.getD 7 ""
  let skillsRequiredJSON := args.getD 8 ""
  let ipfsHash := args.getD 9 ""
  let ipfsGroupHash := args.getD 10 ""
  if projectId = "" ∨ title = "" ∨ ipfsHash = "" ∨ ipfsGroupHash = "" then
    ⟨some "projectId, title, ipfsHash, and ipfsGroupHash are required", ws⟩
  else
  match GetState ws ("project:" ++ projectId) with
  | some _ => ⟨some ("project " ++ projectId ++ " already exists"), ws⟩
  | none =>
  let skillsRequired : List String :=
    if skillsRequiredJSON ≠ "" ∧ skillsRequiredJSON ≠ "[]" then
      match skills with
      | .error _ => []
      | .ok l => l
    else []
  match txTimestamp with
  | .error e => ⟨some ("failed to get transaction timestamp: " ++ e), ws⟩
  | .ok now =>
  let groupId := "group:" ++ projectId
  let group : IPFSGroup :=
    { GroupID := groupId, ProjectID := projectId, IPFSHash := ipfsGroupHash,
      Members := [clientId], CreatedAt := now, UpdatedAt := now }
  match PutState ws groupId (.group group) with
  | .error e => ⟨some ("failed to put group to state: " ++ e), ws⟩
  | .ok ws1 =>
  let project : Project :=
    { ProjectID := projectId, Title := title, Description := description,
      Category := category, ClientID := clientId, TotalBudget := totalBudget,
      Deadline := deadline, SkillsRequired := skillsRequired, IPFSHash := ipfsHash,
      IPFSGroupID := groupId, RegisteredAt := now, Status := "open" }
  match PutState ws1 ("project:" ++ projectId) (.project project) with
  | .error e => ⟨some ("failed to put project to state: " ++ e), ws1⟩
  | .ok ws2 => ⟨none, ws2⟩

/-- The query `GetProject` of certificate.go. -/
def GetProject (ws : WorldState) (projectId : String) : Except String Project :=
  match GetState ws ("project:" ++ projectId) with
  | none => .error ("project " ++ projectId ++ " does not exist")
  | some projectJSON =>
    match unmarshalProject projectJSON with
    | .error e => .error ("failed to unmarshal project: " ++ e)
    | .ok project => .ok project

/-- The transaction `RegisterContractCertificate` of certificate.go; `args` and
`txTimestamp` are as for `RegisterProject`. -/
def RegisterContractCertificate (ws : WorldState) (args : List String)
    (txTimestamp : Except String String) : Outcome :=
  if args.length ≠ 9 then ⟨some (argumentCountError "8" args), ws⟩
  else
  let certificateId := args.getD 1 ""
  let projectId := args.getD 2 ""
  let contractId := args.getD 3 ""
  let ipfsHash := args.getD 4 ""
  let transactionHash := args.getD 5 ""
  let freelancerId := args.getD 6 ""
  let clientId := args.getD 7 ""
  let amount := args.getD 8 ""
  if certificateId = "" ∨ projectId = "" ∨ contractId = "" ∨ ipfsHash = "" then
    ⟨some "certificateId, projectId, contractId, and ipfsHash are required", ws⟩
  else
  match GetProject ws projectId with
  | .error e => ⟨some ("failed to get project: " ++ e), ws⟩
  | .ok project =>
  let groupId := project.IPFSGroupID
  match GetState ws groupId with
  | none => ⟨some ("IPFS group " ++ groupId ++ " does not exist"), ws⟩
  | some groupJSON =>
  match unmarshalGroup groupJSON with
  | .error e => ⟨some ("failed to unmarshal group: " ++ e), ws⟩
  | .ok group =>
  let freelancerExists := group.Members.contains freelancerId
  let groupUpdate : Except String WorldState :=
    if !freelancerExists then
      match txTimestamp with
      | .error e => .error ("failed to get transaction timestamp: " ++ e)
      | .ok now =>
        let group :=
          { group with Members := group.Members ++ [freelancerId], UpdatedAt := now }
        match PutState ws groupId (.group group) with
        | .error e => .error ("failed to update group: " ++ e)
        | .ok ws1 => .ok ws1
    else .ok ws
  match groupUpdate with
  | .error e => ⟨some e, ws⟩
  | .ok ws1 =>
  match GetState ws1 certificateId with
  | some _ => ⟨some ("certificate " ++ certificateId ++ " already exists"), ws1⟩
  | none =>
  match txTimestamp with
  | .error e => ⟨some ("failed to get transaction timestamp: " ++ e), ws1⟩
  | .ok now =>
  let certificate : Certificate :=
    { CertificateID := certificateId, ProjectID := projectId, ContractID := contractId,
      MilestoneID := "", IPFSHash := ipfsHash, TransactionHash := transactionHash,
      FreelancerID := freelancerId, ClientID := clientId, Amount := amount,
      Timestamp := now, Status := "active", CertificateType := "CONTRACT",
      IPFSGroupID := groupId }
  match PutState ws1 certificateId (.certificate certificate) with
  | .error e => ⟨some ("failed to put certificate to state: " ++ e), ws1⟩
  | .ok ws2 =>
  match CreateCompositeKey "project~certificate" [projectId, certificateId] with
  | .error e => ⟨some ("failed to create composite key: " ++ e), ws2⟩
  | .ok projectCertKey =>
  match PutState ws2 projectCertKey .indexEntry with
  | .error e => ⟨some ("failed to put project-certificate relationship: " ++ e), ws2⟩
  | .ok ws3 =>
  match CreateCompositeKey "group~certificate" [groupId, certificateId] with
  | .error e => ⟨some ("failed to create composite key: " ++ e), ws3⟩
  | .ok groupCertKey =>
  match PutState ws3 groupCertKey .indexEntry with
  | .error e => ⟨some ("failed to put group-certificate relationship: " ++ e), ws3⟩
  | .ok ws4 => ⟨none, ws4⟩

/-- The transaction `RegisterMilestoneCertificate` of certificate.go. -/
def RegisterMilestoneCertificate (ws : WorldState) (args : List String)
    (txTimestamp : Except String String) : Outcome :=
  if args.length ≠ 10 then ⟨some (argumentCountError "9" args), ws⟩
  else
  let certificateId := args.getD 1 ""
  let projectId := args.getD 2 ""
  let contractId := args.getD 3 ""
  let milestoneId := args.getD 4 ""
  let ipfsHash := args.getD 5 ""
  let transactionHash := args.getD 6 ""
  let freelancerId := args.getD 7 ""
  let clientId := args.getD 8 ""
  let amount := args.getD 9 ""
  if certificateId = "" ∨ projectId = "" ∨ milestoneId = "" ∨ ipfsHash = "" then
    ⟨some "certificateId, projectId, milestoneId, and ipfsHash are required", ws⟩
  else
  match GetProject ws projectId with
  | .error e => ⟨some ("failed to get project: " ++ e), ws⟩
  | .ok project =>
  match GetState ws certificateId with
  | some _ => ⟨some ("certificate " ++ certificateId ++ " already exists"), ws⟩
  | none =>
  match txTimestamp with
  | .error e => ⟨some ("failed to get transaction timestamp: " ++ e), ws⟩
  | .ok now =>
  let certificate : Certificate :=
    { CertificateID := certificateId, ProjectID := projectId, ContractID := contractId,
      MilestoneID := milestoneId, IPFSHash := ipfsHash, TransactionHash := transactionHash,
      FreelancerID := freelancerId, ClientID := clientId, Amount := amount,
      Timestamp := now, Status := "active", CertificateType := "MILESTONE",
      IPFSGroupID := project.IPFSGroupID }
  match PutState ws certificateId (.certificate certificate) with
  | .error e => ⟨some ("failed to put certificate to state: " ++ e), ws⟩
  | .ok ws1 =>
  match CreateCompositeKey "project~certificate" [projectId, certificateId] with
  | .error e => ⟨some ("failed to create composite key: " ++ e), ws1⟩
  | .ok projectCertKey =>
  match PutState ws1 projectCertKey .indexEntry with
  | .error e => ⟨some ("failed to put project-certificate relationship: " ++ e), ws1⟩
  | .ok ws2 =>
  match CreateCompositeKey "group~certificate" [project.IPFSGroupID, certificateId] with
  | .error e => ⟨some ("failed to create composite key: " ++ e), ws2⟩
  | .ok groupCertKey =>
  match PutState ws2 groupCertKey .indexEntry with
  | .error e => ⟨some ("failed to put group-certificate relationship: " ++ e), ws2⟩
  | .ok ws3 => ⟨none, ws3⟩

/-- The query `GetCertificate` of certificate.go. -/
def GetCertificate (ws : WorldState) (certificateId : String) : Except String Certificate :=
  match GetState ws certificateId with
  | none => .error ("certificate " ++ certificateId ++ " does not exist")
  | some certificateJSON =>
    match unmarshalCertificate certificateJSON with
    | .error e => .error ("failed to unmarshal certificate: " ++ e)
    | .ok certificate => .ok certificate

/-- The test of `GetAllCertificates` that is meant to skip index, project and
group keys: `len(key) >= 8` and one of the three prefixes.  The length is
counted in bytes; a slice of the first bytes equals an ASCII literal exactly
when the first characters spell it. -/
def skipKey (key : String) : Bool :=
  decide (key.utf8ByteSize ≥ 8)
    && (decide (key.data.take 8 = "project~".data)
      || decide (key.data.take 8 = "project:".data)
      || decide (key.data.take 6 = "group:".data))

/-- The query `GetAllCertificates` of certificate.go: the range over all keys,
without the skipped keys and without the values that do not decode. -/
def GetAllCertificates (ws : WorldState) : Except String (List Certificate) :=
  .ok ((GetStateByRange ws).filterMap (fun entry =>
    if skipKey entry.1 then none
    else
      match unmarshalCertificate entry.2 with
      | .error _ => none
      | .ok certificate => some certificate))

/-- The arguments of a `RegisterProject` invocation for a project identifier,
used as a concrete input. -/
def projectArgs (projectId : String) : List String :=
  ["RegisterProject", projectId, "Site", "A web site", "web", "client1", "100", "", "[]",
    "QmProject", "QmGroup"]

/-- The world state after registering a project with the given identifier on
an empty ledger. -/
def registered (projectId : String) : WorldState :=
  (RegisterProject [] (projectArgs projectId) (.ok []) (.ok "2024-01-01T00:00:00Z")).state

/-- The world state after registering the project `p1` and then the contract
certificate `cert1` of the freelancer `freelancer1`. -/
def certified : WorldState :=
  (RegisterContractCertificate (registered "p1")
    ["RegisterContractCertificate", "cert1", "p1", "contract1", "QmCert", "0xabc",
      "freelancer1", "client1", "100"] (.ok "2024-01-02T00:00:00Z")).state

/-- The arguments of a second `RegisterContractCertificate` invocation with the
certificate identifier `cert1`, for another freelancer. -/
def duplicateArgs : List String :=
  ["RegisterContractCertificate", "cert1", "p1", "contract2", "QmOther", "0xdef",
    "freelancer2", "client1", "50"]

end CertificateRegistry

/-! # Theorems -/

namespace GoStrings

theorem isDigit_bounds {c : Char} (h : c.isDigit = true) : 48 ≤ c.toNat ∧ c.toNat ≤ 57 := by
  simp only [Char.isDigit, Bool.and_eq_true, decide_eq_true_eq] at h
  obtain ⟨h1, h2⟩ := h
  have h1' : (48 : UInt32).toNat ≤ c.val.toNat := h1
  have h2' : c.val.toNat ≤ (57 : UInt32).toNat := h2
  exact ⟨h1', h2'⟩

theorem isDigit_cases {c : Char} (h : c.isDigit = true) :
    c = '0' ∨ c = '1' ∨ c = '2' ∨ c = '3' ∨ c = '4' ∨ c = '5' ∨ c = '6' ∨ c = '7'
      ∨ c = '8' ∨ c = '9' := by
  obtain ⟨h1, h2⟩ := isDigit_bounds h
  have hc : Char.ofNat c.toNat = c := Char.ofNat_toNat c
  generalize c.toNat = n at h1 h2 hc
  subst hc
  interval_cases n <;> decide

theorem isDigit_not_space {c : Char} (h : c.isDigit = true) : isSpace c = false := by
  rcases isDigit_cases h with h | h | h | h | h | h | h | h | h | h <;> subst h <;> decide

theorem isDigit_ne_dot {c : Char} (h : c.isDigit = true) : c ≠ '.' := by
  rcases isDigit_cases h with h | h | h | h | h | h | h | h | h | h <;> subst h <;> decide

theorem dropWhile_of_none {p : Char → Bool} (s : List Char)
    (h : ∀ c ∈ s, p c = false) : s.dropWhile p = s := by
  cases s with
  | nil => rfl
  | cons c cs =>
    have hc : p c = false := h c (List.mem_cons_self c cs)
    simp [List.dropWhile, hc]

theorem TrimSpace_of_no_space (s : List Char) (h : ∀ c ∈ s, isSpace c = false) :
    TrimSpace s = s := by
  unfold TrimSpace
  rw [dropWhile_of_none s h, dropWhile_of_none s.reverse (fun c hc => h c (List.mem_reverse.mp hc))]
  exact List.reverse_reverse s

theorem SplitDot_no_dot (s : List Char) (h : ∀ c ∈ s, c ≠ '.') : SplitDot s = [s] := by
  induction s with
  | nil => rfl
  | cons c cs ih =>
    have hc : c ≠ '.' := h c (List.mem_cons_self c cs)
    have ih' := ih (fun d hd => h d (List.mem_cons_of_mem c hd))
    simp [SplitDot, hc, ih']

theorem SplitDot_one_dot (w f : List Char) (hw : ∀ c ∈ w, c ≠ '.')
    (hf : ∀ c ∈ f, c ≠ '.') : SplitDot (w ++ '.' :: f) = [w, f] := by
  induction w with
  | nil => simp [SplitDot, SplitDot_no_dot f hf]
  | cons c cs ih =>
    have hc : c ≠ '.' := hw c (List.mem_cons_self c cs)
    have ih' := ih (fun d hd => hw d (List.mem_cons_of_mem c hd))
    simp [SplitDot, hc, ih']

theorem length_zeros (n : Nat) : (zeros n).length = n := by simp [zeros]

theorem TrimRightZeros_append_zeros (s : List Char) :
    TrimRightZeros s ++ zeros (s.length - (TrimRightZeros s).length) = s := by
  induction s using List.reverseRecOn with
  | nil => rfl
  | append_singleton l a ih =>
    by_cases ha : a = '0'
    · have h1 : TrimRightZeros (l ++ [a]) = TrimRightZeros l := by
        simp [TrimRightZeros, List.dropWhile, ha]
      have hle : (TrimRightZeros l).length ≤ l.length := by
        have := congrArg List.length ih
        simp [length_zeros] at this
        omega
      rw [h1]
      have h2 : (l ++ [a]).length - (TrimRightZeros l).length
          = (l.length - (TrimRightZeros l).length) + 1 := by
        simp; omega
      rw [h2]
      have h3 : ∀ k, zeros (k + 1) = zeros k ++ ['0'] := by
        intro k; simp [zeros, List.replicate_succ']
      rw [h3, ← List.append_assoc, ih, ha]
    · have h1 : TrimRightZeros (l ++ [a]) = l ++ [a] := by
        simp [TrimRightZeros, List.dropWhile, ha]
      rw [h1]; simp [zeros]

theorem TrimRightZeros_last (s : List Char) (h : TrimRightZeros s ≠ []) :
    (TrimRightZeros s).getLast h ≠ '0' := by
  have := List.rdropWhile_last_not (fun c : Char => decide (c = '0')) s h
  simpa using this

theorem TrimRightZeros_subset (s : List Char) : ∀ c ∈ TrimRightZeros s, c ∈ s := by
  intro c hc
  have hp : TrimRightZeros s <+: s := List.rdropWhile_prefix (fun c : Char => decide (c = '0')) s
  exact hp.subset hc

end GoStrings

namespace BigInt

open GoStrings

theorem foldl_digits (b : List Char) (acc : Nat) :
    b.foldl (fun acc c => 10 * acc + digitVal c) acc
      = acc * 10 ^ b.length + digitsValue b := by
  induction b generalizing acc with
  | nil => simp [digitsValue]
  | cons c cs ih =>
    simp only [List.foldl_cons, List.length_cons, digitsValue]
    rw [ih (10 * acc + digitVal c), ih (10 * 0 + digitVal c)]
    ring

theorem digitsValue_append (a b : List Char) :
    digitsValue (a ++ b) = digitsValue a * 10 ^ b.length + digitsValue b := by
  unfold digitsValue
  rw [List.foldl_append]
  exact foldl_digits b _

theorem digitsValue_zeros (k : Nat) : digitsValue (zeros k) = 0 := by
  induction k with
  | zero => rfl
  | succ k ih =>
    have h : zeros (k + 1) = zeros k ++ ['0'] := by simp [zeros, List.replicate_succ']
    rw [h, digitsValue_append, ih]
    rfl

theorem isNumeral_iff (s : List Char) :
    isNumeral s = true ↔ s ≠ [] ∧ ∀ c ∈ s, c.isDigit = true := by
  cases s <;> simp [isNumeral]

theorem SetString_of_numeral (s : List Char) (h : isNumeral s = true) :
    SetString s = some (digitsValue s : Int) := by
  obtain ⟨hne, hd⟩ := (isNumeral_iff s).mp h
  cases s with
  | nil => exact absurd rfl hne
  | cons c cs =>
    have hc : c.isDigit = true := hd c (List.mem_cons_self c cs)
    have h1 : c ≠ '-' := by
      rcases isDigit_cases hc with h | h | h | h | h | h | h | h | h | h <;> subst h <;> decide
    have h2 : c ≠ '+' := by
      rcases isDigit_cases hc with h | h | h | h | h | h | h | h | h | h <;> subst h <;> decide
    unfold SetString
    split
    · rename_i heq; exact absurd (List.cons.inj heq).1 h1
    · rename_i heq; exact absurd (List.cons.inj heq).1 h2
    · simp [h]

theorem digitChar_isDigit {n : Nat} (h : n < 10) : (Nat.digitChar n).isDigit = true := by
  interval_cases n <;> decide

theorem digitVal_digitChar {n : Nat} (h : n < 10) : digitVal (Nat.digitChar n) = n := by
  interval_cases n <;> decide

theorem digitChar_ne_zero {n : Nat} (h : n < 10) (h0 : n ≠ 0) : Nat.digitChar n ≠ '0' := by
  interval_cases n <;> first | exact absurd rfl h0 | decide

theorem natDigits_spec (fuel n : Nat) (h : n < fuel) :
    (∀ c ∈ natDigits fuel n, c.isDigit = true) ∧ natDigits fuel n ≠ []
      ∧ digitsValue (natDigits fuel n) = n
      ∧ (n ≠ 0 → (natDigits fuel n).head? ≠ some '0') := by
  induction fuel generalizing n with
  | zero => omega
  | succ fuel ih =>
    unfold natDigits
    by_cases hn : n < 10
    · simp only [hn, if_true]
      refine ⟨?_, by simp, ?_, ?_⟩
      · intro c hc
        simp only [List.mem_singleton] at hc
        subst hc
        exact digitChar_isDigit hn
      · simp [digitsValue, digitVal_digitChar hn]
      · intro h0
        simp only [List.head?_cons, ne_eq, Option.some.injEq]
        exact digitChar_ne_zero hn h0
    · simp only [hn, if_false]
      have hlt : n / 10 < fuel := by omega
      have hpos : n / 10 ≠ 0 := by omega
      obtain ⟨h1, h2, h3, h4⟩ := ih (n / 10) hlt
      have hm : n % 10 < 10 := Nat.mod_lt _ (by decide)
      refine ⟨?_, by simp [h2], ?_, ?_⟩
      · intro c hc
        rcases List.mem_append.mp hc with hc | hc
        · exact h1 c hc
        · simp only [List.mem_singleton] at hc
          subst hc
          exact digitChar_isDigit hm
      · rw [digitsValue_append, h3]
        simp [digitsValue, digitVal_digitChar hm]
        omega
      · intro _
        have := h4 hpos
        cases hq : natDigits fuel (n / 10) with
        | nil => exact absurd hq h2
        | cons a as =>
          rw [hq] at this
          simpa using this

end BigInt

namespace BobCoin

open GoStrings BigInt Stub

theorem mk_ne_empty_of_dot (w f : List Char) : String.mk (w ++ '.' :: f) ≠ "" := by
  intro h
  have h' : w ++ '.' :: f = [] := by simpa using congrArg String.data h
  simp at h'

theorem mk_ne_zero_of_dot (w f : List Char) : String.mk (w ++ '.' :: f) ≠ "0" := by
  intro h
  have h' : w ++ '.' :: f = ['0'] := by simpa using congrArg String.data h
  cases w with
  | nil => simp at h'
  | cons c cs => simp at h'

theorem digits_no_space {s : List Char} (h : ∀ c ∈ s, c.isDigit = true) :
    ∀ c ∈ s, isSpace c = false := fun c hc => isDigit_not_space (h c hc)

theorem digits_no_dot {s : List Char} (h : ∀ c ∈ s, c.isDigit = true) :
    ∀ c ∈ s, c ≠ '.' := fun c hc => isDigit_ne_dot (h c hc)

theorem decimal_no_space {w f : List Char} (hw : ∀ c ∈ w, c.isDigit = true)
    (hf : ∀ c ∈ f, c.isDigit = true) : ∀ c ∈ w ++ '.' :: f, isSpace c = false := by
  intro c hc
  rcases List.mem_append.mp hc with h | h
  · exact isDigit_not_space (hw c h)
  · rcases List.mem_cons.mp h with h | h
    · subst h; decide
    · exact isDigit_not_space (hf c h)

/-- What `parseAmount` computes on a digit string without a decimal point. -/
theorem parseAmount_whole (w : List Char) (hne : w ≠ [])
    (hw : ∀ c ∈ w, c.isDigit = true) :
    parseAmount (String.mk w) = .ok ((digitsValue w : Int) * 10 ^ 18) := by
  by_cases h0 : String.mk w = "" ∨ String.mk w = "0"
  · rcases h0 with h | h
    · exact absurd (by simpa using congrArg String.data h) hne
    · have hw0 : w = ['0'] := by simpa using congrArg String.data h
      subst hw0
      decide
  · have hnum : isNumeral (w ++ zeros 18) = true := by
      rw [isNumeral_iff]
      refine ⟨by simp [hne], ?_⟩
      intro c hc
      rcases List.mem_append.mp hc with h | h
      · exact hw c h
      · have : c = '0' := by simpa [zeros] using (List.mem_replicate.mp h).2
        subst this; decide
    simp only [parseAmount, if_neg h0, TrimSpace_of_no_space w (digits_no_space hw),
      SplitDot_no_dot w (digits_no_dot hw)]
    simp only [List.length_singleton, List.getD_cons_zero]
    norm_num
    rw [SetString_of_numeral _ hnum, digitsValue_append, digitsValue_zeros, length_zeros]
    simp

/-- What `parseAmount` computes on digits, a decimal point and at most 18
digits: the fraction is padded with zeros to 18 digits. -/
theorem parseAmount_padded (w f : List Char) (hw : ∀ c ∈ w, c.isDigit = true)
    (hf : ∀ c ∈ f, c.isDigit = true) (hlen : f.length ≤ 18) :
    parseAmount (String.mk (w ++ '.' :: f))
      = .ok ((digitsValue w : Int) * 10 ^ 18 + (digitsValue f : Int) * 10 ^ (18 - f.length)) := by
  have h0 : ¬ (String.mk (w ++ '.' :: f) = "" ∨ String.mk (w ++ '.' :: f) = "0") := by
    intro h
    rcases h with h | h
    · exact mk_ne_empty_of_dot w f h
    · exact mk_ne_zero_of_dot w f h
  have hpad : (if f.length < 18 then f ++ zeros (18 - f.length)
      else if f.length > 18 then f.take 18 else f) = f ++ zeros (18 - f.length) := by
    by_cases h : f.length < 18
    · simp [h]
    · have : f.length = 18 := by omega
      simp [this, zeros]
  have hnum : isNumeral (w ++ (f ++ zeros (18 - f.length))) = true := by
    rw [isNumeral_iff]
    refine ⟨?_, ?_⟩
    · intro h
      have := congrArg List.length h
      rw [List.length_append, List.length_append, length_zeros, List.length_nil] at this
      omega
    · intro c hc
      rcases List.mem_append.mp hc with h | h
      · exact hw c h
      · rcases List.mem_append.mp h with h | h
        · exact hf c h
        · have : c = '0' := by simpa [zeros] using (List.mem_replicate.mp h).2
          subst this; decide
  simp only [parseAmount, if_neg h0, TrimSpace_of_no_space _ (decimal_no_space hw hf),
    SplitDot_one_dot w f (digits_no_dot hw) (digits_no_dot hf)]
  simp only [List.length_cons, List.length_nil, List.getD_cons_zero, List.getD_cons_succ]
  norm_num
  rw [hpad, SetString_of_numeral _ hnum, digitsValue_append, digitsValue_append,
    digitsValue_zeros]
  simp only [List.length_append, length_zeros]
  have he : f.length + (18 - f.length) = 18 := by omega
  rw [he]
  congr 1
  push_cast
  ring

/-- What `parseAmount` computes on digits, a decimal point and more than 18
digits: only the first 18 digits of the fraction are read. -/
theorem parseAmount_cut (w f : List Char) (hw : ∀ c ∈ w, c.isDigit = true)
    (hf : ∀ c ∈ f, c.isDigit = true) (hlen : 18 < f.length) :
    parseAmount (String.mk (w ++ '.' :: f))
      = .ok ((digitsValue w : Int) * 10 ^ 18 + (digitsValue (f.take 18) : Int)) := by
  have h0 : ¬ (String.mk (w ++ '.' :: f) = "" ∨ String.mk (w ++ '.' :: f) = "0") := by
    intro h
    rcases h with h | h
    · exact mk_ne_empty_of_dot w f h
    · exact mk_ne_zero_of_dot w f h
  have hcut : (if f.length < 18 then f ++ zeros (18 - f.length)
      else if f.length > 18 then f.take 18 else f) = f.take 18 := by
    have h1 : ¬ f.length < 18 := by omega
    simp [h1, hlen]
  have hl : (f.take 18).length = 18 := by
    rw [List.length_take]; omega
  have hnum : isNumeral (w ++ f.take 18) = true := by
    rw [isNumeral_iff]
    refine ⟨?_, ?_⟩
    · intro h
      have := congrArg List.length h
      rw [List.length_append, hl, List.length_nil] at this
      omega
    · intro c hc
      rcases List.mem_append.mp hc with h | h
      · exact hw c h
      · exact hf c (List.mem_of_mem_take h)
  simp only [parseAmount, if_neg h0, TrimSpace_of_no_space _ (decimal_no_space hw hf),
    SplitDot_one_dot w f (digits_no_dot hw) (digits_no_dot hf)]
  simp only [List.length_cons, List.length_nil, List.getD_cons_zero, List.getD_cons_succ]
  norm_num
  rw [hcut, SetString_of_numeral _ hnum, digitsValue_append, hl]
  congr 1

/-- The shape of `formatAmount` on a positive amount: an integer part, then,
unless it is empty, a decimal point and a fraction; the integer part has no
redundant leading zero, the fraction no trailing zero, and together they
spell the amount divided by `10^18`. -/
theorem formatAmount_pos (n : Nat) (hn : 0 < n) :
    ∃ whole dec : List Char,
      formatAmount (n : Int)
          = (if dec = [] then String.mk whole else String.mk (whole ++ '.' :: dec))
        ∧ whole ≠ [] ∧ (∀ c ∈ whole, c.isDigit = true) ∧ (∀ c ∈ dec, c.isDigit = true)
        ∧ dec.length ≤ 18 ∧ (∀ h : dec ≠ [], dec.getLast h ≠ '0')
        ∧ (whole = ['0'] ∨ whole.head? ≠ some '0')
        ∧ digitsValue whole * 10 ^ 18 + digitsValue dec * 10 ^ (18 - dec.length) = n := by
  obtain ⟨hd, hne, hv, hh⟩ := natDigits_spec (n + 1) n (Nat.lt_succ_self n)
  have hrender : BigInt.render (n : Int) = natDigits (n + 1) n := rfl
  generalize hs : natDigits (n + 1) n = s at hd hne hv hh hrender
  -- the padded digit string
  have hpadded : ∃ t : List Char, (if s.length ≤ 18 then zeros (19 - s.length) ++ s else s) = t
      ∧ 19 ≤ t.length ∧ (∀ c ∈ t, c.isDigit = true) ∧ digitsValue t = n
      ∧ (t.take (t.length - 18) = ['0'] ∨ (t.take (t.length - 18)).head? ≠ some '0') := by
    by_cases hle : s.length ≤ 18
    · refine ⟨zeros (19 - s.length) ++ s, by simp [hle], ?_, ?_, ?_, ?_⟩
      · rw [List.length_append, length_zeros]; omega
      · intro c hc
        rcases List.mem_append.mp hc with h | h
        · have : c = '0' := by simpa [zeros] using (List.mem_replicate.mp h).2
          subst this; decide
        · exact hd c h
      · rw [digitsValue_append, digitsValue_zeros, hv]; simp
      · left
        have hlen : (zeros (19 - s.length) ++ s).length - 18 = 1 := by
          rw [List.length_append, length_zeros]; omega
        rw [hlen]
        obtain ⟨k, hk⟩ : ∃ k, 19 - s.length = k + 1 := ⟨18 - s.length, by omega⟩
        rw [hk]
        simp [zeros, List.replicate_succ]
    · refine ⟨s, by simp [hle], by omega, hd, hv, ?_⟩
      right
      have hpos : 0 < s.length - 18 := by omega
      have h0 : n ≠ 0 := by omega
      cases hq : s with
      | nil => exact absurd hq hne
      | cons a as =>
        rw [hq] at hh hpos
        obtain ⟨k, hk⟩ : ∃ k, (a :: as).length - 18 = k + 1 :=
          ⟨(a :: as).length - 19, by omega⟩
        rw [hk]
        simpa using hh h0
  obtain ⟨t, ht, hlen, hdt, hvt, hcan⟩ := hpadded
  have hdrop : (t.drop (t.length - 18)).length = 18 := by
    rw [List.length_drop]; omega
  have htrim := TrimRightZeros_append_zeros (t.drop (t.length - 18))
  have hsplit : t.take (t.length - 18) ++ t.drop (t.length - 18) = t :=
    List.take_append_drop _ t
  have hdl : (TrimRightZeros (t.drop (t.length - 18))).length ≤ 18 := by
    have := congrArg List.length htrim
    rw [List.length_append, length_zeros, hdrop] at this
    omega
  refine ⟨t.take (t.length - 18), TrimRightZeros (t.drop (t.length - 18)), ?_, ?_, ?_, ?_,
    hdl, ?_, hcan, ?_⟩
  · have hn0 : ((n : Int) = 0) = False := by
      simp only [eq_iff_iff, iff_false]; omega
    simp only [formatAmount, hn0, if_false, hrender, ht]
  · intro h
    have := congrArg List.length h
    rw [List.length_take, List.length_nil] at this
    omega
  · intro c hc
    exact hdt c (List.mem_of_mem_take hc)
  · intro c hc
    exact hdt c (List.mem_of_mem_drop (TrimRightZeros_subset _ c hc))
  · intro h
    exact TrimRightZeros_last _ h
  · have h1 : digitsValue t = digitsValue (t.take (t.length - 18)) * 10 ^ 18
        + digitsValue (t.drop (t.length - 18)) := by
      conv_lhs => rw [← hsplit]
      rw [digitsValue_append, hdrop]
    have h2 : digitsValue (t.drop (t.length - 18))
        = digitsValue (TrimRightZeros (t.drop (t.length - 18)))
            * 10 ^ (18 - (TrimRightZeros (t.drop (t.length - 18))).length) := by
      conv_lhs => rw [← htrim]
      rw [digitsValue_append, digitsValue_zeros, length_zeros, hdrop]
      simp
    rw [← hvt, h1, h2]

/-- On every natural amount, `formatAmount` spells the amount divided by
`10^18`, canonically. -/
theorem formatAmount_value (n : Nat) :
    decimalValue (formatAmount (n : Int)) = (n : ℚ) / 10 ^ 18
      ∧ isCanonical (formatAmount (n : Int)) = true := by
  rcases Nat.eq_zero_or_pos n with h0 | hpos
  · subst h0
    refine ⟨?_, by decide⟩
    have h : formatAmount ((0 : Nat) : Int) = "0" := by decide
    rw [h]
    simp [decimalValue, SplitDot, digitsValue, digitVal]
  · obtain ⟨whole, dec, hfmt, hne, hw, hd, hlen, hlast, hcan, hval⟩ := formatAmount_pos n hpos
    have hnumw : isNumeral whole = true := (isNumeral_iff whole).mpr ⟨hne, hw⟩
    have hcanb : (decide (whole = ['0']) || decide (whole.head? ≠ some '0')) = true := by
      rcases hcan with h | h <;> simp [h]
    by_cases hdec : dec = []
    · subst hdec
      have hval' : digitsValue whole * 10 ^ 18 = n := by
        simpa [digitsValue] using hval
      rw [hfmt]
      simp only [if_true, decimalValue, isCanonical, SplitDot_no_dot whole (digits_no_dot hw),
        hnumw, hcanb, Bool.and_self, and_true]
      rw [← hval']
      simp only [Nat.cast_mul, Nat.cast_pow, Nat.cast_ofNat]
      exact (mul_div_cancel_right₀ _ (by positivity)).symm
    · have hnumd : isNumeral dec = true := (isNumeral_iff dec).mpr ⟨hdec, hd⟩
      have hl : decide (dec.getLast? ≠ some '0') = true := by
        rw [List.getLast?_eq_getLast dec hdec]
        simpa using hlast hdec
      rw [hfmt]
      simp only [if_neg hdec, decimalValue, isCanonical,
        SplitDot_one_dot whole dec (digits_no_dot hw) (digits_no_dot hd),
        hnumw, hcanb, hnumd, hl, Bool.and_self, and_true]
      have hp : (10 : ℚ) ^ 18 = 10 ^ (18 - dec.length) * 10 ^ dec.length := by
        rw [← pow_add]; congr 1; omega
      have hq : (n : ℚ) = (digitsValue whole : ℚ) * (10 ^ (18 - dec.length) * 10 ^ dec.length)
          + (digitsValue dec : ℚ) * 10 ^ (18 - dec.length) := by
        rw [← hval]
        simp only [Nat.cast_add, Nat.cast_mul, Nat.cast_pow, Nat.cast_ofNat]
        rw [hp]
      rw [hq, hp]
      have ha : (10 : ℚ) ^ (18 - dec.length) ≠ 0 := by positivity
      have hb : (10 : ℚ) ^ dec.length ≠ 0 := by positivity
      generalize (10 : ℚ) ^ (18 - dec.length) = a at ha
      generalize (10 : ℚ) ^ dec.length = b at hb
      field_simp
      ring

theorem all_digits {s : List Char} (h : s.all Char.isDigit = true) :
    ∀ c ∈ s, c.isDigit = true := by
  simpa [List.all_eq_true] using h

/-- C6: for a non-empty string of ASCII digits `w` and a string of ASCII
digits `f` of length at most 18, `parseAmount` of `w`, a decimal point and `f`
succeeds with `int(w) * 10^18 + int(f) * 10^(18 - len f)`, and `parseAmount`
of `w` alone succeeds with `int(w) * 10^18`. -/
theorem parseAmount_pads_fraction (w f : List Char) (hne : w ≠ [])
    (hw : w.all Char.isDigit = true) (hf : f.all Char.isDigit = true)
    (hlen : f.length ≤ 18) :
    parseAmount (String.mk (w ++ '.' :: f))
        = .ok ((digitsValue w : Int) * 10 ^ 18
            + (digitsValue f : Int) * 10 ^ (18 - f.length))
      ∧ parseAmount (String.mk w) = .ok ((digitsValue w : Int) * 10 ^ 18) :=
  ⟨parseAmount_padded w f (all_digits hw) (all_digits hf) hlen,
    parseAmount_whole w hne (all_digits hw)⟩

theorem parseAmount_pads_fraction_witness :
    parseAmount "12.5" = .ok 12500000000000000000
      ∧ parseAmount "12" = .ok 12000000000000000000 :=
  parseAmount_pads_fraction "12".data "5".data (by decide) (by decide) (by decide) (by decide)

/-- C7: for digit strings `w` and `f` with `f` longer than 18 digits,
`parseAmount` of `w`, a decimal point and `f` succeeds and gives the same
value as with `f` cut to its first 18 digits: the digits from the 19th on are
dropped without rounding. -/
theorem parseAmount_truncates (w f : List Char) (hw : w.all Char.isDigit = true)
    (hf : f.all Char.isDigit = true) (hlen : 18 < f.length) :
    parseAmount (String.mk (w ++ '.' :: f))
        = .ok ((digitsValue w : Int) * 10 ^ 18 + (digitsValue (f.take 18) : Int))
      ∧ parseAmount (String.mk (w ++ '.' :: f.take 18))
        = parseAmount (String.mk (w ++ '.' :: f)) := by
  have hf' := all_digits hf
  have h1 := parseAmount_cut w f (all_digits hw) hf' hlen
  have hl : (f.take 18).length = 18 := by rw [List.length_take]; omega
  have h2 := parseAmount_padded w (f.take 18) (all_digits hw)
    (fun c hc => hf' c (List.mem_of_mem_take hc)) (by omega)
  refine ⟨h1, ?_⟩
  rw [h1, h2, hl]
  simp

theorem parseAmount_truncates_witness :
    parseAmount "1.123456789012345678901" = .ok 1123456789012345678
      ∧ parseAmount "1.123456789012345678" = parseAmount "1.123456789012345678901" :=
  parseAmount_truncates "1".data "123456789012345678901".data (by decide) (by decide)
    (by decide)

/-- C8: for every non-negative scaled integer `x`, `parseAmount` applied to
`formatAmount x` succeeds and returns `x`. -/
theorem parse_format_roundtrip (x : Int) (hx : 0 ≤ x) :
    parseAmount (formatAmount x) = .ok x := by
  obtain ⟨n, rfl⟩ := Int.eq_ofNat_of_zero_le hx
  rcases Nat.eq_zero_or_pos n with h0 | hpos
  · subst h0; decide
  · obtain ⟨whole, dec, hfmt, hne, hw, hd, hlen, _, _, hval⟩ := formatAmount_pos n hpos
    rw [hfmt]
    by_cases hdec : dec = []
    · subst hdec
      rw [if_pos rfl, parseAmount_whole whole hne hw]
      congr 1
      rw [← hval]
      simp [digitsValue]
    · rw [if_neg hdec, parseAmount_padded whole dec hw hd hlen]
      congr 1
      rw [← hval]
      push_cast
      ring

theorem parse_format_roundtrip_witness :
    parseAmount (formatAmount 1500000000000000000) = .ok 1500000000000000000 :=
  parse_format_roundtrip 1500000000000000000 (by decide)

/-- C9: for a non-empty digit string `w`, optionally followed by a decimal
point and a digit string `f` of at most 18 digits, `parseAmount` succeeds and
`formatAmount` of the result denotes the same decimal value as the input and
is canonically spelled (no redundant leading zero, no trailing zero in the
fraction, no decimal point before an empty fraction). -/
theorem format_parse_canonical (w f : List Char) (hne : w ≠ [])
    (hw : w.all Char.isDigit = true) (hf : f.all Char.isDigit = true)
    (hlen : f.length ≤ 18) :
    (∃ x, parseAmount (String.mk w) = .ok x
        ∧ decimalValue (formatAmount x) = decimalValue (String.mk w)
        ∧ isCanonical (formatAmount x) = true)
      ∧ (∃ x, parseAmount (String.mk (w ++ '.' :: f)) = .ok x
        ∧ decimalValue (formatAmount x) = decimalValue (String.mk (w ++ '.' :: f))
        ∧ isCanonical (formatAmount x) = true) := by
  have hw' := all_digits hw
  have hf' := all_digits hf
  constructor
  · refine ⟨((digitsValue w * 10 ^ 18 : Nat) : Int), ?_, ?_, ?_⟩
    · rw [parseAmount_whole w hne hw']; simp
    · rw [(formatAmount_value _).1]
      simp only [decimalValue, SplitDot_no_dot w (digits_no_dot hw'), Nat.cast_mul,
        Nat.cast_pow, Nat.cast_ofNat]
      exact mul_div_cancel_right₀ _ (by positivity)
    · exact (formatAmount_value _).2
  · refine ⟨((digitsValue w * 10 ^ 18 + digitsValue f * 10 ^ (18 - f.length) : Nat) : Int),
      ?_, ?_, ?_⟩
    · rw [parseAmount_padded w f hw' hf' hlen]; congr 1; push_cast; ring
    · rw [(formatAmount_value _).1]
      simp only [decimalValue, SplitDot_one_dot w f (digits_no_dot hw') (digits_no_dot hf'),
        Nat.cast_add, Nat.cast_mul, Nat.cast_pow, Nat.cast_ofNat]
      have hp : (10 : ℚ) ^ 18 = 10 ^ (18 - f.length) * 10 ^ f.length := by
        rw [← pow_add]; congr 1; omega
      rw [hp]
      have ha : (10 : ℚ) ^ (18 - f.length) ≠ 0 := by positivity
      have hb : (10 : ℚ) ^ f.length ≠ 0 := by positivity
      generalize (10 : ℚ) ^ (18 - f.length) = a at ha
      generalize (10 : ℚ) ^ f.length = b at hb
      field_simp
      ring
    · exact (formatAmount_value _).2

theorem format_parse_canonical_witness :
    (∃ x, parseAmount "007" = .ok x
        ∧ decimalValue (formatAmount x) = decimalValue "007"
        ∧ isCanonical (formatAmount x) = true)
      ∧ (∃ x, parseAmount "007.50" = .ok x
        ∧ decimalValue (formatAmount x) = decimalValue "007.50"
        ∧ isCanonical (formatAmount x) = true) :=
  format_parse_canonical "007".data "50".data (by decide) (by decide) (by decide) (by decide)

/-! ### The ledger on concrete invocations -/

/-- C1: on a fresh ledger `Mint(A, "10")` and then `Mint(B, "5")` both succeed,
and in the committed state the stored total supply is
`10000000000000000005000000000000000000` while the stored balances add up to
`15000000000000000000`: the second `Mint` reads the raw supply back through
`parseAmount`, which scales it by `10^18` once more. -/
theorem supply_differs_from_balance_sum :
    (invoke fresh (.mint "A" "10")).err = none
      ∧ (invoke (run fresh [.mint "A" "10"]) (.mint "B" "5")).err = none
      ∧ storedSupply (run fresh [.mint "A" "10", .mint "B" "5"])
          = some 10000000000000000005000000000000000000
      ∧ balanceSum (run fresh [.mint "A" "10", .mint "B" "5"])
          = some 15000000000000000000 := by
  decide

/-- C2: on a fresh ledger, after the successful `Mint(A, "10")` and
`Mint(B, "5")`, `TotalSupply` returns
`"10000000000000000005000000000000000000"`, whereas the sum of the parsed
amounts is `15000000000000000000`. -/
theorem totalSupply_after_two_mints :
    TotalSupply (run fresh [.mint "A" "10", .mint "B" "5"])
        = .ok "10000000000000000005000000000000000000"
      ∧ parseAmount "10" = .ok 10000000000000000000
      ∧ parseAmount "5" = .ok 5000000000000000000 := by
  decide

/-- C3: after `Mint(A, "1")` on a fresh ledger the balance record of `A` holds
the raw decimal string of `10^18`, and `BalanceOf(A)` returns the decimal
string of `10^36`, not that of `10^18`. -/
theorem balanceOf_rescales_raw_amount :
    GetState (run fresh [.mint "A" "1"]) (balanceKey "A")
        = some (.balance ⟨"A", BigInt.toStr 1000000000000000000⟩)
      ∧ BalanceOf (run fresh [.mint "A" "1"]) "A"
        = .ok (BigInt.toStr 1000000000000000000000000000000000000) := by
  decide

/-- C4: after `Mint(A, "1")` on a fresh ledger, `Transfer(A, B, "1")` and then
`Transfer(B, A, "1")` both succeed, but `BalanceOf(A)` and `BalanceOf(B)` do
not return to the values they had before the first transfer. -/
theorem transfer_round_trip_changes_balances :
    (invoke (run fresh [.mint "A" "1"]) (.transfer "A" "B" "1")).err = none
      ∧ (invoke (run fresh [.mint "A" "1", .transfer "A" "B" "1"])
          (.transfer "B" "A" "1")).err = none
      ∧ BalanceOf (run fresh [.mint "A" "1"]) "A"
          = .ok "1000000000000000000000000000000000000"
      ∧ BalanceOf (run fresh [.mint "A" "1", .transfer "A" "B" "1", .transfer "B" "A" "1"]) "A"
          = .ok ("999999999999999999999999999999999999000000000000000000"
              ++ "000000000000000001000000000000000000000000000000000000")
      ∧ BalanceOf (run fresh [.mint "A" "1"]) "B" = .ok "0"
      ∧ BalanceOf (run fresh [.mint "A" "1", .transfer "A" "B" "1", .transfer "B" "A" "1"]) "B"
          = .ok "999999999999999999999999999999999999000000000000000000000000000000000000" := by
  decide

/-- C5: after `Mint(A, "1")` on a fresh ledger `BalanceOf(A)` returns `10^36`;
the amount `"2000000000000000000"` parses to `2 * 10^36`, which is greater,
yet `Burn(A, "2000000000000000000")` returns no error, rewrites the balance
record of `A` and drives the stored total supply to `-10^36`. -/
theorem burn_above_balance_succeeds :
    BalanceOf (run fresh [.mint "A" "1"]) "A"
        = .ok (BigInt.toStr 1000000000000000000000000000000000000)
      ∧ parseAmount "2000000000000000000" = .ok 2000000000000000000000000000000000000
      ∧ (Burn (run fresh [.mint "A" "1"]) "A" "2000000000000000000").err = none
      ∧ GetState (Burn (run fresh [.mint "A" "1"]) "A" "2000000000000000000").state
          (balanceKey "A")
        = some (.balance ⟨"A", "999999999999999998000000000000000000000000000000000000"⟩)
      ∧ storedSupply (Burn (run fresh [.mint "A" "1"]) "A" "2000000000000000000").state
        = some (-1000000000000000000000000000000000000) := by
  decide

end BobCoin

namespace Stub

theorem GetState_store_self {V : Type} (ws : List (String × V)) (key : String) (value : V) :
    GetState (store ws key value) key = some value := by
  induction ws with
  | nil => simp [store, GetState]
  | cons p rest ih =>
    obtain ⟨k, v⟩ := p
    by_cases h : k = key
    · simp [store, GetState, h]
    · simp [store, GetState, h, ih]

theorem GetState_store_other {V : Type} (ws : List (String × V)) (key other : String)
    (value : V) (h : other ≠ key) :
    GetState (store ws key value) other = GetState ws other := by
  induction ws with
  | nil => simp [store, GetState, Ne.symm h]
  | cons p rest ih =>
    obtain ⟨k, v⟩ := p
    by_cases hk : k = key
    · subst hk
      simp [store, GetState, Ne.symm h]
    · by_cases ho : k = other
      · subst ho
        simp [store, GetState, hk]
      · simp [store, GetState, hk, ho, ih]

theorem PutState_ok {V : Type} {ws ws1 : List (String × V)} {key : String} {value : V}
    (h : PutState ws key value = .ok ws1) : key ≠ "" ∧ ws1 = store ws key value := by
  unfold PutState at h
  by_cases hk : key = ""
  · simp [hk] at h
  · simp only [hk, if_false, Except.ok.injEq] at h
    exact ⟨hk, h.symm⟩

theorem PutState_of_ne {V : Type} (ws : List (String × V)) {key : String} (value : V)
    (h : key ≠ "") : PutState ws key value = .ok (store ws key value) := by
  simp [PutState, h]

end Stub

namespace Escrow

open Stub

theorem GetContract_ok {ws : WorldState} {contractID : String} {c : EscrowContractData}
    (h : GetContract ws contractID = .ok c) : GetState ws contractID = some (.contract c) := by
  unfold GetContract at h
  cases hg : GetState ws contractID with
  | none => rw [hg] at h; simp at h
  | some v =>
    rw [hg] at h
    cases v with
    | contract c1 =>
      simp only [unmarshalContract, Except.ok.injEq] at h
      rw [h]
    | indexEntry => simp [unmarshalContract] at h

theorem GetContract_of_stored {ws : WorldState} {contractID : String}
    {c : EscrowContractData} (h : GetState ws contractID = some (.contract c)) :
    GetContract ws contractID = .ok c := by
  simp [GetContract, h, unmarshalContract]

/-- What a successful `CreateContract` has written. -/
theorem CreateContract_ok {ws ws1 : WorldState} {contractID projectID clientAddress
    freelancerAddress totalAmount createdAt updatedAt : String} {ms : List Milestone}
    (h : CreateContract ws contractID projectID clientAddress freelancerAddress totalAmount
      (.ok ms) createdAt updatedAt = ⟨none, ws1⟩) :
    contractID ≠ "" ∧ ∃ key, ws1 = store (store ws contractID (.contract
      { ContractID := contractID, ProjectID := projectID, ClientAddress := clientAddress,
        FreelancerAddress := freelancerAddress, TotalAmount := totalAmount,
        LockedAmount := "0", Status := "CREATED",
        Milestones := ms.map (fun m => { m with Status := "PENDING" }),
        CreatedAt := createdAt, UpdatedAt := updatedAt })) key .indexEntry := by
  unfold CreateContract at h
  cases hg : GetState ws contractID with
  | some v => rw [hg] at h; simp at h
  | none =>
    rw [hg] at h
    by_cases hc : contractID = ""
    · simp [PutState, hc] at h
    · simp only [PutState, hc, if_false] at h
      cases hk : CreateCompositeKey "project" [projectID, contractID] with
      | error e => rw [hk] at h; simp at h
      | ok key =>
        rw [hk] at h
        by_cases hk0 : key = ""
        · simp [hk0] at h
        · simp only [hk0, if_false, Outcome.mk.injEq, true_and] at h
          exact ⟨hc, key, h.symm⟩

/-- What a successful `LockFunds` has read and written. -/
theorem LockFunds_ok {ws ws1 : WorldState} {contractID amount now : String}
    (h : LockFunds ws contractID amount now = ⟨none, ws1⟩) :
    ∃ c, GetState ws contractID = some (.contract c)
      ∧ ws1 = store ws contractID
          (.contract { c with LockedAmount := amount, Status := "FUNDED", UpdatedAt := now }) := by
  unfold LockFunds at h
  cases hg : GetContract ws contractID with
  | error e => rw [hg] at h; simp at h
  | ok c =>
    rw [hg] at h
    simp only at h
    by_cases hs : c.Status ≠ "CREATED" ∧ c.Status ≠ "FUNDED"
    · simp [hs] at h
    · rw [if_neg hs] at h
      by_cases hc : contractID = ""
      · simp [PutState, hc] at h
      · simp only [PutState, hc, if_false, Outcome.mk.injEq, true_and] at h
        exact ⟨c, GetContract_ok hg, h.symm⟩

/-- The search loop of `ReleaseMilestone` on distinct identifiers: a pending
milestone that is present is found and released, and nothing else changes. -/
theorem findAndRelease_pending (l : List Milestone) (released : List String)
    (milestoneID now : String)
    (hnd : (l.map (fun m => m.MilestoneID)).Nodup)
    (hmem : milestoneID ∈ l.map (fun m => m.MilestoneID))
    (hnew : milestoneID ∉ released)
    (hst : ∀ m ∈ l, m.Status = if m.MilestoneID ∈ released then "RELEASED" else "PENDING") :
    ∃ l1, findAndRelease l milestoneID now = .ok (l1, true)
      ∧ l1.map (fun m => m.MilestoneID) = l.map (fun m => m.MilestoneID)
      ∧ ∀ m ∈ l1, m.Status
          = if m.MilestoneID ∈ milestoneID :: released then "RELEASED" else "PENDING" := by
  induction l with
  | nil => simp at hmem
  | cons m rest ih =>
    simp only [List.map_cons, List.nodup_cons] at hnd
    obtain ⟨hm, hrest⟩ := hnd
    by_cases heq : m.MilestoneID = milestoneID
    · have hp : m.Status = "PENDING" := by
        have := hst m (List.mem_cons_self m rest)
        rw [heq, if_neg hnew] at this
        exact this
      refine ⟨{ m with Status := "RELEASED", ReleasedAt := now } :: rest, ?_, ?_, ?_⟩
      · simp [findAndRelease, heq, hp]
      · simp
      · intro x hx
        rcases List.mem_cons.mp hx with hx | hx
        · subst hx
          simp [heq]
        · have hxid : x.MilestoneID ≠ milestoneID := by
            intro hc
            apply hm
            rw [heq, ← hc]
            exact List.mem_map_of_mem _ hx
          have := hst x (List.mem_cons_of_mem m hx)
          rw [this]
          simp [hxid]
    · have hmem' : milestoneID ∈ rest.map (fun m => m.MilestoneID) := by
        simp only [List.map_cons, List.mem_cons] at hmem
        rcases hmem with h | h
        · exact absurd h.symm heq
        · exact h
      obtain ⟨l1, h1, h2, h3⟩ := ih hrest hmem'
        (fun x hx => hst x (List.mem_cons_of_mem m hx))
      refine ⟨m :: l1, ?_, ?_, ?_⟩
      · simp [findAndRelease, heq, h1]
      · simp [h2]
      · intro x hx
        rcases List.mem_cons.mp hx with hx | hx
        · subst hx
          have := hst x (List.mem_cons_self x rest)
          rw [this]
          simp [heq]
        · exact h3 x hx

/-- The completion test of `ReleaseMilestone` holds exactly when every
identifier has been released. -/
theorem allReleased_iff (l : List Milestone) (released : List String)
    (hst : ∀ m ∈ l, m.Status = if m.MilestoneID ∈ released then "RELEASED" else "PENDING") :
    allReleased l = true ↔ ∀ i ∈ l.map (fun m => m.MilestoneID), i ∈ released := by
  simp only [allReleased, List.all_eq_true, decide_eq_true_eq, List.mem_map,
    forall_exists_index, and_imp, forall_apply_eq_imp_iff₂]
  constructor
  · intro h m hm
    have h1 := h m hm
    have h2 := hst m hm
    by_contra hc
    rw [if_neg hc] at h2
    rw [h2] at h1
    exact absurd h1 (by decide)
  · intro h m hm
    have h2 := hst m hm
    rw [if_pos (h m hm)] at h2
    exact h2

/-- Distinct released identifiers cover the distinct identifiers of a contract
exactly when there are as many of them. -/
theorem covers_iff_length (ids released : List String) (hr : released.Nodup)
    (hsub : ∀ i ∈ released, i ∈ ids) (hids : ids.Nodup) :
    (∀ i ∈ ids, i ∈ released) ↔ released.length = ids.length := by
  have h1 : released.length ≤ ids.length :=
    (List.subperm_of_subset hr hsub).length_le
  constructor
  · intro h
    have h2 : ids.length ≤ released.length := (List.subperm_of_subset hids h).length_le
    omega
  · intro h i hi
    have hp : released.Perm ids :=
      (List.subperm_of_subset hr hsub).perm_of_length_le (by omega)
    exact hp.symm.subset hi

/-- One release on a funded or running contract with distinct milestone
identifiers: releasing a pending milestone succeeds, marks that milestone,
and completes the contract exactly when it was the last one. -/
theorem ReleaseMilestone_step (ws : WorldState) (contractID : String)
    (c : EscrowContractData) (released : List String)
    (milestoneID releasedAt updatedAt : String)
    (hget : GetState ws contractID = some (.contract c)) (hcid : contractID ≠ "")
    (hstatus : c.Status = "FUNDED" ∨ c.Status = "IN_PROGRESS")
    (hnd : (c.Milestones.map (fun m => m.MilestoneID)).Nodup)
    (hst : ∀ m ∈ c.Milestones,
      m.Status = if m.MilestoneID ∈ released then "RELEASED" else "PENDING")
    (hr : released.Nodup)
    (hsub : ∀ i ∈ released, i ∈ c.Milestones.map (fun m => m.MilestoneID))
    (hmem : milestoneID ∈ c.Milestones.map (fun m => m.MilestoneID))
    (hnew : milestoneID ∉ released) :
    ∃ ws1 c1, ReleaseMilestone ws contractID milestoneID releasedAt updatedAt = ⟨none, ws1⟩
      ∧ GetState ws1 contractID = some (.contract c1)
      ∧ c1.Milestones.map (fun m => m.MilestoneID)
          = c.Milestones.map (fun m => m.MilestoneID)
      ∧ (∀ m ∈ c1.Milestones, m.Status
          = if m.MilestoneID ∈ milestoneID :: released then "RELEASED" else "PENDING")
      ∧ c1.Status
          = if released.length + 1 = c.Milestones.length then "COMPLETED" else "IN_PROGRESS" := by
  obtain ⟨l1, hfind, hids, hst1⟩ :=
    findAndRelease_pending c.Milestones released milestoneID releasedAt hnd hmem hnew hst
  have hguard : ¬ (c.Status ≠ "FUNDED" ∧ c.Status ≠ "IN_PROGRESS") := by
    rcases hstatus with h | h <;> simp [h]
  have hr1 : (milestoneID :: released).Nodup := List.nodup_cons.mpr ⟨hnew, hr⟩
  have hsub1 : ∀ i ∈ milestoneID :: released, i ∈ l1.map (fun m => m.MilestoneID) := by
    intro i hi
    rw [hids]
    rcases List.mem_cons.mp hi with h | h
    · rw [h]; exact hmem
    · exact hsub i h
  have hnd1 : (l1.map (fun m => m.MilestoneID)).Nodup := by rw [hids]; exact hnd
  have hall : allReleased l1 = true ↔ released.length + 1 = c.Milestones.length := by
    rw [allReleased_iff l1 (milestoneID :: released) hst1,
      covers_iff_length _ _ hr1 hsub1 hnd1]
    have hlen : (l1.map (fun m => m.MilestoneID)).length = c.Milestones.length := by
      rw [hids, List.length_map]
    rw [hlen, List.length_cons]
  by_cases hdone : released.length + 1 = c.Milestones.length
  · have ha : allReleased l1 = true := hall.mpr hdone
    refine ⟨store ws contractID (.contract
      { c with Milestones := l1, Status := "COMPLETED", UpdatedAt := updatedAt }), _, ?_,
      GetState_store_self _ _ _, hids, hst1, ?_⟩
    · simp [ReleaseMilestone, GetContract_of_stored hget, hguard, hfind, ha,
        PutState_of_ne _ _ hcid]
    · simp [hdone]
  · have ha : allReleased l1 = false := by
      cases hb : allReleased l1 with
      | false => rfl
      | true => exact absurd (hall.mp hb) hdone
    refine ⟨store ws contractID (.contract
      { c with Milestones := l1, Status := "IN_PROGRESS", UpdatedAt := updatedAt }), _, ?_,
      GetState_store_self _ _ _, hids, hst1, ?_⟩
    · simp [ReleaseMilestone, GetContract_of_stored hget, hguard, hfind, ha,
        PutState_of_ne _ _ hcid]
    · simp [hdone]

/-- Releasing distinct pending milestones one after the other: every release
succeeds, and the status after the last one is `COMPLETED` if no milestone is
left and `IN_PROGRESS` otherwise. -/
theorem releaseAll_status (rel : List Release) :
    ∀ (ws : WorldState) (contractID : String) (c : EscrowContractData)
      (released : List String),
      GetState ws contractID = some (.contract c) → contractID ≠ "" →
      (c.Status = "FUNDED" ∨ c.Status = "IN_PROGRESS") →
      (c.Milestones.map (fun m => m.MilestoneID)).Nodup →
      (∀ m ∈ c.Milestones,
        m.Status = if m.MilestoneID ∈ released then "RELEASED" else "PENDING") →
      (∀ i ∈ released, i ∈ c.Milestones.map (fun m => m.MilestoneID)) →
      rel ≠ [] → (rel.map (fun r => r.milestoneID) ++ released).Nodup →
      (∀ i ∈ rel.map (fun r => r.milestoneID),
        i ∈ c.Milestones.map (fun m => m.MilestoneID)) →
      ∃ ws1 c1, releaseAll ws contractID rel = .ok ws1
        ∧ GetContract ws1 contractID = .ok c1
        ∧ c1.Status = if released.length + rel.length = c.Milestones.length
            then "COMPLETED" else "IN_PROGRESS" := by
  induction rel with
  | nil => intro _ _ _ _ _ _ _ _ _ _ hne; exact absurd rfl hne
  | cons r rest ih =>
    intro ws contractID c released hget hcid hstatus hnd hst hsub _ hnodup hin
    simp only [List.map_cons, List.cons_append, List.nodup_cons, List.mem_append,
      not_or] at hnodup
    obtain ⟨⟨hr_rest, hr_new⟩, hrest_nd⟩ := hnodup
    have hr : released.Nodup := (List.nodup_append.mp hrest_nd).2.1
    have hmem : r.milestoneID ∈ c.Milestones.map (fun m => m.MilestoneID) :=
      hin _ (by simp)
    obtain ⟨ws1, c1, hrel, hget1, hids1, hst1, hstat1⟩ :=
      ReleaseMilestone_step ws contractID c released r.milestoneID r.releasedAt r.updatedAt
        hget hcid hstatus hnd hst hr hsub hmem hr_new
    have hlen1 : c1.Milestones.length = c.Milestones.length := by
      have := congrArg List.length hids1
      simpa using this
    by_cases hrest : rest = []
    · subst hrest
      refine ⟨ws1, c1, ?_, GetContract_of_stored hget1, ?_⟩
      · simp [releaseAll, hrel]
      · rw [hstat1]; simp
    · -- a further milestone is still pending, so the contract is not complete
      obtain ⟨r2, rest2, hr2⟩ : ∃ r2 rest2, rest = r2 :: rest2 := by
        cases rest with
        | nil => exact absurd rfl hrest
        | cons a b => exact ⟨a, b, rfl⟩
      have hr2mem : r2.milestoneID ∈ c.Milestones.map (fun m => m.MilestoneID) :=
        hin _ (by simp [hr2])
      have hthree : (r2.milestoneID :: r.milestoneID :: released).Nodup := by
        refine List.nodup_cons.mpr ⟨?_, List.nodup_cons.mpr ⟨hr_new, hr⟩⟩
        intro hc
        rcases List.mem_cons.mp hc with h | h
        · apply hr_rest
          rw [← h, hr2]
          simp
        · have hd := (List.nodup_append.mp hrest_nd).2.2
          exact hd (by simp [hr2]) h
      have hbound : released.length + 2 ≤ c.Milestones.length := by
        have hs : ∀ i ∈ r2.milestoneID :: r.milestoneID :: released,
            i ∈ c.Milestones.map (fun m => m.MilestoneID) := by
          intro i hi
          rcases List.mem_cons.mp hi with h | h
          · rw [h]; exact hr2mem
          · rcases List.mem_cons.mp h with h | h
            · rw [h]; exact hmem
            · exact hsub i h
        have := (List.subperm_of_subset hthree hs).length_le
        simpa using this
      have hprog : c1.Status = "IN_PROGRESS" := by
        rw [hstat1, if_neg (by omega)]
      have hsub1 : ∀ i ∈ r.milestoneID :: released,
          i ∈ c1.Milestones.map (fun m => m.MilestoneID) := by
        intro i hi
        rw [hids1]
        rcases List.mem_cons.mp hi with h | h
        · rw [h]; exact hmem
        · exact hsub i h
      have hnodup1 : (rest.map (fun r => r.milestoneID) ++ r.milestoneID :: released).Nodup := by
        rw [List.nodup_append]
        refine ⟨(List.nodup_append.mp hrest_nd).1, List.nodup_cons.mpr ⟨hr_new, hr⟩, ?_⟩
        intro a ha hb
        rcases List.mem_cons.mp hb with h | h
        · exact hr_rest (by rw [← h]; exact ha)
        · exact (List.nodup_append.mp hrest_nd).2.2 ha h
      obtain ⟨ws2, c2, hall, hget2, hstat2⟩ :=
        ih ws1 contractID c1 (r.milestoneID :: released) hget1 hcid (Or.inr hprog)
          (by rw [hids1]; exact hnd) hst1 hsub1 hrest hnodup1
          (fun i hi => by rw [hids1]; exact hin i (by simp [hi]))
      refine ⟨ws2, c2, ?_, hget2, ?_⟩
      · simp [releaseAll, hrel, hall]
      · have he : ((r.milestoneID :: released).length + rest.length = c1.Milestones.length)
            ↔ (released.length + (r :: rest).length = c.Milestones.length) := by
          simp only [List.length_cons, hlen1]
          omega
        rw [hstat2]
        exact if_congr he rfl rfl

/-- C10: for a contract created with milestones of pairwise distinct
identifiers and then funded with `LockFunds`, releasing any non-empty
selection of its milestones one by one, each once, in any order, succeeds at
every step and leaves the status `COMPLETED` when all milestones have been
released and `IN_PROGRESS` when at least one is left. -/
theorem release_in_any_order (ws ws1 ws2 : WorldState) (contractID projectID
    clientAddress freelancerAddress totalAmount createdAt updatedAt amount
    lockedAt : String) (ms : List Milestone) (rel : List Release)
    (hcreate : CreateContract ws contractID projectID clientAddress freelancerAddress
      totalAmount (.ok ms) createdAt updatedAt = ⟨none, ws1⟩)
    (hlock : LockFunds ws1 contractID amount lockedAt = ⟨none, ws2⟩)
    (hids : (ms.map (fun m => m.MilestoneID)).Nodup)
    (hrel : rel ≠ [])
    (hnd : (rel.map (fun r => r.milestoneID)).Nodup)
    (hin : ∀ i ∈ rel.map (fun r => r.milestoneID), i ∈ ms.map (fun m => m.MilestoneID)) :
    ∃ ws3 c, releaseAll ws2 contractID rel = .ok ws3
      ∧ GetContract ws3 contractID = .ok c
      ∧ c.Status = if rel.length = ms.length then "COMPLETED" else "IN_PROGRESS" := by
  obtain ⟨hcid, key, hws1⟩ := CreateContract_ok hcreate
  obtain ⟨c1, hget1, hws2⟩ := LockFunds_ok hlock
  -- the record `LockFunds` read is the one `CreateContract` wrote
  have hc1 : c1.Milestones = ms.map (fun m => { m with Status := "PENDING" }) := by
    rw [hws1] at hget1
    by_cases hk : contractID = key
    · rw [hk, GetState_store_self] at hget1
      simp at hget1
    · rw [GetState_store_other _ _ _ _ hk, GetState_store_self] at hget1
      simp only [Option.some.injEq, Value.contract.injEq] at hget1
      rw [← hget1]
  have hmsids : (ms.map (fun m => ({ m with Status := "PENDING" } : Milestone))).map
      (fun m => m.MilestoneID) = ms.map (fun m => m.MilestoneID) := by
    simp [List.map_map, Function.comp_def]
  have hget2 : GetState ws2 contractID = some (.contract
      { c1 with LockedAmount := amount, Status := "FUNDED", UpdatedAt := lockedAt }) := by
    rw [hws2]; exact GetState_store_self _ _ _
  obtain ⟨ws3, c, h1, h2, h3⟩ := releaseAll_status rel ws2 contractID
    { c1 with LockedAmount := amount, Status := "FUNDED", UpdatedAt := lockedAt } []
    hget2 hcid (Or.inl rfl)
    (by simp only [hc1, hmsids]; exact hids)
    (by
      intro m hm
      simp only [hc1, List.mem_map] at hm
      obtain ⟨m0, _, rfl⟩ := hm
      simp)
    (by simp) hrel (by simpa using hnd)
    (by simp only [hc1, hmsids]; exact hin)
  refine ⟨ws3, c, h1, h2, ?_⟩
  rw [h3]
  simp [hc1]

theorem release_in_any_order_witness :
    (∃ ws3 c, releaseAll sampleFunded "c1" [⟨"m3", "t1", "t1"⟩, ⟨"m1", "t2", "t2"⟩] = .ok ws3
        ∧ GetContract ws3 "c1" = .ok c ∧ c.Status = "IN_PROGRESS")
      ∧ (∃ ws3 c, releaseAll sampleFunded "c1"
            [⟨"m3", "t1", "t1"⟩, ⟨"m1", "t2", "t2"⟩, ⟨"m2", "t3", "t3"⟩] = .ok ws3
        ∧ GetContract ws3 "c1" = .ok c ∧ c.Status = "COMPLETED") :=
  ⟨release_in_any_order [] sampleCreated sampleFunded "c1" "p1" "client" "freelancer" "60"
      "2024-01-01T00:00:00Z" "2024-01-01T00:00:00Z" "60" "2024-01-02T00:00:00Z"
      sampleMilestones [⟨"m3", "t1", "t1"⟩, ⟨"m1", "t2", "t2"⟩]
      (by decide) (by decide) (by decide) (by decide) (by decide) (by decide),
    release_in_any_order [] sampleCreated sampleFunded "c1" "p1" "client" "freelancer" "60"
      "2024-01-01T00:00:00Z" "2024-01-01T00:00:00Z" "60" "2024-01-02T00:00:00Z"
      sampleMilestones [⟨"m3", "t1", "t1"⟩, ⟨"m1", "t2", "t2"⟩, ⟨"m2", "t3", "t3"⟩]
      (by decide) (by decide) (by decide) (by decide) (by decide) (by decide)⟩

end Escrow

namespace Escrow

open Stub

/-! ### One invocation at a time -/

/-- `LockFunds` either fails without a write, or rewrites the record of a
contract that was `CREATED` or `FUNDED`. -/
theorem LockFunds_cases (ws : WorldState) (contractID amount now : String) :
    ((LockFunds ws contractID amount now).err ≠ none
        ∧ (LockFunds ws contractID amount now).state = ws)
      ∨ ∃ c, GetState ws contractID = some (.contract c)
        ∧ (c.Status = "CREATED" ∨ c.Status = "FUNDED") ∧ contractID ≠ ""
        ∧ LockFunds ws contractID amount now = ⟨none, store ws contractID (.contract
            { c with LockedAmount := amount, Status := "FUNDED", UpdatedAt := now })⟩ := by
  unfold LockFunds
  cases hg : GetContract ws contractID with
  | error e => left; simp
  | ok c =>
    by_cases hs : c.Status ≠ "CREATED" ∧ c.Status ≠ "FUNDED"
    · left; simp [hs]
    · by_cases hc : contractID = ""
      · left; simp [hs, PutState, hc]
      · right
        refine ⟨c, GetContract_ok hg, ?_, hc, ?_⟩
        · by_cases h1 : c.Status = "CREATED"
          · exact Or.inl h1
          · right
            by_contra h2
            exact hs ⟨h1, h2⟩
        · simp [hs, PutState, hc]

/-- The search loop of `ReleaseMilestone` changes at most one milestone, a
pending one with the requested identifier, and only its status and release
time. -/
theorem findAndRelease_pointwise (l : List Milestone) (milestoneID now : String) :
    ∀ (l1 : List Milestone) (found : Bool),
      findAndRelease l milestoneID now = .ok (l1, found) →
      List.Forall₂ (fun m m1 => m1 = m ∨ (m.MilestoneID = milestoneID ∧ m.Status = "PENDING"
        ∧ m1 = { m with Status := "RELEASED", ReleasedAt := now })) l l1 := by
  induction l with
  | nil =>
    intro l1 found h
    simp only [findAndRelease, Except.ok.injEq, Prod.mk.injEq] at h
    rw [← h.1]
    exact List.Forall₂.nil
  | cons m rest ih =>
    intro l1 found h
    unfold findAndRelease at h
    by_cases heq : m.MilestoneID = milestoneID
    · by_cases hp : m.Status = "PENDING"
      · simp only [heq, hp, if_true, ne_eq, not_true_eq_false, if_false, Except.ok.injEq,
          Prod.mk.injEq] at h
        rw [← h.1]
        refine List.Forall₂.cons (Or.inr ⟨heq, hp, by rw [heq]⟩) ?_
        exact List.forall₂_same.mpr (fun x _ => Or.inl rfl)
      · simp [heq, hp] at h
    · simp only [heq, if_false] at h
      cases hr : findAndRelease rest milestoneID now with
      | error e => rw [hr] at h; simp at h
      | ok p =>
        obtain ⟨rest1, f⟩ := p
        rw [hr] at h
        simp only [Except.ok.injEq, Prod.mk.injEq] at h
        rw [← h.1]
        exact List.Forall₂.cons (Or.inl rfl) (ih rest1 f hr)

/-- `ReleaseMilestone` either fails without a write, or rewrites the record of
a contract that was `FUNDED` or `IN_PROGRESS` with the milestones the search
loop returns. -/
theorem ReleaseMilestone_cases (ws : WorldState)
    (contractID milestoneID releasedAt updatedAt : String) :
    ((ReleaseMilestone ws contractID milestoneID releasedAt updatedAt).err ≠ none
        ∧ (ReleaseMilestone ws contractID milestoneID releasedAt updatedAt).state = ws)
      ∨ ∃ c l1, GetState ws contractID = some (.contract c)
        ∧ (c.Status = "FUNDED" ∨ c.Status = "IN_PROGRESS") ∧ contractID ≠ ""
        ∧ findAndRelease c.Milestones milestoneID releasedAt = .ok (l1, true)
        ∧ ReleaseMilestone ws contractID milestoneID releasedAt updatedAt
          = ⟨none, store ws contractID (.contract
              { c with Milestones := l1,
                       Status := if allReleased l1 then "COMPLETED" else "IN_PROGRESS",
                       UpdatedAt := updatedAt })⟩ := by
  unfold ReleaseMilestone
  cases hg : GetContract ws contractID with
  | error e => left; simp
  | ok c =>
    by_cases hs : c.Status ≠ "FUNDED" ∧ c.Status ≠ "IN_PROGRESS"
    · left; simp [hs]
    · cases hf : findAndRelease c.Milestones milestoneID releasedAt with
      | error e => left; simp [hs, hf]
      | ok p =>
        obtain ⟨l1, found⟩ := p
        cases found with
        | false => left; simp [hs, hf]
        | true =>
          by_cases hc : contractID = ""
          · left
            by_cases ha : allReleased l1 = true <;> simp [hs, hf, PutState, hc, ha]
          · right
            refine ⟨c, l1, GetContract_ok hg, ?_, hc, hf, ?_⟩
            · by_cases h1 : c.Status = "FUNDED"
              · exact Or.inl h1
              · right
                by_contra h2
                exact hs ⟨h1, h2⟩
            · by_cases ha : allReleased l1 = true <;> simp [hs, hf, PutState, hc, ha]

/-- `RefundProject` either fails without a write, or rewrites the record of a
contract that was neither `COMPLETED` nor `REFUNDED`. -/
theorem RefundProject_cases (ws : WorldState) (contractID now : String) :
    ((RefundProject ws contractID now).err ≠ none
        ∧ (RefundProject ws contractID now).state = ws)
      ∨ ∃ c, GetState ws contractID = some (.contract c)
        ∧ c.Status ≠ "COMPLETED" ∧ c.Status ≠ "REFUNDED" ∧ contractID ≠ ""
        ∧ RefundProject ws contractID now = ⟨none, store ws contractID (.contract
            { c with Milestones := c.Milestones.map (fun m =>
                       if m.Status = "PENDING" then { m with Status := "REFUNDED" } else m),
                     Status := "REFUNDED", UpdatedAt := now })⟩ := by
  unfold RefundProject
  cases hg : GetContract ws contractID with
  | error e => left; simp
  | ok c =>
    by_cases h1 : c.Status = "COMPLETED"
    · left; simp [h1]
    · by_cases h2 : c.Status = "REFUNDED"
      · left; simp [h1, h2]
      · by_cases hc : contractID = ""
        · left; simp [h1, h2, PutState, hc]
        · right
          exact ⟨c, GetContract_ok hg, h1, h2, hc, by simp [h1, h2, PutState, hc]⟩

/-- When no milestone carries the identifier, the search loop changes nothing
and reports that it found none. -/
theorem findAndRelease_absent (l : List Milestone) (milestoneID now : String)
    (h : ∀ m ∈ l, m.MilestoneID ≠ milestoneID) :
    findAndRelease l milestoneID now = .ok (l, false) := by
  induction l with
  | nil => rfl
  | cons m rest ih =>
    have hm : m.MilestoneID ≠ milestoneID := h m (List.mem_cons_self m rest)
    have hr := ih (fun x hx => h x (List.mem_cons_of_mem m hx))
    simp [findAndRelease, hm, hr]

/-- When the first milestone carrying the identifier is not pending, the
search loop fails. -/
theorem findAndRelease_not_pending (l : List Milestone) (milestoneID now : String)
    (m : Milestone)
    (hfind : l.find? (fun x => decide (x.MilestoneID = milestoneID)) = some m)
    (hst : m.Status ≠ "PENDING") :
    findAndRelease l milestoneID now
      = .error ("milestone " ++ milestoneID ++ " is not in PENDING status") := by
  induction l with
  | nil => simp at hfind
  | cons x rest ih =>
    by_cases hx : x.MilestoneID = milestoneID
    · have hxm : x = m := by
        simpa [List.find?, hx] using hfind
      subst hxm
      simp [findAndRelease, hx, hst]
    · have hr : rest.find? (fun x => decide (x.MilestoneID = milestoneID)) = some m := by
        simpa [List.find?, hx] using hfind
      simp [findAndRelease, hx, ih hr]

/-- The index key of a contract is longer than the contract identifier. -/
theorem CreateCompositeKey_length {objectType a b key : String}
    (h : CreateCompositeKey objectType [a, b] = .ok key) : b.length < key.length := by
  unfold CreateCompositeKey at h
  by_cases h0 : validCompositeKeyAttribute objectType = true
  · by_cases h1 : validCompositeKeyAttribute a = true
    · by_cases h2 : validCompositeKeyAttribute b = true
      · simp only [h0, h1, h2, if_true, appendAttributes, Except.ok.injEq] at h
        rw [← h]
        simp only [String.length_append]
        have : (String.singleton minUnicodeRuneValue).length = 1 := rfl
        omega
      · simp [h0, h1, h2, appendAttributes] at h
    · simp [h0, h1, appendAttributes] at h
  · simp [h0] at h

/-- After a successful `CreateContract` the new record is the one stored under
the contract identifier. -/
theorem CreateContract_stored {ws ws1 : WorldState} {contractID projectID clientAddress
    freelancerAddress totalAmount createdAt updatedAt : String} {ms : List Milestone}
    (h : CreateContract ws contractID projectID clientAddress freelancerAddress totalAmount
      (.ok ms) createdAt updatedAt = ⟨none, ws1⟩) :
    GetState ws1 contractID = some (.contract
      { ContractID := contractID, ProjectID := projectID, ClientAddress := clientAddress,
        FreelancerAddress := freelancerAddress, TotalAmount := totalAmount,
        LockedAmount := "0", Status := "CREATED",
        Milestones := ms.map (fun m => { m with Status := "PENDING" }),
        CreatedAt := createdAt, UpdatedAt := updatedAt }) := by
  have h' := h
  unfold CreateContract at h'
  cases hg : GetState ws contractID with
  | some v => rw [hg] at h'; simp at h'
  | none =>
    rw [hg] at h'
    by_cases hc : contractID = ""
    · simp [PutState, hc] at h'
    · simp only [PutState, hc, if_false] at h'
      cases hk : CreateCompositeKey "project" [projectID, contractID] with
      | error e => rw [hk] at h'; simp at h'
      | ok key =>
        rw [hk] at h'
        by_cases hk0 : key = ""
        · simp [hk0] at h'
        · simp only [hk0, if_false, Outcome.mk.injEq, true_and] at h'
          have hne : contractID ≠ key := by
            intro he
            have := CreateCompositeKey_length hk
            rw [he] at this
            exact absurd this (lt_irrefl _)
          rw [← h', GetState_store_other _ _ _ _ hne, GetState_store_self]

/-! ### Rejections and effects of the escrow transactions -/

/-- C11: on a contract in status `FUNDED` or `IN_PROGRESS`, `ReleaseMilestone`
with an identifier that no milestone carries, or whose first matching
milestone is not `PENDING`, returns an error and leaves the world state, and
so the stored record, unchanged; and a release that succeeds leaves every
milestone that was not `PENDING` as it was, so none is released twice. -/
theorem release_rejected (ws : WorldState)
    (contractID milestoneID releasedAt updatedAt : String) (c : EscrowContractData)
    (hget : GetContract ws contractID = .ok c)
    (hstatus : c.Status = "FUNDED" ∨ c.Status = "IN_PROGRESS") :
    ((∀ m ∈ c.Milestones, m.MilestoneID ≠ milestoneID) →
        ReleaseMilestone ws contractID milestoneID releasedAt updatedAt
          = ⟨some ("milestone " ++ milestoneID ++ " not found"), ws⟩)
      ∧ (∀ m, c.Milestones.find? (fun x => decide (x.MilestoneID = milestoneID)) = some m →
          m.Status ≠ "PENDING" →
          ReleaseMilestone ws contractID milestoneID releasedAt updatedAt
            = ⟨some ("milestone " ++ milestoneID ++ " is not in PENDING status"), ws⟩)
      ∧ (∀ ws1, ReleaseMilestone ws contractID milestoneID releasedAt updatedAt = ⟨none, ws1⟩ →
          ∃ c1, GetContract ws1 contractID = .ok c1
            ∧ List.Forall₂ (fun m m1 => m.Status ≠ "PENDING" → m1 = m)
                c.Milestones c1.Milestones) := by
  have hguard : ¬ (c.Status ≠ "FUNDED" ∧ c.Status ≠ "IN_PROGRESS") := by
    rcases hstatus with h | h <;> simp [h]
  refine ⟨?_, ?_, ?_⟩
  · intro habs
    simp [ReleaseMilestone, hget, hguard,
      findAndRelease_absent c.Milestones milestoneID releasedAt habs]
  · intro m hfind hst
    simp [ReleaseMilestone, hget, hguard,
      findAndRelease_not_pending c.Milestones milestoneID releasedAt m hfind hst]
  · intro ws1 hok
    rcases ReleaseMilestone_cases ws contractID milestoneID releasedAt updatedAt with h | h
    · rw [hok] at h
      exact absurd rfl h.1
    · obtain ⟨c0, l1, hg0, _, _, hfind, hout⟩ := h
      have hc0 : c0 = c := by
        have := GetContract_ok hget
        rw [hg0] at this
        simpa using this
      subst hc0
      rw [hout] at hok
      simp only [Outcome.mk.injEq, true_and] at hok
      subst hok
      refine ⟨{ c0 with Milestones := l1,
                        Status := if allReleased l1 then "COMPLETED" else "IN_PROGRESS",
                        UpdatedAt := updatedAt },
        GetContract_of_stored (GetState_store_self _ _ _), ?_⟩
      · refine (findAndRelease_pointwise c0.Milestones milestoneID releasedAt l1 true
          hfind).imp ?_
        intro m m1 h hnp
        rcases h with h | h
        · exact h
        · exact absurd h.2.1 hnp

theorem release_rejected_witness :
    ReleaseMilestone (sampleState "IN_PROGRESS" mixedMilestones) "c1" "m9" "t1" "t2"
        = ⟨some "milestone m9 not found", sampleState "IN_PROGRESS" mixedMilestones⟩
      ∧ ReleaseMilestone (sampleState "IN_PROGRESS" mixedMilestones) "c1" "m1" "t1" "t2"
        = ⟨some "milestone m1 is not in PENDING status",
            sampleState "IN_PROGRESS" mixedMilestones⟩ :=
  have h := release_rejected (sampleState "IN_PROGRESS" mixedMilestones) "c1"
  ⟨(h "m9" "t1" "t2" (sampleRecord "IN_PROGRESS" mixedMilestones) (by decide)
      (by decide)).1 (by decide),
    (h "m1" "t1" "t2" (sampleRecord "IN_PROGRESS" mixedMilestones) (by decide)
      (by decide)).2.1 ⟨"m1", "design", "10", "RELEASED", "2024-01-03T00:00:00Z"⟩
        (by decide) (by decide)⟩

/-- C12: `RefundProject` on a contract whose status is `COMPLETED` or
`REFUNDED` returns an error and leaves the world state, and so the stored
record with its status and milestones, unchanged. -/
theorem refund_rejected (ws : WorldState) (contractID now : String)
    (c : EscrowContractData) (hget : GetContract ws contractID = .ok c) :
    (c.Status = "COMPLETED" →
        RefundProject ws contractID now = ⟨some "cannot refund a completed contract", ws⟩)
      ∧ (c.Status = "REFUNDED" →
        RefundProject ws contractID now = ⟨some "contract already refunded", ws⟩) := by
  constructor
  · intro h
    simp [RefundProject, hget, h]
  · intro h
    have h1 : c.Status ≠ "COMPLETED" := by rw [h]; decide
    simp [RefundProject, hget, h]

theorem refund_rejected_witness :
    RefundProject (sampleState "COMPLETED" mixedMilestones) "c1" "t"
        = ⟨some "cannot refund a completed contract", sampleState "COMPLETED" mixedMilestones⟩
      ∧ RefundProject (sampleState "REFUNDED" mixedMilestones) "c1" "t"
        = ⟨some "contract already refunded", sampleState "REFUNDED" mixedMilestones⟩ :=
  ⟨(refund_rejected (sampleState "COMPLETED" mixedMilestones) "c1" "t"
      (sampleRecord "COMPLETED" mixedMilestones) (by decide)).1 (by decide),
    (refund_rejected (sampleState "REFUNDED" mixedMilestones) "c1" "t"
      (sampleRecord "REFUNDED" mixedMilestones) (by decide)).2 (by decide)⟩

/-- C13: `RefundProject` on a contract in status `CREATED`, `FUNDED` or
`IN_PROGRESS` (stored under a non-empty key, the only keys the stub writes)
succeeds, sets the status to `REFUNDED`, turns every milestone that was
`PENDING` into `REFUNDED`, leaves every other milestone, the released ones
included, unchanged, and leaves no milestone `PENDING`. -/
theorem refund_marks_pending (ws : WorldState) (contractID now : String)
    (c : EscrowContractData) (hget : GetContract ws contractID = .ok c)
    (hkey : contractID ≠ "")
    (hstatus : c.Status = "CREATED" ∨ c.Status = "FUNDED" ∨ c.Status = "IN_PROGRESS") :
    ∃ ws1 c1, RefundProject ws contractID now = ⟨none, ws1⟩
      ∧ GetContract ws1 contractID = .ok c1
      ∧ c1.Status = "REFUNDED"
      ∧ c1.Milestones.length = c.Milestones.length
      ∧ (∀ (i : Nat) (m : Milestone), c.Milestones[i]? = some m →
          (m.Status = "PENDING" → c1.Milestones[i]? = some { m with Status := "REFUNDED" })
            ∧ (m.Status ≠ "PENDING" → c1.Milestones[i]? = some m))
      ∧ (∀ m1 ∈ c1.Milestones, m1.Status ≠ "PENDING") := by
  have h1 : c.Status ≠ "COMPLETED" := by
    rcases hstatus with h | h | h <;> rw [h] <;> decide
  have h2 : c.Status ≠ "REFUNDED" := by
    rcases hstatus with h | h | h <;> rw [h] <;> decide
  refine ⟨store ws contractID (.contract
      { c with Milestones := c.Milestones.map (fun m =>
                 if m.Status = "PENDING" then { m with Status := "REFUNDED" } else m),
               Status := "REFUNDED", UpdatedAt := now }), _, ?_,
    GetContract_of_stored (GetState_store_self _ _ _), rfl, by simp, ?_, ?_⟩
  · simp [RefundProject, hget, h1, h2, PutState, hkey]
  · intro i m hi
    simp only [List.getElem?_map, hi, Option.map_some']
    constructor
    · intro hp; simp [hp]
    · intro hp; simp [hp]
  · intro m1 hm1
    simp only [List.mem_map] at hm1
    obtain ⟨m, _, rfl⟩ := hm1
    by_cases hp : m.Status = "PENDING"
    · simp [hp]
    · simp [hp]

theorem refund_marks_pending_witness :
    ∃ ws1 c1, RefundProject (sampleState "IN_PROGRESS" mixedMilestones) "c1" "t" = ⟨none, ws1⟩
      ∧ GetContract ws1 "c1" = .ok c1
      ∧ c1.Status = "REFUNDED"
      ∧ c1.Milestones.length = (sampleRecord "IN_PROGRESS" mixedMilestones).Milestones.length
      ∧ (∀ (i : Nat) (m : Milestone),
          (sampleRecord "IN_PROGRESS" mixedMilestones).Milestones[i]? = some m →
          (m.Status = "PENDING" → c1.Milestones[i]? = some { m with Status := "REFUNDED" })
            ∧ (m.Status ≠ "PENDING" → c1.Milestones[i]? = some m))
      ∧ (∀ m1 ∈ c1.Milestones, m1.Status ≠ "PENDING") :=
  refund_marks_pending (sampleState "IN_PROGRESS" mixedMilestones) "c1" "t"
    (sampleRecord "IN_PROGRESS" mixedMilestones) (by decide) (by decide) (by decide)

/-- C14: `CreateContract` with a contract identifier under which the world
state already holds a value returns the `already exists` error and writes
nothing: the world state, with the original record and the index entries, is
unchanged. -/
theorem create_duplicate_rejected (ws : WorldState) (contractID projectID clientAddress
    freelancerAddress totalAmount createdAt updatedAt : String)
    (milestonesJSON : Except String (List Milestone))
    (hpresent : GetState ws contractID ≠ none) :
    CreateContract ws contractID projectID clientAddress freelancerAddress totalAmount
        milestonesJSON createdAt updatedAt
      = ⟨some ("contract " ++ contractID ++ " already exists"), ws⟩ := by
  cases hg : GetState ws contractID with
  | none => exact absurd hg hpresent
  | some v => simp [CreateContract, hg]

theorem create_duplicate_rejected_witness :
    CreateContract sampleFunded "c1" "p2" "x" "y" "5" (.ok []) "t" "t"
      = ⟨some "contract c1 already exists", sampleFunded⟩ :=
  create_duplicate_rejected sampleFunded "c1" "p2" "x" "y" "5" "t" "t" (.ok []) (by decide)

/-- C15: after a successful `CreateContract`, `GetContract` on the same
identifier returns a record with status `CREATED`, locked amount `"0"`, the
supplied project, client, freelancer and total amount, and the supplied
milestones in the same order with their identifiers, descriptions and
amounts, every one of them `PENDING` whatever status the input carried. -/
theorem create_then_get (ws ws1 : WorldState) (contractID projectID clientAddress
    freelancerAddress totalAmount createdAt updatedAt : String) (ms : List Milestone)
    (hcreate : CreateContract ws contractID projectID clientAddress freelancerAddress
      totalAmount (.ok ms) createdAt updatedAt = ⟨none, ws1⟩) :
    ∃ c, GetContract ws1 contractID = .ok c
      ∧ c.Status = "CREATED" ∧ c.LockedAmount = "0"
      ∧ c.ContractID = contractID ∧ c.ProjectID = projectID
      ∧ c.ClientAddress = clientAddress ∧ c.FreelancerAddress = freelancerAddress
      ∧ c.TotalAmount = totalAmount
      ∧ c.Milestones.length = ms.length
      ∧ c.Milestones.map milestoneTerms = ms.map milestoneTerms
      ∧ ∀ m ∈ c.Milestones, m.Status = "PENDING" := by
  refine ⟨_, GetContract_of_stored (CreateContract_stored hcreate), rfl, rfl, rfl, rfl, rfl,
    rfl, rfl, by simp, ?_, ?_⟩
  · simp [List.map_map, Function.comp_def, milestoneTerms]
  · intro m hm
    simp only [List.mem_map] at hm
    obtain ⟨m0, _, rfl⟩ := hm
    rfl

theorem create_then_get_witness :
    ∃ c, GetContract sampleCreated "c1" = .ok c
      ∧ c.Status = "CREATED" ∧ c.LockedAmount = "0"
      ∧ c.ContractID = "c1" ∧ c.ProjectID = "p1"
      ∧ c.ClientAddress = "client" ∧ c.FreelancerAddress = "freelancer"
      ∧ c.TotalAmount = "60"
      ∧ c.Milestones.length = sampleMilestones.length
      ∧ c.Milestones.map milestoneTerms = sampleMilestones.map milestoneTerms
      ∧ ∀ m ∈ c.Milestones, m.Status = "PENDING" :=
  create_then_get [] sampleCreated "c1" "p1" "client" "freelancer" "60"
    "2024-01-01T00:00:00Z" "2024-01-01T00:00:00Z" sampleMilestones (by decide)

/-- C17: `LockFunds` on a contract whose status is `IN_PROGRESS`, `COMPLETED`
or `REFUNDED` returns an error and leaves the world state unchanged; whenever
it succeeds the status was `CREATED` or `FUNDED`. -/
theorem lockFunds_rejected (ws : WorldState) (contractID amount now : String)
    (c : EscrowContractData) (hget : GetContract ws contractID = .ok c) :
    ((c.Status = "IN_PROGRESS" ∨ c.Status = "COMPLETED" ∨ c.Status = "REFUNDED") →
        LockFunds ws contractID amount now
          = ⟨some "contract must be in CREATED or FUNDED status to lock funds", ws⟩)
      ∧ ((LockFunds ws contractID amount now).err = none →
          c.Status = "CREATED" ∨ c.Status = "FUNDED") := by
  constructor
  · intro hstatus
    have hs : c.Status ≠ "CREATED" ∧ c.Status ≠ "FUNDED" := by
      rcases hstatus with h | h | h <;> rw [h] <;> decide
    simp [LockFunds, hget, hs]
  · intro hok
    rcases LockFunds_cases ws contractID amount now with h | h
    · exact absurd hok h.1
    · obtain ⟨c0, hg0, hst, _, _⟩ := h
      have hc0 : c0 = c := by
        have := GetContract_ok hget
        rw [hg0] at this
        simpa using this
      rw [← hc0]
      exact hst

theorem lockFunds_rejected_witness :
    LockFunds (sampleState "IN_PROGRESS" mixedMilestones) "c1" "70" "t"
      = ⟨some "contract must be in CREATED or FUNDED status to lock funds",
          sampleState "IN_PROGRESS" mixedMilestones⟩ :=
  (lockFunds_rejected (sampleState "IN_PROGRESS" mixedMilestones) "c1" "70" "t"
    (sampleRecord "IN_PROGRESS" mixedMilestones) (by decide)).1 (by decide)

/-- C18: a successful `LockFunds(id, a)` stores the locked amount `a` and the
status `FUNDED`, whatever the locked amount was before; a following
`LockFunds(id, b)` succeeds as well and stores the locked amount `b`, not the
sum. -/
theorem lockFunds_overwrites (ws ws1 : WorldState) (contractID a now : String)
    (hlock : LockFunds ws contractID a now = ⟨none, ws1⟩) :
    (∃ c c1, GetContract ws contractID = .ok c ∧ GetContract ws1 contractID = .ok c1
        ∧ c1 = { c with LockedAmount := a, Status := "FUNDED", UpdatedAt := now })
      ∧ ∀ b later, ∃ ws2 c2, LockFunds ws1 contractID b later = ⟨none, ws2⟩
          ∧ GetContract ws2 contractID = .ok c2
          ∧ c2.LockedAmount = b ∧ c2.Status = "FUNDED" := by
  rcases LockFunds_cases ws contractID a now with h | h
  · rw [hlock] at h
    exact absurd rfl h.1
  · obtain ⟨c, hg, _, hkey, hout⟩ := h
    rw [hout] at hlock
    simp only [Outcome.mk.injEq, true_and] at hlock
    subst hlock
    have hg1 : GetState (store ws contractID (.contract
        { c with LockedAmount := a, Status := "FUNDED", UpdatedAt := now })) contractID
        = some (.contract { c with LockedAmount := a, Status := "FUNDED", UpdatedAt := now }) :=
      GetState_store_self _ _ _
    refine ⟨⟨c, _, GetContract_of_stored hg, GetContract_of_stored hg1, rfl⟩, ?_⟩
    intro b later
    generalize hc1 : ({ c with LockedAmount := a, Status := "FUNDED", UpdatedAt := now } :
      EscrowContractData) = c1 at hg1 ⊢
    have hs1 : c1.Status = "FUNDED" := by rw [← hc1]
    refine ⟨store (store ws contractID (.contract c1)) contractID (.contract
        { c1 with LockedAmount := b, Status := "FUNDED", UpdatedAt := later }),
      { c1 with LockedAmount := b, Status := "FUNDED", UpdatedAt := later }, ?_,
      GetContract_of_stored (GetState_store_self _ _ _), rfl, rfl⟩
    simp [LockFunds, GetContract_of_stored hg1, hs1, PutState, hkey]

theorem lockFunds_overwrites_witness :
    (∃ c c1, GetContract sampleCreated "c1" = .ok c ∧ GetContract sampleFunded "c1" = .ok c1
        ∧ c1 = { c with LockedAmount := "60", Status := "FUNDED",
                        UpdatedAt := "2024-01-02T00:00:00Z" })
      ∧ ∀ b later, ∃ ws2 c2, LockFunds sampleFunded "c1" b later = ⟨none, ws2⟩
          ∧ GetContract ws2 "c1" = .ok c2
          ∧ c2.LockedAmount = b ∧ c2.Status = "FUNDED" :=
  lockFunds_overwrites sampleCreated sampleFunded "c1" "60" "2024-01-02T00:00:00Z"
    (by decide)

/-- C19: `ReleaseMilestone` on a contract whose status is `CREATED`,
`COMPLETED` or `REFUNDED` returns an error and leaves the world state
unchanged, for every milestone identifier. -/
theorem release_needs_funding (ws : WorldState)
    (contractID milestoneID releasedAt updatedAt : String) (c : EscrowContractData)
    (hget : GetContract ws contractID = .ok c)
    (hstatus : c.Status = "CREATED" ∨ c.Status = "COMPLETED" ∨ c.Status = "REFUNDED") :
    ReleaseMilestone ws contractID milestoneID releasedAt updatedAt
      = ⟨some "contract must be FUNDED or IN_PROGRESS to release milestone", ws⟩ := by
  have hs : c.Status ≠ "FUNDED" ∧ c.Status ≠ "IN_PROGRESS" := by
    rcases hstatus with h | h | h <;> rw [h] <;> decide
  simp [ReleaseMilestone, hget, hs]

theorem release_needs_funding_witness :
    ReleaseMilestone (sampleState "CREATED" mixedMilestones) "c1" "m2" "t1" "t2"
      = ⟨some "contract must be FUNDED or IN_PROGRESS to release milestone",
          sampleState "CREATED" mixedMilestones⟩ :=
  release_needs_funding (sampleState "CREATED" mixedMilestones) "c1" "m2" "t1" "t2"
    (sampleRecord "CREATED" mixedMilestones) (by decide) (by decide)

/-- Reading a contract after the record under some key has been rewritten. -/
theorem GetContract_store (ws : WorldState) (contractID key : String)
    (c c1 : EscrowContractData) (hget : GetContract ws key = .ok c) :
    GetContract (store ws contractID (.contract c1)) key
      = .ok (if key = contractID then c1 else c) := by
  by_cases hk : key = contractID
  · subst hk
    simp [GetContract_of_stored (GetState_store_self ws key (.contract c1))]
  · simp only [hk, if_false]
    apply GetContract_of_stored
    rw [GetState_store_other _ _ _ _ hk]
    exact GetContract_ok hget

theorem sameTerms_refl (c : EscrowContractData) : sameTerms c c :=
  ⟨rfl, rfl, rfl, rfl, rfl, rfl, rfl⟩

/-- The search loop of `ReleaseMilestone` keeps the identifiers, descriptions
and amounts of the milestones, in order. -/
theorem findAndRelease_terms (l l1 : List Milestone) (milestoneID now : String)
    (found : Bool) (h : findAndRelease l milestoneID now = .ok (l1, found)) :
    l1.map milestoneTerms = l.map milestoneTerms := by
  have hp := findAndRelease_pointwise l milestoneID now l1 found h
  clear h
  induction hp with
  | nil => rfl
  | cons hab _ ih =>
    simp only [List.map_cons, List.cons.injEq]
    refine ⟨?_, ih⟩
    rcases hab with h1 | h1
    · rw [h1]
    · rw [h1.2.2]; rfl

/-- C20: `LockFunds`, `ReleaseMilestone` and `RefundProject`, whether they
succeed or fail, keep for every stored contract its identifier, project,
client, freelancer, total amount and creation time, and its list of
milestones with their identifiers, descriptions and amounts in the same
order; `ReleaseMilestone` and `RefundProject` also keep the locked amount. -/
theorem transactions_keep_terms (ws : WorldState) (key : String) (c : EscrowContractData)
    (hget : GetContract ws key = .ok c) :
    (∀ contractID amount now, ∃ c1,
        GetContract (LockFunds ws contractID amount now).state key = .ok c1
          ∧ sameTerms c c1)
      ∧ (∀ contractID milestoneID releasedAt updatedAt, ∃ c1,
        GetContract (ReleaseMilestone ws contractID milestoneID releasedAt updatedAt).state key
            = .ok c1
          ∧ sameTerms c c1 ∧ c1.LockedAmount = c.LockedAmount)
      ∧ (∀ contractID now, ∃ c1,
        GetContract (RefundProject ws contractID now).state key = .ok c1
          ∧ sameTerms c c1 ∧ c1.LockedAmount = c.LockedAmount) := by
  refine ⟨?_, ?_, ?_⟩
  · intro contractID amount now
    rcases LockFunds_cases ws contractID amount now with h | h
    · exact ⟨c, by rw [h.2]; exact hget, sameTerms_refl c⟩
    · obtain ⟨c0, hg0, _, _, hout⟩ := h
      rw [hout]
      refine ⟨_, GetContract_store ws contractID key c _ hget, ?_⟩
      by_cases hk : key = contractID
      · subst hk
        have hc0 : c0 = c := by
          have := GetContract_ok hget
          rw [hg0] at this
          simpa using this
        subst hc0
        rw [if_pos rfl]
        exact ⟨rfl, rfl, rfl, rfl, rfl, rfl, rfl⟩
      · rw [if_neg hk]
        exact sameTerms_refl c
  · intro contractID milestoneID releasedAt updatedAt
    rcases ReleaseMilestone_cases ws contractID milestoneID releasedAt updatedAt with h | h
    · exact ⟨c, by rw [h.2]; exact hget, sameTerms_refl c, rfl⟩
    · obtain ⟨c0, l1, hg0, _, _, hfind, hout⟩ := h
      rw [hout]
      refine ⟨_, GetContract_store ws contractID key c _ hget, ?_⟩
      by_cases hk : key = contractID
      · subst hk
        have hc0 : c0 = c := by
          have := GetContract_ok hget
          rw [hg0] at this
          simpa using this
        subst hc0
        rw [if_pos rfl]
        exact ⟨⟨rfl, rfl, rfl, rfl, rfl, rfl,
          findAndRelease_terms _ _ _ _ _ hfind⟩, rfl⟩
      · rw [if_neg hk]
        exact ⟨sameTerms_refl c, rfl⟩
  · intro contractID now
    rcases RefundProject_cases ws contractID now with h | h
    · exact ⟨c, by rw [h.2]; exact hget, sameTerms_refl c, rfl⟩
    · obtain ⟨c0, hg0, _, _, _, hout⟩ := h
      rw [hout]
      refine ⟨_, GetContract_store ws contractID key c _ hget, ?_⟩
      by_cases hk : key = contractID
      · subst hk
        have hc0 : c0 = c := by
          have := GetContract_ok hget
          rw [hg0] at this
          simpa using this
        subst hc0
        rw [if_pos rfl]
        refine ⟨⟨rfl, rfl, rfl, rfl, rfl, rfl, ?_⟩, rfl⟩
        simp only [List.map_map]
        apply List.map_congr_left
        intro m _
        by_cases hp : m.Status = "PENDING" <;> simp [hp, milestoneTerms]
      · rw [if_neg hk]
        exact ⟨sameTerms_refl c, rfl⟩

theorem transactions_keep_terms_witness :
    (∀ contractID amount now, ∃ c1,
        GetContract (LockFunds (sampleState "FUNDED" mixedMilestones) contractID amount
            now).state "c1" = .ok c1
          ∧ sameTerms (sampleRecord "FUNDED" mixedMilestones) c1)
      ∧ (∀ contractID milestoneID releasedAt updatedAt, ∃ c1,
        GetContract (ReleaseMilestone (sampleState "FUNDED" mixedMilestones) contractID
            milestoneID releasedAt updatedAt).state "c1" = .ok c1
          ∧ sameTerms (sampleRecord "FUNDED" mixedMilestones) c1
          ∧ c1.LockedAmount = (sampleRecord "FUNDED" mixedMilestones).LockedAmount)
      ∧ (∀ contractID now, ∃ c1,
        GetContract (RefundProject (sampleState "FUNDED" mixedMilestones) contractID now).state
            "c1" = .ok c1
          ∧ sameTerms (sampleRecord "FUNDED" mixedMilestones) c1
          ∧ c1.LockedAmount = (sampleRecord "FUNDED" mixedMilestones).LockedAmount) :=
  transactions_keep_terms (sampleState "FUNDED" mixedMilestones) "c1"
    (sampleRecord "FUNDED" mixedMilestones) (by decide)

/-! ### Sequences of invocations -/

theorem GetState_store {V : Type} (ws : List (String × V)) (key other : String) (value : V) :
    GetState (store ws key value) other
      = if other = key then some value else GetState ws other := by
  by_cases h : other = key
  · subst h; simp [GetState_store_self]
  · simp [h, GetState_store_other _ _ _ _ h]

theorem run_append (ws : WorldState) (pre : List Call) (call : Call) :
    run ws (pre ++ [call]) = commit (run ws pre) (invoke (run ws pre) call) := by
  simp [run, List.foldl_append]

/-- `CreateContract` either returns an error, or has written the new record,
with locked amount `"0"`, and the index entry. -/
theorem CreateContract_cases (ws : WorldState) (contractID projectID clientAddress
    freelancerAddress totalAmount createdAt updatedAt : String)
    (milestonesJSON : Except String (List Milestone)) :
    (CreateContract ws contractID projectID clientAddress freelancerAddress totalAmount
        milestonesJSON createdAt updatedAt).err ≠ none
      ∨ ∃ c key, c.LockedAmount = "0" ∧ contractID ≠ ""
        ∧ (CreateContract ws contractID projectID clientAddress freelancerAddress totalAmount
            milestonesJSON createdAt updatedAt).state
          = store (store ws contractID (.contract c)) key .indexEntry := by
  cases milestonesJSON with
  | error e =>
    left
    unfold CreateContract
    cases hg : GetState ws contractID <;> simp
  | ok ms =>
    by_cases herr : (CreateContract ws contractID projectID clientAddress freelancerAddress
        totalAmount (.ok ms) createdAt updatedAt).err = none
    · right
      have hout : CreateContract ws contractID projectID clientAddress freelancerAddress
          totalAmount (.ok ms) createdAt updatedAt
          = ⟨none, (CreateContract ws contractID projectID clientAddress freelancerAddress
              totalAmount (.ok ms) createdAt updatedAt).state⟩ := by
        rw [← herr]
      obtain ⟨hc, key, hst⟩ := CreateContract_ok hout
      exact ⟨_, key, rfl, hc, hst⟩
    · exact Or.inl herr

/-- One committed invocation keeps the property that every stored locked
amount is `"0"` or was passed to `LockFunds` for that contract. -/
theorem commit_lockedAmount (ws : WorldState) (pre : List Call) (call : Call)
    (hinv : ∀ key c, GetState ws key = some (.contract c) →
      c.LockedAmount = "0" ∨ c.LockedAmount ∈ lockedAmounts key pre) :
    ∀ key c, GetState (commit ws (invoke ws call)) key = some (.contract c) →
      c.LockedAmount = "0" ∨ c.LockedAmount ∈ lockedAmounts key (pre ++ [call]) := by
  have hmono : ∀ key (a : String), a ∈ lockedAmounts key pre →
      a ∈ lockedAmounts key (pre ++ [call]) := by
    intro key a ha
    simp only [lockedAmounts, List.filterMap_append, List.mem_append]
    exact Or.inl ha
  have hkeep : ∀ key c, GetState ws key = some (.contract c) →
      c.LockedAmount = "0" ∨ c.LockedAmount ∈ lockedAmounts key (pre ++ [call]) := by
    intro key c h
    rcases hinv key c h with h0 | h1
    · exact Or.inl h0
    · exact Or.inr (hmono key _ h1)
  intro key c hget
  unfold commit at hget
  by_cases herr : (invoke ws call).err = none
  · rw [if_pos herr] at hget
    cases call with
    | createContract contractID projectID clientAddress freelancerAddress totalAmount
        milestonesJSON createdAt updatedAt =>
      simp only [invoke] at hget herr
      rcases CreateContract_cases ws contractID projectID clientAddress freelancerAddress
        totalAmount createdAt updatedAt milestonesJSON with h | h
      · exact absurd herr h
      · obtain ⟨c0, idx, hz, _, hst⟩ := h
        rw [hst, GetState_store] at hget
        by_cases h1 : key = idx
        · simp [h1] at hget
        · rw [if_neg h1, GetState_store] at hget
          by_cases h2 : key = contractID
          · simp only [h2, if_true, Option.some.injEq, Value.contract.injEq] at hget
            rw [← hget]
            exact Or.inl hz
          · rw [if_neg h2] at hget
            exact hkeep key c hget
    | lockFunds contractID amount now =>
      simp only [invoke] at hget herr
      rcases LockFunds_cases ws contractID amount now with h | h
      · exact absurd herr h.1
      · obtain ⟨c0, _, _, _, hout⟩ := h
        rw [hout] at hget
        simp only [GetState_store] at hget
        by_cases h2 : key = contractID
        · simp only [h2, if_true, Option.some.injEq, Value.contract.injEq] at hget
          right
          rw [← hget, h2]
          simp [lockedAmounts, List.filterMap_append]
        · rw [if_neg h2] at hget
          exact hkeep key c hget
    | releaseMilestone contractID milestoneID releasedAt updatedAt =>
      simp only [invoke] at hget herr
      rcases ReleaseMilestone_cases ws contractID milestoneID releasedAt updatedAt with h | h
      · exact absurd herr h.1
      · obtain ⟨c0, l1, hg0, _, _, _, hout⟩ := h
        rw [hout] at hget
        simp only [GetState_store] at hget
        by_cases h2 : key = contractID
        · simp only [h2, if_true, Option.some.injEq, Value.contract.injEq] at hget
          rw [← hget, h2]
          exact hkeep contractID c0 hg0
        · rw [if_neg h2] at hget
          exact hkeep key c hget
    | refundProject contractID now =>
      simp only [invoke] at hget herr
      rcases RefundProject_cases ws contractID now with h | h
      · exact absurd herr h.1
      · obtain ⟨c0, hg0, _, _, _, hout⟩ := h
        rw [hout] at hget
        simp only [GetState_store] at hget
        by_cases h2 : key = contractID
        · simp only [h2, if_true, Option.some.injEq, Value.contract.injEq] at hget
          rw [← hget, h2]
          exact hkeep contractID c0 hg0
        · rw [if_neg h2] at hget
          exact hkeep key c hget
  · rw [if_neg herr] at hget
    exact hkeep key c hget

/-- In every committed state reached from the empty ledger, each stored
locked amount is `"0"` or was passed to `LockFunds` for that contract. -/
theorem run_lockedAmount (calls : List Call) :
    ∀ key c, GetState (run [] calls) key = some (.contract c) →
      c.LockedAmount = "0" ∨ c.LockedAmount ∈ lockedAmounts key calls := by
  induction calls using List.reverseRecOn with
  | nil =>
    intro key c h
    simp [run, GetState] at h
  | append_singleton pre call ih =>
    rw [run_append]
    exact commit_lockedAmount (run [] pre) pre call ih

/-- C16, as stated, fails: on an empty ledger `CreateContract` with total
amount `"60"` and then `LockFunds` with amount `"100"` both succeed, and the
stored record has locked amount `"100"`, greater than its total amount. -/
theorem locked_exceeds_total :
    (invoke [] (.createContract "c1" "p1" "client" "freelancer" "60" (.ok sampleMilestones)
        "2024-01-01T00:00:00Z" "2024-01-01T00:00:00Z")).err = none
      ∧ (invoke sampleCreated (.lockFunds "c1" "100" "2024-01-02T00:00:00Z")).err = none
      ∧ ∃ c, GetContract (run [] [.createContract "c1" "p1" "client" "freelancer" "60"
              (.ok sampleMilestones) "2024-01-01T00:00:00Z" "2024-01-01T00:00:00Z",
            .lockFunds "c1" "100" "2024-01-02T00:00:00Z"]) "c1" = .ok c
          ∧ c.TotalAmount = "60" ∧ c.LockedAmount = "100"
          ∧ lockedExceedsTotal c = true :=
  ⟨by decide, by decide, _, by rfl, by decide, by decide, by decide⟩

/-- C16, amended: in every contract record of a committed state reached from
the empty ledger through `CreateContract`, `LockFunds`, `ReleaseMilestone` and
`RefundProject`, the locked amount is `"0"` or an amount that a `LockFunds`
invocation passed for that contract; it is not compared with the total
amount. -/
theorem lockedAmount_from_calls (calls : List Call) (key : String)
    (c : EscrowContractData) (hget : GetContract (run [] calls) key = .ok c) :
    c.LockedAmount = "0" ∨ c.LockedAmount ∈ lockedAmounts key calls :=
  run_lockedAmount calls key c (GetContract_ok hget)

theorem lockedAmount_from_calls_witness :
    (sampleRecord "FUNDED" []).LockedAmount = "0"
      ∨ (sampleRecord "FUNDED" []).LockedAmount
        ∈ lockedAmounts "c1" [.createContract "c1" "p1" "client" "freelancer" "60" (.ok [])
            "2024-01-01T00:00:00Z" "2024-01-01T00:00:00Z",
          .lockFunds "c1" "60" "2024-01-03T00:00:00Z"] :=
  lockedAmount_from_calls _ "c1" (sampleRecord "FUNDED" []) (by decide)

/-- A successful `CreateContract` writes under two non-empty keys. -/
theorem CreateContract_keys {ws : WorldState} {contractID projectID clientAddress
    freelancerAddress totalAmount createdAt updatedAt : String}
    {milestonesJSON : Except String (List Milestone)}
    (h : (CreateContract ws contractID projectID clientAddress freelancerAddress totalAmount
      milestonesJSON createdAt updatedAt).err = none) :
    ∃ v key, contractID ≠ "" ∧ key ≠ ""
      ∧ (CreateContract ws contractID projectID clientAddress freelancerAddress totalAmount
          milestonesJSON createdAt updatedAt).state
        = store (store ws contractID v) key .indexEntry := by
  cases hg : GetState ws contractID with
  | some v => simp [CreateContract, hg] at h
  | none =>
    cases milestonesJSON with
    | error e => simp [CreateContract, hg] at h
    | ok ms =>
      by_cases hc : contractID = ""
      · subst hc
        simp [CreateContract, hg, PutState] at h
      · cases hk : CreateCompositeKey "project" [projectID, contractID] with
        | error e => simp [CreateContract, hg, PutState, hc, hk] at h
        | ok key =>
          by_cases hk0 : key = ""
          · simp [CreateContract, hg, PutState, hc, hk, hk0] at h
          · exact ⟨.contract
              { ContractID := contractID, ProjectID := projectID,
                ClientAddress := clientAddress, FreelancerAddress := freelancerAddress,
                TotalAmount := totalAmount, LockedAmount := "0", Status := "CREATED",
                Milestones := ms.map (fun m => { m with Status := "PENDING" }),
                CreatedAt := createdAt, UpdatedAt := updatedAt },
              key, hc, hk0, by simp [CreateContract, hg, PutState, hc, hk, hk0]⟩

/-- In every committed state reached from the empty ledger, values are stored
under non-empty keys only. -/
theorem run_keys_nonempty (calls : List Call) :
    ∀ key v, GetState (run [] calls) key = some v → key ≠ "" := by
  induction calls using List.reverseRecOn with
  | nil =>
    intro key v h
    simp [run, GetState] at h
  | append_singleton pre call ih =>
    rw [run_append]
    intro key v hget
    unfold commit at hget
    by_cases herr : (invoke (run [] pre) call).err = none
    · rw [if_pos herr] at hget
      have hstore : ∀ (k : String) (w : Value), k ≠ "" →
          GetState (store (run [] pre) k w) key = some v → key ≠ "" := by
        intro k w hk hg
        rw [GetState_store] at hg
        by_cases h2 : key = k
        · rw [h2]; exact hk
        · rw [if_neg h2] at hg
          exact ih key v hg
      cases call with
      | createContract contractID projectID clientAddress freelancerAddress totalAmount
          milestonesJSON createdAt updatedAt =>
        simp only [invoke] at hget herr
        obtain ⟨w, idx, hc, hi, hst⟩ := CreateContract_keys herr
        rw [hst, GetState_store] at hget
        by_cases h1 : key = idx
        · rw [h1]; exact hi
        · rw [if_neg h1] at hget
          exact hstore contractID w hc hget
      | lockFunds contractID amount now =>
        simp only [invoke] at hget herr
        rcases LockFunds_cases (run [] pre) contractID amount now with h | h
        · exact absurd herr h.1
        · obtain ⟨c0, _, _, hc, hout⟩ := h
          rw [hout] at hget
          exact hstore contractID _ hc hget
      | releaseMilestone contractID milestoneID releasedAt updatedAt =>
        simp only [invoke] at hget herr
        rcases ReleaseMilestone_cases (run [] pre) contractID milestoneID releasedAt
          updatedAt with h | h
        · exact absurd herr h.1
        · obtain ⟨c0, l1, _, _, hc, _, hout⟩ := h
          rw [hout] at hget
          exact hstore contractID _ hc hget
      | refundProject contractID now =>
        simp only [invoke] at hget herr
        rcases RefundProject_cases (run [] pre) contractID now with h | h
        · exact absurd herr h.1
        · obtain ⟨c0, _, _, _, hc, hout⟩ := h
          rw [hout] at hget
          exact hstore contractID _ hc hget
    · rw [if_neg herr] at hget
      exact ih key v hget

end Escrow

namespace BobCoin

open GoStrings BigInt Stub

/-! ### Rejections of the ledger transactions -/

/-- C21: in a world state without the token metadata record, for an amount
that parses to a positive value (and a successful identity lookup), `Mint`
fails with the error `token metadata does not exist. Initialize first` and
issues no write: the world state it leaves is the one it started from. -/
theorem mint_needs_metadata (ws : WorldState) (mspid toAddr amount : String) (v : Int)
    (habsent : GetState ws "TOKEN_METADATA" = none)
    (hparse : parseAmount amount = .ok v) (hpos : 0 < v) :
    Mint ws (.ok mspid) toAddr amount
      = ⟨some "token metadata does not exist. Initialize first", ws⟩ := by
  have hv : ¬ v ≤ 0 := by omega
  simp [Mint, hparse, hv, TotalSupply, habsent]

theorem mint_needs_metadata_witness :
    Mint [] (.ok "Org1MSP") "A" "10"
      = ⟨some "token metadata does not exist. Initialize first", []⟩ :=
  mint_needs_metadata [] "Org1MSP" "A" "10" 10000000000000000000 (by decide) (by decide)
    (by decide)

/-- C22: for an amount string that parses to zero or to a negative value,
`Mint`, `Burn` and `Transfer` each return an error and issue no write: the
world state they leave is the one they started from. -/
theorem nonpositive_amount_rejected (ws : WorldState) (amount : String) (v : Int)
    (hparse : parseAmount amount = .ok v) (hle : v ≤ 0) :
    (∀ mspid toAddr, (Mint ws mspid toAddr amount).err ≠ none
        ∧ (Mint ws mspid toAddr amount).state = ws)
      ∧ (∀ fromAddr, (Burn ws fromAddr amount).err ≠ none
        ∧ (Burn ws fromAddr amount).state = ws)
      ∧ (∀ fromAddr toAddr, Transfer ws fromAddr toAddr amount
          = ⟨some "transfer amount must be positive", ws⟩) := by
  refine ⟨?_, ?_, ?_⟩
  · intro mspid toAddr
    cases mspid with
    | error e => simp [Mint]
    | ok m => simp [Mint, hparse, hle]
  · intro fromAddr
    cases hb : BalanceOf ws fromAddr with
    | error e => simp [Burn, hb]
    | ok cur =>
      cases hp : parseAmount cur with
      | error e => simp [Burn, hb, hp]
      | ok b => simp [Burn, hb, hp, hparse, hle]
  · intro fromAddr toAddr
    simp [Transfer, hparse, hle]

theorem nonpositive_amount_rejected_witness :
    Transfer fresh "A" "B" "" = ⟨some "transfer amount must be positive", fresh⟩
      ∧ Transfer fresh "A" "B" "0" = ⟨some "transfer amount must be positive", fresh⟩
      ∧ Transfer fresh "A" "B" "-1" = ⟨some "transfer amount must be positive", fresh⟩
      ∧ (Mint fresh (.ok "Org1MSP") "A" "-1").state = fresh
      ∧ (Burn fresh "A" "-1").state = fresh :=
  ⟨(nonpositive_amount_rejected fresh "" 0 (by decide) (by decide)).2.2 "A" "B",
    (nonpositive_amount_rejected fresh "0" 0 (by decide) (by decide)).2.2 "A" "B",
    (nonpositive_amount_rejected fresh "-1" (-1000000000000000000) (by decide)
      (by decide)).2.2 "A" "B",
    ((nonpositive_amount_rejected fresh "-1" (-1000000000000000000) (by decide)
      (by decide)).1 (.ok "Org1MSP") "A").2,
    ((nonpositive_amount_rejected fresh "-1" (-1000000000000000000) (by decide)
      (by decide)).2.1 "A").2⟩

/-- C30: for an address without a stored balance record, `BalanceOf` returns
`"0"` without an error; being a query, it yields no world state and so writes
no record. -/
theorem balanceOf_missing (ws : WorldState) (address : String)
    (habsent : GetState ws (balanceKey address) = none) :
    BalanceOf ws address = .ok "0" := by
  simp [BalanceOf, habsent]

theorem balanceOf_missing_witness : BalanceOf fresh "nobody" = .ok "0" :=
  balanceOf_missing fresh "nobody" (by decide)

/-- Every error of `BalanceOf` is a message starting with `failed to`. -/
theorem BalanceOf_error_head {ws : WorldState} {address e : String}
    (h : BalanceOf ws address = .error e) : e.data.head? = some 'f' := by
  unfold BalanceOf at h
  cases hg : GetState ws (balanceKey address) with
  | none => simp [hg] at h
  | some v =>
    cases hu : unmarshalBalance (some v) with
    | error e1 =>
      simp only [hg, hu, Except.error.injEq] at h
      rw [← h]
      simp [String.data_append]
    | ok b =>
      cases hp : parseAmount b.Amount with
      | error e1 =>
        simp only [hg, hu, hp, Except.error.injEq] at h
        rw [← h]
        simp [String.data_append]
      | ok a => simp [hg, hu, hp] at h

/-- What `Transfer` leaves behind: either no write at all, or no error, or an
error other than the insufficient-balance one. -/
theorem Transfer_cases (ws : WorldState) (fromAddr toAddr amount : String) :
    (Transfer ws fromAddr toAddr amount).state = ws
      ∨ (Transfer ws fromAddr toAddr amount).err = none
      ∨ ∃ e, (Transfer ws fromAddr toAddr amount).err = some e
          ∧ e ≠ "insufficient balance" := by
  have hhead : ∀ e : String, e.data.head? = some 'f' → e ≠ "insufficient balance" := by
    intro e he h
    rw [h] at he
    exact absurd he (by decide)
  cases hp : parseAmount amount with
  | error e => left; simp [Transfer, hp]
  | ok t =>
    by_cases hpos : t ≤ 0
    · left; simp [Transfer, hp, hpos]
    · cases hb : BalanceOf ws fromAddr with
      | error e => left; simp [Transfer, hp, hpos, hb]
      | ok sender =>
        cases hs : parseAmount sender with
        | error e => left; simp [Transfer, hp, hpos, hb, hs]
        | ok balance =>
          by_cases hlt : balance < t
          · left; simp [Transfer, hp, hpos, hb, hs, hlt]
          · cases hw : setBalance ws fromAddr (BigInt.toStr (balance - t)) with
            | error e => left; simp [Transfer, hp, hpos, hb, hs, hlt, hw]
            | ok ws1 =>
              right
              cases hr : BalanceOf ws1 toAddr with
              | error e =>
                right
                exact ⟨e, by simp [Transfer, hp, hpos, hb, hs, hlt, hw, hr],
                  hhead e (BalanceOf_error_head hr)⟩
              | ok recipient =>
                cases hq : parseAmount recipient with
                | error e =>
                  right
                  refine ⟨"failed to parse recipient balance: " ++ e,
                    by simp [Transfer, hp, hpos, hb, hs, hlt, hw, hr, hq], ?_⟩
                  apply hhead
                  simp [String.data_append]
                | ok rb =>
                  cases hw2 : setBalance ws1 toAddr (BigInt.toStr (rb + t)) with
                  | error e =>
                    right
                    refine ⟨e, by simp [Transfer, hp, hpos, hb, hs, hlt, hw, hr, hq, hw2], ?_⟩
                    unfold setBalance PutState at hw2
                    by_cases hk : balanceKey toAddr = ""
                    · simp only [hk, if_true, Except.error.injEq] at hw2
                      rw [← hw2]
                      decide
                    · simp [hk] at hw2
                  | ok ws2 =>
                    left
                    simp [Transfer, hp, hpos, hb, hs, hlt, hw, hr, hq, hw2]

/-- C23: whenever `Transfer` returns the insufficient-balance error it has
issued no write: the world state it leaves, with the balance records of the
sender and the recipient and every other key, is the one it started from. -/
theorem transfer_insufficient_no_write (ws : WorldState)
    (fromAddr toAddr amount : String)
    (herr : (Transfer ws fromAddr toAddr amount).err = some "insufficient balance") :
    (Transfer ws fromAddr toAddr amount).state = ws := by
  rcases Transfer_cases ws fromAddr toAddr amount with h | h | h
  · exact h
  · rw [herr] at h
    exact absurd h (by simp)
  · obtain ⟨e, he, hne⟩ := h
    rw [herr] at he
    simp only [Option.some.injEq] at he
    exact absurd he.symm hne

theorem transfer_insufficient_no_write_witness :
    (Transfer fresh "A" "B" "1").state = fresh :=
  transfer_insufficient_no_write fresh "A" "B" "1" (by decide)

/-- C24: after `Mint(A, "2")` on a fresh ledger `BalanceOf(A)` returns
`2 * 10^36`; the amount `"1"` is positive and does not exceed it, and
`Transfer(A, A, "1")` succeeds, but afterwards `BalanceOf(A)` returns a
109-digit value: the self-transfer is not a no-op on the balance. -/
theorem self_transfer_changes_balance :
    BalanceOf (run fresh [.mint "A" "2"]) "A"
        = .ok "2000000000000000000000000000000000000"
      ∧ parseAmount "1" = .ok 1000000000000000000
      ∧ (Transfer (run fresh [.mint "A" "2"]) "A" "A" "1").err = none
      ∧ BalanceOf (Transfer (run fresh [.mint "A" "2"]) "A" "A" "1").state "A"
        = .ok ("1999999999999999999999999999999999999000000000000000000"
            ++ "000000000000000001000000000000000000000000000000000000") := by
  decide

/-- C25, as stated, fails: on the ledger reached by `InitLedger` and
`Mint(A, "1")`, where the metadata record exists and `TotalSupply` returns
`"1000000000000000000"`, a second `InitLedger` returns no error and
afterwards `TotalSupply` returns `"0"`. -/
theorem initLedger_twice_resets_supply :
    GetState (run fresh [.mint "A" "1"]) "TOKEN_METADATA"
        = some (.token ⟨"BobCoin", "BOB", 18, "1000000000000000000"⟩)
      ∧ TotalSupply (run fresh [.mint "A" "1"]) = .ok "1000000000000000000"
      ∧ (InitLedger (run fresh [.mint "A" "1"])).err = none
      ∧ TotalSupply (InitLedger (run fresh [.mint "A" "1"])).state = .ok "0" := by
  decide

/-- C25, amended: `InitLedger` has no existence check: on every world state,
with or without a metadata record, it returns no error and writes the
metadata record with name `BobCoin`, symbol `BOB`, 18 decimals and total
supply `"0"`, and it leaves every other key as it was. -/
theorem initLedger_overwrites (ws : WorldState) :
    InitLedger ws
        = ⟨none, store ws "TOKEN_METADATA" (.token ⟨"BobCoin", "BOB", 18, "0"⟩)⟩
      ∧ GetState (InitLedger ws).state "TOKEN_METADATA"
        = some (.token ⟨"BobCoin", "BOB", 18, "0"⟩)
      ∧ ∀ key, key ≠ "TOKEN_METADATA" →
          GetState (InitLedger ws).state key = GetState ws key := by
  have h : InitLedger ws
      = ⟨none, store ws "TOKEN_METADATA" (.token ⟨"BobCoin", "BOB", 18, "0"⟩)⟩ := by
    simp [InitLedger, PutState]
  refine ⟨h, ?_, ?_⟩
  · rw [h]; exact GetState_store_self _ _ _
  · intro key hkey
    rw [h]; exact GetState_store_other _ _ _ _ hkey

/-- C26, as stated, fails: on the world state that holds only the balance
record of `A`, with amount `"5"`, and no token metadata, `Burn(A, "1")` passes
the balance check, returns the decode error `unexpected end of JSON input`,
and has by then rewritten the balance record of `A`; only the platform, which
discards the writes of a failed invocation, keeps the committed state
unchanged. -/
theorem burn_without_metadata_writes_balance :
    GetState balanceWithoutMetadata "TOKEN_METADATA" = none
      ∧ (Burn balanceWithoutMetadata "A" "1").err
        = some "unexpected end of JSON input"
      ∧ (Burn balanceWithoutMetadata "A" "1").state
        = [("BALANCE_A", Value.balance ⟨"A", "4999999999999999999000000000000000000"⟩)]
      ∧ commit balanceWithoutMetadata
          (Burn balanceWithoutMetadata "A" "1")
        = balanceWithoutMetadata := by
  decide

end BobCoin

namespace GoStrings

theorem SplitDot_length (l : List Char) : (SplitDot l).length = l.count '.' + 1 := by
  induction l with
  | nil => rfl
  | cons c cs ih =>
    by_cases hc : c = '.'
    · subst hc
      simp [SplitDot, ih]
    · have hc' : ¬ ('.' = c) := fun h => hc h.symm
      cases hs : SplitDot cs with
      | nil => rw [hs] at ih; simp at ih
      | cons p ps =>
        rw [hs] at ih
        simp only [SplitDot, hc, if_false, hs, List.length_cons] at ih ⊢
        rw [List.count_cons_of_ne hc']
        exact ih

theorem count_dropWhile (p : Char → Bool) (c : Char) (hc : p c = false) (l : List Char) :
    (l.dropWhile p).count c = l.count c := by
  induction l with
  | nil => rfl
  | cons a as ih =>
    by_cases ha : p a = true
    · have hne : ¬ (c = a) := by
        intro h; rw [h] at hc; rw [hc] at ha; exact absurd ha (by decide)
      rw [List.dropWhile_cons_of_pos ha, ih, List.count_cons_of_ne hne]
    · rw [List.dropWhile_cons_of_neg ha]

theorem count_dot_TrimSpace (l : List Char) : (TrimSpace l).count '.' = l.count '.' := by
  unfold TrimSpace
  rw [List.count_reverse, count_dropWhile isSpace '.' (by decide), List.count_reverse,
    count_dropWhile isSpace '.' (by decide)]

end GoStrings

namespace BobCoin

open GoStrings BigInt Stub

/-- C28: for every amount string with two or more decimal points,
`parseAmount` returns the invalid-format error, and so no value. -/
theorem parseAmount_two_points (s : String) (hdots : 2 ≤ s.data.count '.') :
    parseAmount s = .error ("invalid amount format: " ++ String.mk (TrimSpace s.data)) := by
  have h0 : ¬ (s = "" ∨ s = "0") := by
    intro h
    rcases h with h | h <;> rw [h] at hdots <;> exact absurd hdots (by decide)
  have hlen : (SplitDot (TrimSpace s.data)).length > 2 := by
    rw [SplitDot_length, count_dot_TrimSpace]
    omega
  simp only [parseAmount, if_neg h0, hlen, if_true]

theorem parseAmount_two_points_witness :
    parseAmount " 1.2.3 " = .error "invalid amount format: 1.2.3" :=
  parseAmount_two_points " 1.2.3 " (by decide)

/-- What `SetString` accepts is a run of digits with at most a leading sign. -/
theorem SetString_signedDigits (l : List Char) (v : Int) (h : SetString l = some v) :
    signedDigits l = true := by
  unfold SetString at h
  split at h
  · rename_i ds
    by_cases hn : isNumeral ds = true
    · have := ((isNumeral_iff ds).mp hn).2
      simp only [signedDigits, Bool.and_eq_true, List.all_eq_true]
      exact ⟨by decide, this⟩
    · simp [hn] at h
  · rename_i ds
    by_cases hn : isNumeral ds = true
    · have := ((isNumeral_iff ds).mp hn).2
      simp only [signedDigits, Bool.and_eq_true, List.all_eq_true]
      exact ⟨by decide, this⟩
    · simp [hn] at h
  · by_cases hn : isNumeral l = true
    · have hd := ((isNumeral_iff l).mp hn).2
      cases l with
      | nil => rfl
      | cons c rest =>
        simp only [signedDigits, Bool.and_eq_true, List.all_eq_true, Bool.or_eq_true]
        exact ⟨Or.inl (Or.inl (hd c (List.mem_cons_self c rest))),
          fun x hx => hd x (List.mem_cons_of_mem c hx)⟩
    · simp [hn] at h

theorem signedDigits_prefix (a b : List Char) (h : signedDigits (a ++ b) = true) :
    signedDigits a = true := by
  cases a with
  | nil => rfl
  | cons c rest =>
    simp only [List.cons_append, signedDigits, Bool.and_eq_true, List.all_eq_true,
      List.mem_append] at h ⊢
    exact ⟨h.1, fun x hx => h.2 x (Or.inl hx)⟩

/-- C27, as stated, fails: a sign in first place is accepted, and so is a
letter after the 18th digit of the fraction. -/
theorem parseAmount_accepts_sign :
    parseAmount "-1" = .ok (-1000000000000000000)
      ∧ parseAmount "+1" = .ok 1000000000000000000
      ∧ parseAmount "1.000000000000000000x" = .ok 1000000000000000000 := by
  decide

/-- C27, amended: when the amount string, after trimming surrounding white
space, has at most one decimal point and its integer part followed by the
first 18 characters of its fraction holds a character other than an ASCII
digit, a `+` or `-` in the very first place not counted, `parseAmount`
returns the parse error. -/
theorem parseAmount_rejects_nondigit (s : String) (w f : List Char)
    (hw : ∀ c ∈ w, c ≠ '.') (hf : ∀ c ∈ f, c ≠ '.')
    (hshape : (TrimSpace s.data = w ∧ f = []) ∨ TrimSpace s.data = w ++ '.' :: f)
    (hbad : signedDigits (w ++ f.take 18) = false) :
    parseAmount s = .error ("failed to parse amount: " ++ String.mk (TrimSpace s.data)) := by
  have hnone : ∀ k, SetString ((w ++ f.take 18) ++ zeros k) = none := by
    intro k
    cases hs : SetString ((w ++ f.take 18) ++ zeros k) with
    | none => rfl
    | some v =>
      have := signedDigits_prefix _ _ (SetString_signedDigits _ v hs)
      rw [hbad] at this
      exact absurd this (by decide)
  have h0 : ¬ (s = "" ∨ s = "0") := by
    intro h
    rcases h with h | h
    · subst h
      have ht : TrimSpace ("" : String).data = [] := by decide
      rw [ht] at hshape
      rcases hshape with ⟨h1, h2⟩ | h1
      · rw [← h1, h2] at hbad
        exact absurd hbad (by decide)
      · exact absurd h1 (by simp)
    · subst h
      have ht : TrimSpace ("0" : String).data = ['0'] := by decide
      rw [ht] at hshape
      rcases hshape with ⟨h1, h2⟩ | h1
      · rw [← h1, h2] at hbad
        exact absurd hbad (by decide)
      · cases w with
        | nil => simp at h1
        | cons c cs => simp at h1
  rcases hshape with ⟨h1, h2⟩ | h1
  · subst h2
    have hk := hnone 18
    simp only [List.take_nil, List.append_nil] at hk
    simp only [parseAmount, if_neg h0, h1, SplitDot_no_dot w hw]
    simp only [List.length_singleton, List.getD_cons_zero]
    norm_num
    rw [hk]
  · simp only [parseAmount, if_neg h0, h1, SplitDot_one_dot w f hw hf]
    simp only [List.length_cons, List.length_nil, List.getD_cons_zero, List.getD_cons_succ]
    norm_num
    by_cases hlt : f.length < 18
    · have hk := hnone (18 - f.length)
      rw [List.take_of_length_le (by omega), List.append_assoc] at hk
      simp only [hlt, if_true, hk]
    · by_cases hgt : 18 < f.length
      · have hk := hnone 0
        simp only [zeros, List.replicate_zero, List.append_nil] at hk
        simp only [hlt, if_false, hgt, if_true, hk]
      · have hk := hnone 0
        rw [List.take_of_length_le (by omega)] at hk
        simp only [zeros, List.replicate_zero, List.append_nil] at hk
        simp only [hlt, if_false, hgt, hk]

theorem parseAmount_rejects_nondigit_witness :
    parseAmount " 1x.5 " = .error "failed to parse amount: 1x.5"
      ∧ parseAmount "1 2" = .error "failed to parse amount: 1 2"
      ∧ parseAmount "1.-5" = .error "failed to parse amount: 1.-5" :=
  ⟨parseAmount_rejects_nondigit " 1x.5 " "1x".data "5".data (by decide) (by decide)
      (Or.inr (by decide)) (by decide),
    parseAmount_rejects_nondigit "1 2" "1 2".data [] (by decide) (by decide)
      (Or.inl ⟨by decide, rfl⟩) (by decide),
    parseAmount_rejects_nondigit "1.-5" "1".data "-5".data (by decide) (by decide)
      (Or.inr (by decide)) (by decide)⟩

end BobCoin

namespace BigInt

open GoStrings

theorem digitVal_le {c : Char} (h : c.isDigit = true) : digitVal c ≤ 9 := by
  rcases isDigit_cases h with h | h | h | h | h | h | h | h | h | h <;> subst h <;> decide

theorem digitVal_pos {c : Char} (h : c.isDigit = true) (h0 : c ≠ '0') : 1 ≤ digitVal c := by
  rcases isDigit_cases h with h | h | h | h | h | h | h | h | h | h <;> subst h <;>
    first | exact absurd rfl h0 | decide

/-- A string of `k` digits reads as a number below `10^k`. -/
theorem digitsValue_lt (l : List Char) (h : ∀ c ∈ l, c.isDigit = true) :
    digitsValue l < 10 ^ l.length := by
  induction l using List.reverseRecOn with
  | nil => simp [digitsValue]
  | append_singleton l a ih =>
    have hl := ih (fun c hc => h c (List.mem_append_left _ hc))
    have ha := digitVal_le (h a (by simp))
    rw [digitsValue_append]
    have h1 : digitsValue [a] = digitVal a := by simp [digitsValue]
    simp only [List.length_append, List.length_singleton, pow_succ, pow_zero, mul_one, h1]
    omega

/-- A string of digits that does not start with `0` reads as a number of at
least `10^(k-1)`, `k` being its length. -/
theorem digitsValue_ge (c : Char) (rest : List Char) (hc : c.isDigit = true)
    (h0 : c ≠ '0') : 10 ^ rest.length ≤ digitsValue (c :: rest) := by
  have h1 : digitsValue (c :: rest) = digitsValue [c] * 10 ^ rest.length + digitsValue rest :=
    digitsValue_append [c] rest
  have h2 : digitsValue [c] = digitVal c := by simp [digitsValue]
  rw [h1, h2]
  have hp := digitVal_pos hc h0
  have : 1 * 10 ^ rest.length ≤ digitVal c * 10 ^ rest.length :=
    Nat.mul_le_mul_right _ hp
  omega

/-- The decimal digits of a positive number below `10^17` are at most 17. -/
theorem natDigits_short (n : Nat) (hpos : n ≠ 0) (h : n < 10 ^ 17) :
    (natDigits (n + 1) n).length ≤ 17 := by
  obtain ⟨hd, hne, hv, hh⟩ := natDigits_spec (n + 1) n (Nat.lt_succ_self n)
  cases hq : natDigits (n + 1) n with
  | nil => simp
  | cons c rest =>
    rw [hq] at hd hv hh
    have hc0 : c ≠ '0' := by simpa using hh hpos
    have hge := digitsValue_ge c rest (hd c (List.mem_cons_self c rest)) hc0
    rw [hv] at hge
    by_contra hlen
    have h17 : 17 ≤ rest.length := by
      simp only [List.length_cons] at hlen
      omega
    have : 10 ^ 17 ≤ 10 ^ rest.length := Nat.pow_le_pow_right (by decide) h17
    omega

/-- The decimal digits of a number of at least `10^17` are at least 18. -/
theorem natDigits_long (n : Nat) (h : 10 ^ 17 ≤ n) :
    18 ≤ (natDigits (n + 1) n).length := by
  obtain ⟨hd, _, hv, _⟩ := natDigits_spec (n + 1) n (Nat.lt_succ_self n)
  have hlt := digitsValue_lt _ hd
  rw [hv] at hlt
  by_contra hlen
  have h17 : (natDigits (n + 1) n).length ≤ 17 := by omega
  have : 10 ^ (natDigits (n + 1) n).length ≤ 10 ^ 17 := Nat.pow_le_pow_right (by decide) h17
  omega

end BigInt

namespace BobCoin

open GoStrings BigInt Stub

/-- What `parseAmount` does on an integer part, a decimal point and a fraction
of at most 18 characters, none of them white space or a decimal point: it
hands the integer part and the padded fraction to `SetString`. -/
theorem parseAmount_point_general (w f : List Char)
    (hws : ∀ c ∈ w, isSpace c = false) (hfs : ∀ c ∈ f, isSpace c = false)
    (hwd : ∀ c ∈ w, c ≠ '.') (hfd : ∀ c ∈ f, c ≠ '.') (hlen : f.length ≤ 18) :
    (∀ a, SetString (w ++ (f ++ zeros (18 - f.length))) = some a →
        parseAmount (String.mk (w ++ '.' :: f)) = .ok a)
      ∧ (SetString (w ++ (f ++ zeros (18 - f.length))) = none →
        ∃ e, parseAmount (String.mk (w ++ '.' :: f)) = .error e) := by
  have h0 : ¬ (String.mk (w ++ '.' :: f) = "" ∨ String.mk (w ++ '.' :: f) = "0") := by
    intro h
    rcases h with h | h
    · exact mk_ne_empty_of_dot w f h
    · exact mk_ne_zero_of_dot w f h
  have hsp : ∀ c ∈ w ++ '.' :: f, isSpace c = false := by
    intro c hc
    rcases List.mem_append.mp hc with h | h
    · exact hws c h
    · rcases List.mem_cons.mp h with h | h
      · subst h; decide
      · exact hfs c h
  have hpad : (if f.length < 18 then f ++ zeros (18 - f.length)
      else if f.length > 18 then f.take 18 else f) = f ++ zeros (18 - f.length) := by
    by_cases h : f.length < 18
    · simp [h]
    · have : f.length = 18 := by omega
      simp [this, zeros]
  have hbody : parseAmount (String.mk (w ++ '.' :: f))
      = match SetString (w ++ (f ++ zeros (18 - f.length))) with
        | none => .error ("failed to parse amount: " ++ String.mk (w ++ '.' :: f))
        | some amount => .ok amount := by
    simp only [parseAmount, if_neg h0, TrimSpace_of_no_space _ hsp,
      SplitDot_one_dot w f hwd hfd]
    simp only [List.length_cons, List.length_nil, List.getD_cons_zero, List.getD_cons_succ]
    norm_num
    rw [hpad]
  constructor
  · intro a ha
    rw [hbody, ha]
  · intro hn
    rw [hbody, hn]
    exact ⟨_, rfl⟩

/-- What `parseAmount` does on a string without white space and decimal
point, other than `""` and `"0"`: it hands the string followed by 18 zeros to
`SetString`. -/
theorem parseAmount_whole_general (w : List Char)
    (hws : ∀ c ∈ w, isSpace c = false) (hwd : ∀ c ∈ w, c ≠ '.')
    (h0 : ¬ (String.mk w = "" ∨ String.mk w = "0")) :
    (∀ a, SetString (w ++ zeros 18) = some a → parseAmount (String.mk w) = .ok a)
      ∧ (SetString (w ++ zeros 18) = none → ∃ e, parseAmount (String.mk w) = .error e) := by
  have hbody : parseAmount (String.mk w)
      = match SetString (w ++ zeros 18) with
        | none => .error ("failed to parse amount: " ++ String.mk w)
        | some amount => .ok amount := by
    simp only [parseAmount, if_neg h0, TrimSpace_of_no_space _ hws, SplitDot_no_dot w hwd]
    simp only [List.length_singleton, List.getD_cons_zero]
    norm_num
  constructor
  · intro a ha
    rw [hbody, ha]
  · intro hn
    rw [hbody, hn]
    exact ⟨_, rfl⟩

/-- The shape of `formatAmount` on a non-zero amount: the decimal
representation, padded in front with zeros to 19 characters, is cut before
its last 18 characters, of which the trailing zeros are dropped. -/
theorem formatAmount_shape (x : Int) (hx : x ≠ 0) :
    ∃ t whole dec : List Char,
      t = (if (render x).length ≤ 18 then zeros (19 - (render x).length) ++ render x
            else render x)
        ∧ formatAmount x
          = (if dec = [] then String.mk whole else String.mk (whole ++ '.' :: dec))
        ∧ whole ≠ [] ∧ dec.length ≤ 18
        ∧ whole ++ (dec ++ zeros (18 - dec.length)) = t := by
  have hfmt : formatAmount x
      = (if TrimRightZeros ((if (render x).length ≤ 18
              then zeros (19 - (render x).length) ++ render x else render x).drop
            ((if (render x).length ≤ 18 then zeros (19 - (render x).length) ++ render x
              else render x).length - 18)) = []
          then String.mk ((if (render x).length ≤ 18
              then zeros (19 - (render x).length) ++ render x else render x).take
            ((if (render x).length ≤ 18 then zeros (19 - (render x).length) ++ render x
              else render x).length - 18))
          else String.mk ((if (render x).length ≤ 18
              then zeros (19 - (render x).length) ++ render x else render x).take
            ((if (render x).length ≤ 18 then zeros (19 - (render x).length) ++ render x
              else render x).length - 18) ++ '.' :: TrimRightZeros ((if (render x).length ≤ 18
              then zeros (19 - (render x).length) ++ render x else render x).drop
            ((if (render x).length ≤ 18 then zeros (19 - (render x).length) ++ render x
              else render x).length - 18)))) := by
    simp only [formatAmount, if_neg hx]
  have hlen : 19 ≤ (if (render x).length ≤ 18 then zeros (19 - (render x).length) ++ render x
      else render x).length := by
    by_cases hle : (render x).length ≤ 18
    · simp only [hle, if_true, List.length_append, length_zeros]; omega
    · simp only [hle, if_false]; omega
  generalize (if (render x).length ≤ 18 then zeros (19 - (render x).length) ++ render x
      else render x) = t at hfmt hlen
  have hdrop : (t.drop (t.length - 18)).length = 18 := by
    rw [List.length_drop]; omega
  have htrim := TrimRightZeros_append_zeros (t.drop (t.length - 18))
  have hdl : (TrimRightZeros (t.drop (t.length - 18))).length ≤ 18 := by
    have := congrArg List.length htrim
    rw [List.length_append, length_zeros, hdrop] at this
    omega
  refine ⟨t, t.take (t.length - 18), TrimRightZeros (t.drop (t.length - 18)), rfl, hfmt,
    ?_, hdl, ?_⟩
  · intro h
    have := congrArg List.length h
    rw [List.length_take, List.length_nil] at this
    omega
  · rw [hdrop] at htrim
    rw [htrim]
    exact List.take_append_drop _ t

theorem digit_or_minus_plain {c : Char} (h : c.isDigit = true ∨ c = '-') :
    isSpace c = false ∧ c ≠ '.' := by
  rcases h with h | h
  · exact ⟨isDigit_not_space h, isDigit_ne_dot h⟩
  · subst h; exact ⟨by decide, by decide⟩

/-- The round trip on a negative amount is decided by what `SetString` makes
of the padded decimal representation. -/
theorem parse_format_negative (n : Nat) :
    (∀ a, SetString (if (render (Int.negSucc n)).length ≤ 18
          then zeros (19 - (render (Int.negSucc n)).length) ++ render (Int.negSucc n)
          else render (Int.negSucc n)) = some a →
        parseAmount (formatAmount (Int.negSucc n)) = .ok a)
      ∧ (SetString (if (render (Int.negSucc n)).length ≤ 18
          then zeros (19 - (render (Int.negSucc n)).length) ++ render (Int.negSucc n)
          else render (Int.negSucc n)) = none →
        ∃ e, parseAmount (formatAmount (Int.negSucc n)) = .error e) := by
  obtain ⟨hd, _, _, _⟩ := natDigits_spec (n + 2) (n + 1) (by omega)
  have hr : render (Int.negSucc n) = '-' :: natDigits (n + 2) (n + 1) := rfl
  have hchars : ∀ c ∈ render (Int.negSucc n), c.isDigit = true ∨ c = '-' := by
    intro c hc
    rw [hr] at hc
    rcases List.mem_cons.mp hc with h | h
    · exact Or.inr h
    · exact Or.inl (hd c h)
  have hminus : '-' ∈ render (Int.negSucc n) := by rw [hr]; exact List.mem_cons_self _ _
  obtain ⟨t, whole, dec, ht, hfmt, hne, hdl, hcomb⟩ :=
    formatAmount_shape (Int.negSucc n) (by simp)
  rw [← ht]
  have htchars : ∀ c ∈ t, c.isDigit = true ∨ c = '-' := by
    intro c hc
    rw [ht] at hc
    by_cases hle : (render (Int.negSucc n)).length ≤ 18
    · rw [if_pos hle] at hc
      rcases List.mem_append.mp hc with h | h
      · have : c = '0' := by simpa [zeros] using (List.mem_replicate.mp h).2
        subst this; exact Or.inl (by decide)
      · exact hchars c h
    · rw [if_neg hle] at hc
      exact hchars c hc
  have htminus : '-' ∈ t := by
    rw [ht]
    by_cases hle : (render (Int.negSucc n)).length ≤ 18
    · rw [if_pos hle]; exact List.mem_append_right _ hminus
    · rw [if_neg hle]; exact hminus
  have hwt : ∀ c ∈ whole, c ∈ t := by
    intro c hc; rw [← hcomb]; exact List.mem_append_left _ hc
  have hdt : ∀ c ∈ dec, c ∈ t := by
    intro c hc; rw [← hcomb]
    exact List.mem_append_right _ (List.mem_append_left _ hc)
  rw [hfmt]
  by_cases hdec : dec = []
  · subst hdec
    have h0 : ¬ (String.mk whole = "" ∨ String.mk whole = "0") := by
      intro h
      rcases h with h | h
      · exact hne (by simpa using congrArg String.data h)
      · have hw0 : whole = ['0'] := by simpa using congrArg String.data h
        rw [← hcomb, hw0] at htminus
        exact absurd htminus (by decide)
    have hcomb' : whole ++ zeros 18 = t := by simpa using hcomb
    rw [if_pos rfl, ← hcomb']
    exact parseAmount_whole_general whole
      (fun c hc => (digit_or_minus_plain (htchars c (hwt c hc))).1)
      (fun c hc => (digit_or_minus_plain (htchars c (hwt c hc))).2) h0
  · rw [if_neg hdec, ← hcomb]
    exact parseAmount_point_general whole dec
      (fun c hc => (digit_or_minus_plain (htchars c (hwt c hc))).1)
      (fun c hc => (digit_or_minus_plain (htchars c (hdt c hc))).1)
      (fun c hc => (digit_or_minus_plain (htchars c (hwt c hc))).2)
      (fun c hc => (digit_or_minus_plain (htchars c (hdt c hc))).2) hdl

/-- C29, as stated, fails: `formatAmount (-5)` is `"0.0000000000000000-5"`,
which `parseAmount` rejects. -/
theorem format_negative_not_parsed :
    formatAmount (-5) = "0.0000000000000000-5"
      ∧ parseAmount (formatAmount (-5))
        = .error "failed to parse amount: 0.0000000000000000-5" := by
  decide

/-- C29, amended: for every scaled integer `x` that is non-negative or at most
`-10^17`, `parseAmount (formatAmount x)` succeeds and returns `x`; for
`-10^17 < x < 0` the zeros that `formatAmount` pads in front of the minus sign
make `parseAmount` reject the result. -/
theorem parse_format_signed (x : Int) :
    ((0 ≤ x ∨ x ≤ -(10 ^ 17)) → parseAmount (formatAmount x) = .ok x)
      ∧ ((-(10 ^ 17) < x ∧ x < 0) → ∃ e, parseAmount (formatAmount x) = .error e) := by
  cases x with
  | ofNat n =>
    constructor
    · intro _
      rcases Nat.eq_zero_or_pos n with h0 | hpos
      · subst h0; decide
      · obtain ⟨whole, dec, hfmt, hne, hw, hd, hlen, _, _, hval⟩ := formatAmount_pos n hpos
        have hcast : (Int.ofNat n) = ((n : Nat) : Int) := rfl
        rw [hcast, hfmt]
        by_cases hdec : dec = []
        · subst hdec
          rw [if_pos rfl, parseAmount_whole whole hne hw]
          congr 1
          rw [← hval]
          simp [digitsValue]
        · rw [if_neg hdec, parseAmount_padded whole dec hw hd hlen]
          congr 1
          rw [← hval]
          push_cast
          ring
    · intro h
      have : (0 : Int) ≤ Int.ofNat n := Int.ofNat_nonneg n
      omega
  | negSucc n =>
    obtain ⟨hd, hdne, hv, _⟩ := natDigits_spec (n + 2) (n + 1) (by omega)
    have hr : render (Int.negSucc n) = '-' :: natDigits (n + 2) (n + 1) := rfl
    have hneg : Int.negSucc n = -((n : Int) + 1) := Int.negSucc_eq n
    obtain ⟨hsome, hnone⟩ := parse_format_negative n
    constructor
    · intro h
      have hbig : 10 ^ 17 ≤ n + 1 := by
        rcases h with h | h
        · omega
        · have h' : ((10 : Int) ^ 17) ≤ (n : Int) + 1 := by omega
          exact_mod_cast h'
      have hlong : 18 ≤ (natDigits (n + 2) (n + 1)).length := natDigits_long (n + 1) hbig
      have hnotle : ¬ (render (Int.negSucc n)).length ≤ 18 := by
        rw [hr, List.length_cons]; omega
      apply hsome
      rw [if_neg hnotle, hr]
      have hnum : isNumeral (natDigits (n + 2) (n + 1)) = true :=
        (isNumeral_iff _).mpr ⟨hdne, hd⟩
      simp only [SetString, hnum, if_true, hv, Option.some.injEq]
      rw [hneg]
      push_cast
      ring
    · intro h
      have hsmall : n + 1 < 10 ^ 17 := by
        have h' : (n : Int) + 1 < (10 : Int) ^ 17 := by omega
        exact_mod_cast h'
      have hshort : (natDigits (n + 2) (n + 1)).length ≤ 17 :=
        natDigits_short (n + 1) (by omega) hsmall
      have hle : (render (Int.negSucc n)).length ≤ 18 := by
        rw [hr, List.length_cons]; omega
      apply hnone
      rw [if_pos hle, hr]
      obtain ⟨k, hk⟩ : ∃ k, 19 - ('-' :: natDigits (n + 2) (n + 1)).length = k + 1 :=
        ⟨17 - (natDigits (n + 2) (n + 1)).length, by rw [List.length_cons]; omega⟩
      rw [hk]
      cases hs : SetString (zeros (k + 1) ++ '-' :: natDigits (n + 2) (n + 1)) with
      | none => rfl
      | some v =>
        have hsd := SetString_signedDigits _ v hs
        have hz : zeros (k + 1) = '0' :: zeros k := by simp [zeros, List.replicate_succ]
        rw [hz] at hsd
        simp only [List.cons_append, signedDigits, Bool.and_eq_true, List.all_eq_true,
          List.mem_append] at hsd
        have := hsd.2 '-' (Or.inr (List.mem_cons_self _ _))
        exact absurd this (by decide)

end BobCoin

namespace BobCoin

open GoStrings BigInt Stub

/-! ### What `Transfer` writes -/

theorem balanceKey_ne_metadata (address : String) : balanceKey address ≠ "TOKEN_METADATA" := by
  intro h
  have := congrArg String.data h
  simp [balanceKey, String.data_append] at this

theorem balanceKey_ne_empty (address : String) : balanceKey address ≠ "" := by
  intro h
  have := congrArg String.data h
  simp [balanceKey, String.data_append] at this

theorem balanceKey_injective {a b : String} (h : balanceKey a = balanceKey b) : a = b := by
  have := congrArg String.data h
  simp only [balanceKey, String.data_append, List.append_cancel_left_eq] at this
  exact String.ext this

theorem setBalance_eq (ws : WorldState) (address amount : String) :
    setBalance ws address amount
      = .ok (store ws (balanceKey address) (.balance ⟨address, amount⟩)) :=
  PutState_of_ne ws _ (balanceKey_ne_empty address)

/-- The writes of `Transfer`: none, the record of the sender, or the records
of the sender and of the recipient. -/
theorem Transfer_writes (ws : WorldState) (fromAddr toAddr amount : String) :
    (Transfer ws fromAddr toAddr amount).state = ws
      ∨ (∃ a, (Transfer ws fromAddr toAddr amount).state
          = store ws (balanceKey fromAddr) (.balance ⟨fromAddr, a⟩))
      ∨ ∃ a b, (Transfer ws fromAddr toAddr amount).state
          = store (store ws (balanceKey fromAddr) (.balance ⟨fromAddr, a⟩))
              (balanceKey toAddr) (.balance ⟨toAddr, b⟩) := by
  unfold Transfer
  simp only [setBalance_eq]
  split
  · exact Or.inl rfl
  · split
    · exact Or.inl rfl
    · split
      · exact Or.inl rfl
      · split
        · exact Or.inl rfl
        · split
          · exact Or.inl rfl
          · split
            · exact Or.inr (Or.inl ⟨_, rfl⟩)
            · split
              · exact Or.inr (Or.inl ⟨_, rfl⟩)
              · exact Or.inr (Or.inr ⟨_, _, rfl⟩)

theorem Transfer_other_key (ws : WorldState) (fromAddr toAddr amount key : String)
    (hf : key ≠ balanceKey fromAddr) (ht : key ≠ balanceKey toAddr) :
    GetState (Transfer ws fromAddr toAddr amount).state key = GetState ws key := by
  rcases Transfer_writes ws fromAddr toAddr amount with h | ⟨a, h⟩ | ⟨a, b, h⟩
  · rw [h]
  · rw [h, GetState_store_other _ _ _ _ hf]
  · rw [h, GetState_store_other _ _ _ _ ht, GetState_store_other _ _ _ _ hf]

/-- C33. `Transfer`, whether it succeeds or fails, writes nothing, or the
balance record of the sender, or the balance records of the sender and of the
recipient.  Every other key is left as it was: the token metadata record is
untouched, so `TotalSupply` answers as before, and so does `BalanceOf` for
every address other than the two. -/
theorem transfer_writes_only_parties (ws : WorldState) (fromAddr toAddr amount : String) :
    ((Transfer ws fromAddr toAddr amount).state = ws
        ∨ (∃ a, (Transfer ws fromAddr toAddr amount).state
            = store ws (balanceKey fromAddr) (.balance ⟨fromAddr, a⟩))
        ∨ ∃ a b, (Transfer ws fromAddr toAddr amount).state
            = store (store ws (balanceKey fromAddr) (.balance ⟨fromAddr, a⟩))
                (balanceKey toAddr) (.balance ⟨toAddr, b⟩))
      ∧ (∀ key : String, key ≠ balanceKey fromAddr → key ≠ balanceKey toAddr →
        GetState (Transfer ws fromAddr toAddr amount).state key = GetState ws key)
      ∧ GetState (Transfer ws fromAddr toAddr amount).state "TOKEN_METADATA"
          = GetState ws "TOKEN_METADATA"
      ∧ TotalSupply (Transfer ws fromAddr toAddr amount).state = TotalSupply ws
      ∧ storedSupply (Transfer ws fromAddr toAddr amount).state = storedSupply ws
      ∧ ∀ other : String, other ≠ fromAddr → other ≠ toAddr →
          GetState (Transfer ws fromAddr toAddr amount).state (balanceKey other)
              = GetState ws (balanceKey other)
            ∧ BalanceOf (Transfer ws fromAddr toAddr amount).state other
              = BalanceOf ws other := by
  have hm : GetState (Transfer ws fromAddr toAddr amount).state "TOKEN_METADATA"
      = GetState ws "TOKEN_METADATA" :=
    Transfer_other_key ws fromAddr toAddr amount _ (Ne.symm (balanceKey_ne_metadata _))
      (Ne.symm (balanceKey_ne_metadata _))
  refine ⟨Transfer_writes ws fromAddr toAddr amount,
    fun key hf ht => Transfer_other_key ws fromAddr toAddr amount key hf ht, hm, ?_, ?_, ?_⟩
  · unfold TotalSupply; rw [hm]
  · unfold storedSupply; rw [hm]
  · intro other hf ht
    have hk : GetState (Transfer ws fromAddr toAddr amount).state (balanceKey other)
        = GetState ws (balanceKey other) :=
      Transfer_other_key ws fromAddr toAddr amount _
        (fun h => hf (balanceKey_injective h)) (fun h => ht (balanceKey_injective h))
    refine ⟨hk, ?_⟩
    unfold BalanceOf; rw [hk]

/-! ### The recorded supply -/

/-- C34: on a fresh ledger `Mint(A, "1")` and then
`Burn(A, "2000000000000000000")` both return no error, and in the committed
state the stored total supply is `-10^36`, a negative integer. -/
theorem burn_drives_supply_negative :
    (invoke fresh (.mint "A" "1")).err = none
      ∧ (invoke (run fresh [.mint "A" "1"]) (.burn "A" "2000000000000000000")).err = none
      ∧ storedSupply (run fresh [.mint "A" "1", .burn "A" "2000000000000000000"])
          = some (-1000000000000000000000000000000000000)
      ∧ TotalSupply (run fresh [.mint "A" "1", .burn "A" "2000000000000000000"])
          = .ok "-1000000000000000000000000000000000000" := by
  decide

/-! ### Stored balances stay non-negative -/

theorem mem_store {V : Type} {ws : List (String × V)} {key : String} {value : V}
    {p : String × V} (h : p ∈ store ws key value) : p ∈ ws ∨ p = (key, value) := by
  induction ws with
  | nil => simpa [store] using h
  | cons q rest ih =>
    obtain ⟨k, v⟩ := q
    by_cases hk : k = key
    · simp only [store, hk, if_true, List.mem_cons] at h
      rcases h with h | h
      · exact Or.inr h
      · exact Or.inl (List.mem_cons_of_mem _ h)
    · simp only [store, hk, if_false, List.mem_cons] at h
      rcases h with h | h
      · exact Or.inl (h ▸ List.mem_cons_self _ _)
      · rcases ih h with h1 | h1
        · exact Or.inl (List.mem_cons_of_mem _ h1)
        · exact Or.inr h1

theorem GetState_mem {V : Type} {ws : List (String × V)} {key : String} {value : V}
    (h : GetState ws key = some value) : (key, value) ∈ ws := by
  induction ws with
  | nil => simp [GetState] at h
  | cons q rest ih =>
    obtain ⟨k, v⟩ := q
    by_cases hk : k = key
    · simp only [GetState, hk, if_true, Option.some.injEq] at h
      subst hk; subst h
      exact List.mem_cons_self _ _
    · simp only [GetState, hk, if_false] at h
      exact List.mem_cons_of_mem _ (ih h)

theorem render_nat (n : Nat) : render (n : Int) = natDigits (n + 1) n := rfl

theorem SetString_toStr_nat (n : Nat) :
    SetString (BigInt.toStr (n : Int)).data = some (n : Int) := by
  obtain ⟨hd, hne, hv, _⟩ := natDigits_spec (n + 1) n (by omega)
  have hnum : isNumeral (natDigits (n + 1) n) = true := (isNumeral_iff _).mpr ⟨hne, hd⟩
  show SetString (natDigits (n + 1) n) = _
  rw [SetString_of_numeral _ hnum, hv]

theorem parseAmount_toStr_nat (n : Nat) :
    parseAmount (BigInt.toStr (n : Int)) = .ok ((n : Int) * 10 ^ 18) := by
  obtain ⟨hd, hne, hv, _⟩ := natDigits_spec (n + 1) n (by omega)
  have := parseAmount_whole (natDigits (n + 1) n) hne hd
  rw [hv] at this
  exact this

theorem toStr_of_nonneg {x : Int} (h : 0 ≤ x) : ∃ n : Nat, BigInt.toStr x = BigInt.toStr (n : Int) :=
  ⟨x.toNat, by rw [Int.toNat_of_nonneg h]⟩

theorem balancesNonNegative_store_token {ws : WorldState} (h : balancesNonNegative ws)
    (key : String) (t : Token) : balancesNonNegative (store ws key (.token t)) := by
  intro k b hb
  rcases mem_store hb with h1 | h1
  · exact h k b h1
  · simp at h1

theorem balancesNonNegative_store_balance {ws : WorldState} (h : balancesNonNegative ws)
    (key address : String) {x : Int} (hx : 0 ≤ x) :
    balancesNonNegative (store ws key (.balance ⟨address, BigInt.toStr x⟩)) := by
  intro k b hb
  rcases mem_store hb with h1 | h1
  · exact h k b h1
  · simp only [Prod.mk.injEq, Value.balance.injEq] at h1
    rw [h1.2]
    exact toStr_of_nonneg hx

/-- On a state whose balance records hold natural numbers `BalanceOf` does not
fail, and what it returns parses to a non-negative amount. -/
theorem BalanceOf_nonneg {ws : WorldState} (h : balancesNonNegative ws) (address : String) :
    ∃ k : Nat, BalanceOf ws address = .ok (BigInt.toStr (k : Int)) := by
  unfold BalanceOf
  cases hg : GetState ws (balanceKey address) with
  | none => exact ⟨0, rfl⟩
  | some v =>
    cases v with
    | token t => exact ⟨0, by simp only [unmarshalBalance]; rfl⟩
    | balance b =>
      obtain ⟨n, hn⟩ := h _ b (GetState_mem hg)
      refine ⟨n * 10 ^ 18, ?_⟩
      simp only [unmarshalBalance, hn, parseAmount_toStr_nat]
      push_cast
      rfl

theorem parsed_balance_nonneg {ws : WorldState} (h : balancesNonNegative ws)
    {address cur : String} {bal : Int} (hb : BalanceOf ws address = .ok cur)
    (hp : parseAmount cur = .ok bal) : 0 ≤ bal := by
  obtain ⟨k, hk⟩ := BalanceOf_nonneg h address
  rw [hk] at hb
  cases hb
  rw [parseAmount_toStr_nat] at hp
  cases hp
  positivity

theorem Mint_nonneg {ws : WorldState} (h : balancesNonNegative ws)
    (mspid : Except String String) (toAddr amount : String) :
    balancesNonNegative (Mint ws mspid toAddr amount).state := by
  unfold Mint
  simp only [setBalance_eq]
  repeat' split
  all_goals first
    | exact h
    | skip
  all_goals
    have hw := (PutState_ok ‹PutState ws "TOKEN_METADATA" _ = .ok _›).2
    subst hw
  all_goals first
    | exact balancesNonNegative_store_token h _ _
    | skip
  have hb := parsed_balance_nonneg (balancesNonNegative_store_token h _ _)
    ‹BalanceOf _ toAddr = .ok _› ‹parseAmount _ = .ok _›
  have hpos := ‹¬ (_ : Int) ≤ 0›
  exact balancesNonNegative_store_balance (balancesNonNegative_store_token h _ _) _ _
    (by omega)

theorem Burn_nonneg {ws : WorldState} (h : balancesNonNegative ws)
    (fromAddr amount : String) :
    balancesNonNegative (Burn ws fromAddr amount).state := by
  unfold Burn
  simp only [setBalance_eq]
  repeat' split
  all_goals first
    | exact h
    | skip
  all_goals
    have hge := ‹¬ (_ : Int) < _›
    have h1 := balancesNonNegative_store_balance h (balanceKey fromAddr) fromAddr
      (Int.sub_nonneg_of_le (not_lt.mp hge))
  all_goals first
    | exact h1
    | skip
  have hw := (PutState_ok ‹PutState _ "TOKEN_METADATA" _ = .ok _›).2
  rw [hw]
  exact balancesNonNegative_store_token h1 _ _

theorem Transfer_nonneg {ws : WorldState} (h : balancesNonNegative ws)
    (fromAddr toAddr amount : String) :
    balancesNonNegative (Transfer ws fromAddr toAddr amount).state := by
  unfold Transfer
  simp only [setBalance_eq]
  repeat' split
  all_goals first
    | exact h
    | skip
  all_goals
    have hge := ‹¬ (_ : Int) < _›
    have h1 := balancesNonNegative_store_balance h (balanceKey fromAddr) fromAddr
      (Int.sub_nonneg_of_le (not_lt.mp hge))
  all_goals first
    | exact h1
    | skip
  have hb := parsed_balance_nonneg h1 ‹BalanceOf _ toAddr = .ok _› ‹parseAmount _ = .ok _›
  have hpos := ‹¬ (_ : Int) ≤ 0›
  exact balancesNonNegative_store_balance h1 _ _ (by omega)

theorem ledger_run_append (ws : WorldState) (pre : List Call) (call : Call) :
    run ws (pre ++ [call]) = commit (run ws pre) (invoke (run ws pre) call) := by
  simp [run, List.foldl_append]

theorem run_nonneg {ws : WorldState} (h : balancesNonNegative ws) (calls : List Call) :
    balancesNonNegative (run ws calls) := by
  induction calls using List.reverseRecOn with
  | nil => exact h
  | append_singleton pre call ih =>
    rw [ledger_run_append]
    unfold commit
    split
    · cases call with
      | mint toAddr amount => exact Mint_nonneg ih _ _ _
      | burn fromAddr amount => exact Burn_nonneg ih _ _
      | transfer fromAddr toAddr amount => exact Transfer_nonneg ih _ _ _
    · exact ih

/-- C35. In every world state reached from a freshly initialised ledger by
committed `Mint`, `Burn` and `Transfer` invocations, every stored balance
record holds the decimal string of a natural number, which `SetString` reads
back as that number: no stored balance is negative. -/
theorem balances_nonnegative (calls : List Call) (key : String) (b : Balance)
    (h : (key, Value.balance b) ∈ run fresh calls) :
    ∃ n : Nat, b.Amount = BigInt.toStr (n : Int)
      ∧ SetString b.Amount.data = some (n : Int) := by
  have hfresh : balancesNonNegative fresh := by
    intro k b hb
    have hf : fresh = [("TOKEN_METADATA", .token ⟨"BobCoin", "BOB", 18, "0"⟩)] := by decide
    rw [hf] at hb
    simp at hb
  obtain ⟨n, hn⟩ := run_nonneg hfresh calls key b h
  exact ⟨n, hn, by rw [hn]; exact SetString_toStr_nat n⟩

theorem balances_nonnegative_witness :
    ("BALANCE_A", Value.balance ⟨"A", "1000000000000000000"⟩) ∈ run fresh [.mint "A" "1"]
      ∧ ∃ n : Nat, "1000000000000000000" = BigInt.toStr (n : Int)
        ∧ SetString "1000000000000000000".data = some (n : Int) :=
  ⟨by decide, balances_nonnegative [.mint "A" "1"] "BALANCE_A" ⟨"A", "1000000000000000000"⟩
    (by decide)⟩

end BobCoin

namespace Escrow

open Stub

/-! ### Reachable contract records -/

/-- One committed invocation changes nothing, or rewrites one stored record as
`LockFunds`, `ReleaseMilestone` or `RefundProject` do, or adds a new record
under a free key together with its index entry. -/
theorem commit_cases (ws : WorldState) (call : Call) :
    commit ws (invoke ws call) = ws
      ∨ (∃ key c amount now, GetState ws key = some (.contract c)
          ∧ (c.Status = "CREATED" ∨ c.Status = "FUNDED")
          ∧ commit ws (invoke ws call) = store ws key (.contract
              { c with LockedAmount := amount, Status := "FUNDED", UpdatedAt := now }))
      ∨ (∃ key c l1 milestoneID releasedAt updatedAt,
          GetState ws key = some (.contract c)
          ∧ findAndRelease c.Milestones milestoneID releasedAt = .ok (l1, true)
          ∧ commit ws (invoke ws call) = store ws key (.contract
              { c with Milestones := l1,
                       Status := if allReleased l1 then "COMPLETED" else "IN_PROGRESS",
                       UpdatedAt := updatedAt }))
      ∨ (∃ key c now, GetState ws key = some (.contract c) ∧ c.Status ≠ "COMPLETED"
          ∧ commit ws (invoke ws call) = store ws key (.contract
              { c with Milestones := c.Milestones.map (fun m =>
                         if m.Status = "PENDING" then { m with Status := "REFUNDED" } else m),
                       Status := "REFUNDED", UpdatedAt := now }))
      ∨ ∃ (key idx projectID clientAddress freelancerAddress totalAmount : String)
          (ms : List Milestone) (createdAt updatedAt : String), GetState ws key = none
          ∧ commit ws (invoke ws call) = store (store ws key (.contract
              { ContractID := key, ProjectID := projectID, ClientAddress := clientAddress,
                FreelancerAddress := freelancerAddress, TotalAmount := totalAmount,
                LockedAmount := "0", Status := "CREATED",
                Milestones := ms.map (fun m => { m with Status := "PENDING" }),
                CreatedAt := createdAt, UpdatedAt := updatedAt })) idx .indexEntry := by
  by_cases herr : (invoke ws call).err = none
  swap
  · left
    simp [commit, herr]
  have hc : commit ws (invoke ws call) = (invoke ws call).state := by simp [commit, herr]
  rw [hc]
  right
  cases call with
  | createContract contractID projectID clientAddress freelancerAddress totalAmount
      milestonesJSON createdAt updatedAt =>
    simp only [invoke] at herr ⊢
    right; right; right
    cases milestonesJSON with
    | error e =>
      exfalso
      unfold CreateContract at herr
      cases hg : GetState ws contractID <;> simp [hg] at herr
    | ok ms =>
      have hnone : GetState ws contractID = none := by
        cases hg : GetState ws contractID with
        | none => rfl
        | some v => simp [CreateContract, hg] at herr
      have hout : CreateContract ws contractID projectID clientAddress freelancerAddress
          totalAmount (.ok ms) createdAt updatedAt
          = ⟨none, (CreateContract ws contractID projectID clientAddress freelancerAddress
              totalAmount (.ok ms) createdAt updatedAt).state⟩ := by
        rw [← herr]
      obtain ⟨_, idx, hst⟩ := CreateContract_ok hout
      exact ⟨contractID, idx, projectID, clientAddress, freelancerAddress, totalAmount, ms,
        createdAt, updatedAt, hnone, hst⟩
  | lockFunds contractID amount now =>
    simp only [invoke] at herr ⊢
    left
    rcases LockFunds_cases ws contractID amount now with h | h
    · exact absurd herr h.1
    · obtain ⟨c, hg, hs, _, hout⟩ := h
      exact ⟨contractID, c, amount, now, hg, hs, by rw [hout]⟩
  | releaseMilestone contractID milestoneID releasedAt updatedAt =>
    simp only [invoke] at herr ⊢
    right; left
    rcases ReleaseMilestone_cases ws contractID milestoneID releasedAt updatedAt with h | h
    · exact absurd herr h.1
    · obtain ⟨c, l1, hg, _, _, hf, hout⟩ := h
      exact ⟨contractID, c, l1, milestoneID, releasedAt, updatedAt, hg, hf, by rw [hout]⟩
  | refundProject contractID now =>
    simp only [invoke] at herr ⊢
    right; right; left
    rcases RefundProject_cases ws contractID now with h | h
    · exact absurd herr h.1
    · obtain ⟨c, hg, hs, _, _, hout⟩ := h
      exact ⟨contractID, c, now, hg, hs, by rw [hout]⟩

theorem run_append_list (ws : WorldState) (pre post : List Call) :
    run ws (pre ++ post) = run (run ws pre) post := by
  simp [run, List.foldl_append]

/-- A property of contract records that `LockFunds`, `ReleaseMilestone` and
`RefundProject` preserve holds of the record under a key for as long as
invocations are committed; the key itself stays in use. -/
theorem run_record (K : EscrowContractData → Prop)
    (hlock : ∀ c amount now, K c → (c.Status = "CREATED" ∨ c.Status = "FUNDED") →
      K { c with LockedAmount := amount, Status := "FUNDED", UpdatedAt := now })
    (hrelease : ∀ c l1 milestoneID releasedAt updatedAt, K c →
      findAndRelease c.Milestones milestoneID releasedAt = .ok (l1, true) →
      K { c with Milestones := l1,
                 Status := if allReleased l1 then "COMPLETED" else "IN_PROGRESS",
                 UpdatedAt := updatedAt })
    (hrefund : ∀ c now, K c → c.Status ≠ "COMPLETED" →
      K { c with Milestones := c.Milestones.map (fun m =>
                   if m.Status = "PENDING" then { m with Status := "REFUNDED" } else m),
                 Status := "REFUNDED", UpdatedAt := now })
    (contractID : String) (ws : WorldState)
    (h0 : ∃ v, GetState ws contractID = some v ∧ ∀ c, v = .contract c → K c)
    (calls : List Call) :
    ∃ v, GetState (run ws calls) contractID = some v ∧ ∀ c, v = .contract c → K c := by
  induction calls using List.reverseRecOn with
  | nil => exact h0
  | append_singleton pre call ih =>
    rw [run_append]
    obtain ⟨v, hv, hK⟩ := ih
    have hrewrite : ∀ key c c1, GetState (run ws pre) key = some (.contract c) →
        (K c → K c1) →
        ∃ v, GetState (store (run ws pre) key (.contract c1)) contractID = some v
          ∧ ∀ c, v = .contract c → K c := by
      intro key c c1 hg hstep
      rw [GetState_store]
      by_cases hk : contractID = key
      · rw [if_pos hk]
        subst hk
        rw [hv] at hg
        refine ⟨_, rfl, ?_⟩
        intro c2 hc2
        cases hc2
        exact hstep (hK c (Option.some.inj hg))
      · rw [if_neg hk]
        exact ⟨v, hv, hK⟩
    rcases commit_cases (run ws pre) call with h | h | h | h | h
    · rw [h]; exact ⟨v, hv, hK⟩
    · obtain ⟨key, c, amount, now, hg, hs, hst⟩ := h
      rw [hst]
      exact hrewrite key c _ hg (fun hc => hlock c amount now hc hs)
    · obtain ⟨key, c, l1, milestoneID, releasedAt, updatedAt, hg, hf, hst⟩ := h
      rw [hst]
      exact hrewrite key c _ hg (fun hc => hrelease c l1 milestoneID releasedAt updatedAt hc hf)
    · obtain ⟨key, c, now, hg, hs, hst⟩ := h
      rw [hst]
      exact hrewrite key c _ hg (fun hc => hrefund c now hc hs)
    · obtain ⟨key, idx, projectID, clientAddress, freelancerAddress, totalAmount, ms,
        createdAt, updatedAt, hg, hst⟩ := h
      rw [hst, GetState_store]
      by_cases hk : contractID = idx
      · rw [if_pos hk]
        exact ⟨_, rfl, fun c hc => by cases hc⟩
      · rw [if_neg hk, GetState_store]
        by_cases hk2 : contractID = key
        · subst hk2
          rw [hv] at hg
          cases hg
        · rw [if_neg hk2]
          exact ⟨v, hv, hK⟩

/-- A property of contract records that holds of every new record and that
`LockFunds`, `ReleaseMilestone` and `RefundProject` preserve holds of every
record in every committed state reached from the empty ledger. -/
theorem run_all_records (P : EscrowContractData → Prop)
    (hcreate : ∀ c, c.Status = "CREATED" → (∀ m ∈ c.Milestones, m.Status = "PENDING") → P c)
    (hlock : ∀ c amount now, P c → (c.Status = "CREATED" ∨ c.Status = "FUNDED") →
      P { c with LockedAmount := amount, Status := "FUNDED", UpdatedAt := now })
    (hrelease : ∀ c l1 milestoneID releasedAt updatedAt, P c →
      findAndRelease c.Milestones milestoneID releasedAt = .ok (l1, true) →
      P { c with Milestones := l1,
                 Status := if allReleased l1 then "COMPLETED" else "IN_PROGRESS",
                 UpdatedAt := updatedAt })
    (hrefund : ∀ c now, P c → c.Status ≠ "COMPLETED" →
      P { c with Milestones := c.Milestones.map (fun m =>
                   if m.Status = "PENDING" then { m with Status := "REFUNDED" } else m),
                 Status := "REFUNDED", UpdatedAt := now })
    (calls : List Call) :
    ∀ key c, GetState (run [] calls) key = some (.contract c) → P c := by
  induction calls using List.reverseRecOn with
  | nil => intro key c h; simp [run, GetState] at h
  | append_singleton pre call ih =>
    rw [run_append]
    have hrewrite : ∀ key c c1, GetState (run [] pre) key = some (.contract c) →
        (P c → P c1) →
        ∀ k c2, GetState (store (run [] pre) key (.contract c1)) k = some (.contract c2) →
          P c2 := by
      intro key c c1 hg hstep k c2 h2
      rw [GetState_store] at h2
      by_cases hk : k = key
      · rw [if_pos hk] at h2
        cases h2
        exact hstep (ih key c hg)
      · rw [if_neg hk] at h2
        exact ih k c2 h2
    rcases commit_cases (run [] pre) call with h | h | h | h | h
    · rw [h]; exact ih
    · obtain ⟨key, c, amount, now, hg, hs, hst⟩ := h
      rw [hst]
      exact hrewrite key c _ hg (fun hc => hlock c amount now hc hs)
    · obtain ⟨key, c, l1, milestoneID, releasedAt, updatedAt, hg, hf, hst⟩ := h
      rw [hst]
      exact hrewrite key c _ hg (fun hc => hrelease c l1 milestoneID releasedAt updatedAt hc hf)
    · obtain ⟨key, c, now, hg, hs, hst⟩ := h
      rw [hst]
      exact hrewrite key c _ hg (fun hc => hrefund c now hc hs)
    · obtain ⟨key, idx, projectID, clientAddress, freelancerAddress, totalAmount, ms,
        createdAt, updatedAt, hg, hst⟩ := h
      rw [hst]
      intro k c2 h2
      rw [GetState_store] at h2
      by_cases hk : k = idx
      · rw [if_pos hk] at h2
        cases h2
      · rw [if_neg hk, GetState_store] at h2
        by_cases hk2 : k = key
        · rw [if_pos hk2] at h2
          cases h2
          refine hcreate _ rfl ?_
          intro m hm
          simp only [List.mem_map] at hm
          obtain ⟨m0, _, hm0⟩ := hm
          rw [← hm0]
        · rw [if_neg hk2] at h2
          exact ih k c2 h2

theorem allReleased_eq (l : List Milestone) :
    allReleased l = true ↔ ∀ m ∈ l, m.Status = "RELEASED" := by
  simp [allReleased, List.all_eq_true]

theorem findAndRelease_found {l l1 : List Milestone} {milestoneID now : String}
    (h : findAndRelease l milestoneID now = .ok (l1, true)) : l1 ≠ [] := by
  cases l with
  | nil => simp [findAndRelease] at h
  | cons m rest =>
    unfold findAndRelease at h
    split at h
    · split at h
      · simp at h
      · simp only [Except.ok.injEq, Prod.mk.injEq] at h
        rw [← h.1]; simp
    · split at h
      · simp at h
      · simp only [Except.ok.injEq, Prod.mk.injEq] at h
        rw [← h.1]; simp

/-- The status of a record says `COMPLETED` exactly when it has milestones
and all of them are released. -/
theorem completed_iff_invariant (calls : List Call) :
    ∀ key c, GetState (run [] calls) key = some (.contract c) →
      (c.Status = "COMPLETED"
        ↔ c.Milestones ≠ [] ∧ ∀ m ∈ c.Milestones, m.Status = "RELEASED") := by
  apply run_all_records
  · intro c hs hp
    rw [hs]
    refine ⟨fun h => absurd h (by decide), ?_⟩
    rintro ⟨hne, hall⟩
    cases hl : c.Milestones with
    | nil => exact absurd hl hne
    | cons m rest =>
      have hm : m ∈ c.Milestones := by rw [hl]; exact List.mem_cons_self _ _
      have h1 := hp m hm
      have h2 := hall m hm
      rw [h1] at h2
      exact absurd h2 (by decide)
  · intro c amount now hP hs
    refine ⟨fun h => ((by decide : "FUNDED" ≠ "COMPLETED") h).elim, ?_⟩
    intro h
    have hc := hP.mpr h
    rcases hs with hs | hs <;> rw [hs] at hc <;> exact absurd hc (by decide)
  · intro c l1 milestoneID releasedAt updatedAt _ hf
    have hne := findAndRelease_found hf
    by_cases ha : allReleased l1 = true
    · simp only [ha, if_true, true_iff]
      exact ⟨hne, (allReleased_eq l1).mp ha⟩
    · simp only [ha]
      refine ⟨fun h => absurd h (by decide), ?_⟩
      rintro ⟨_, hall⟩
      exact absurd ((allReleased_eq l1).mpr hall) ha
  · intro c now hP hs
    refine ⟨fun h => ((by decide : "REFUNDED" ≠ "COMPLETED") h).elim, ?_⟩
    rintro ⟨hne, hall⟩
    exfalso
    apply hs
    apply hP.mpr
    refine ⟨?_, ?_⟩
    · intro h0
      apply hne
      simp [h0]
    · intro m hm
      have h1 := hall _ (List.mem_map_of_mem _ hm)
      by_cases hp : m.Status = "PENDING"
      · simp only [hp, if_true] at h1
        exact absurd h1 (by decide)
      · simpa only [hp, if_false] using h1

/-- C36. In every committed state reached from the empty ledger through
`CreateContract`, `LockFunds`, `ReleaseMilestone` and `RefundProject`, a
contract has status `COMPLETED` exactly when its milestone list is non-empty
and every milestone is `RELEASED`; and a contract without milestones keeps
none and never has status `COMPLETED`, whatever is invoked afterwards. -/
theorem completed_iff_all_released (calls : List Call) (contractID : String)
    (c : EscrowContractData) (h : GetContract (run [] calls) contractID = .ok c) :
    (c.Status = "COMPLETED"
        ↔ c.Milestones ≠ [] ∧ ∀ m ∈ c.Milestones, m.Status = "RELEASED")
      ∧ (c.Milestones = [] → ∀ (post : List Call) (c1 : EscrowContractData),
          GetContract (run [] (calls ++ post)) contractID = .ok c1 →
            c1.Milestones = [] ∧ c1.Status ≠ "COMPLETED") := by
  refine ⟨completed_iff_invariant calls contractID c (GetContract_ok h), ?_⟩
  intro hempty post c1 h1
  have hkeep := run_record (fun r => r.Milestones = [])
    (fun r _ _ hr _ => hr)
    (fun r l1 milestoneID releasedAt _ hr hf => by
      rw [hr] at hf
      simp [findAndRelease] at hf)
    (fun r _ hr _ => by
      show List.map _ r.Milestones = []
      rw [hr]; rfl)
    contractID (run [] calls) ⟨_, GetContract_ok h, fun r hr => by cases hr; exact hempty⟩ post
  rw [← run_append_list] at hkeep
  obtain ⟨v, hv, hK⟩ := hkeep
  have hg := GetContract_ok h1
  rw [hv] at hg
  have he : c1.Milestones = [] := hK c1 (Option.some.inj hg)
  refine ⟨he, ?_⟩
  intro hs
  have := (completed_iff_invariant (calls ++ post) contractID c1 (GetContract_ok h1)).mp hs
  exact this.1 he

theorem completed_iff_all_released_witness :
    GetContract (run [] completedCalls) "c1"
        = .ok (sampleRecord "COMPLETED"
            [⟨"m1", "design", "60", "RELEASED", "2024-01-03T00:00:00Z"⟩])
      ∧ ((sampleRecord "COMPLETED"
            [⟨"m1", "design", "60", "RELEASED", "2024-01-03T00:00:00Z"⟩]).Status = "COMPLETED"
        ↔ (sampleRecord "COMPLETED"
            [⟨"m1", "design", "60", "RELEASED", "2024-01-03T00:00:00Z"⟩]).Milestones ≠ []
          ∧ ∀ m ∈ (sampleRecord "COMPLETED"
            [⟨"m1", "design", "60", "RELEASED", "2024-01-03T00:00:00Z"⟩]).Milestones,
              m.Status = "RELEASED") :=
  ⟨by decide, (completed_iff_all_released completedCalls "c1" _ (by decide)).1⟩

/-- The search loop of `ReleaseMilestone` leaves a milestone with another
identifier as it is. -/
theorem findAndRelease_other_id (l : List Milestone) (milestoneID now : String) :
    ∀ (l1 : List Milestone) (found : Bool),
      findAndRelease l milestoneID now = .ok (l1, found) →
      ∀ (j : Nat) (b : Milestone), l[j]? = some b → b.MilestoneID ≠ milestoneID →
        l1[j]? = some b := by
  induction l with
  | nil => intro l1 found _ j b hb; simp at hb
  | cons m rest ih =>
    intro l1 found h j b hb hne
    unfold findAndRelease at h
    by_cases hm : m.MilestoneID = milestoneID
    · rw [if_pos hm] at h
      split at h
      · simp at h
      · simp only [Except.ok.injEq, Prod.mk.injEq] at h
        rw [← h.1]
        cases j with
        | zero =>
          simp only [List.getElem?_cons_zero, Option.some.injEq] at hb
          rw [hb] at hm
          exact absurd hm hne
        | succ j => simpa using hb
    · rw [if_neg hm] at h
      cases hr : findAndRelease rest milestoneID now with
      | error e => rw [hr] at h; simp at h
      | ok p =>
        obtain ⟨rest1, f1⟩ := p
        rw [hr] at h
        simp only [Except.ok.injEq, Prod.mk.injEq] at h
        rw [← h.1]
        cases j with
        | zero => simpa using hb
        | succ j =>
          simp only [List.getElem?_cons_succ] at hb ⊢
          exact ih rest1 f1 hr j b hb hne

/-- The search loop of `ReleaseMilestone` leaves a milestone as it is when an
earlier milestone carries the same identifier. -/
theorem findAndRelease_later_duplicate (l : List Milestone) (milestoneID now : String) :
    ∀ (l1 : List Milestone) (found : Bool),
      findAndRelease l milestoneID now = .ok (l1, found) →
      ∀ (i j : Nat) (a b : Milestone), i < j → l[i]? = some a → l[j]? = some b →
        a.MilestoneID = b.MilestoneID → l1[j]? = some b := by
  induction l with
  | nil => intro l1 found _ i j a b _ ha; simp at ha
  | cons m rest ih =>
    intro l1 found h i j a b hij ha hb hid
    obtain ⟨j, rfl⟩ : ∃ k, j = k + 1 := ⟨j - 1, by omega⟩
    simp only [List.getElem?_cons_succ] at hb
    unfold findAndRelease at h
    by_cases hm : m.MilestoneID = milestoneID
    · rw [if_pos hm] at h
      split at h
      · simp at h
      · simp only [Except.ok.injEq, Prod.mk.injEq] at h
        rw [← h.1]
        simpa using hb
    · rw [if_neg hm] at h
      cases hr : findAndRelease rest milestoneID now with
      | error e => rw [hr] at h; simp at h
      | ok p =>
        obtain ⟨rest1, f1⟩ := p
        rw [hr] at h
        simp only [Except.ok.injEq, Prod.mk.injEq] at h
        rw [← h.1]
        simp only [List.getElem?_cons_succ]
        cases i with
        | zero =>
          simp only [List.getElem?_cons_zero, Option.some.injEq] at ha
          subst ha
          exact findAndRelease_other_id rest milestoneID now rest1 f1 hr j b hb
            (fun hbm => hm (hid.trans hbm))
        | succ i =>
          simp only [List.getElem?_cons_succ] at ha
          exact ih rest1 f1 hr i j a b (by omega) ha hb hid

theorem findAndRelease_ids (l l1 : List Milestone) (milestoneID now : String)
    (found : Bool) (h : findAndRelease l milestoneID now = .ok (l1, found)) :
    l1.map (fun m => m.MilestoneID) = l.map (fun m => m.MilestoneID) := by
  have ht := congrArg (List.map Prod.fst) (findAndRelease_terms l l1 milestoneID now found h)
  simpa only [List.map_map, Function.comp_def, milestoneTerms] using ht

/-- C37. When `CreateContract` succeeds with a milestone list in which two
entries carry the same identifier, then after any sequence of committed
invocations the later of the two entries is still in its place and is not
`RELEASED`, and the contract does not have status `COMPLETED`. -/
theorem duplicate_milestone_never_released (ws ws1 : WorldState)
    (contractID projectID clientAddress freelancerAddress totalAmount createdAt
      updatedAt : String) (ms : List Milestone) (i j : Nat) (mi mj : Milestone)
    (hij : i < j) (hi : ms[i]? = some mi) (hj : ms[j]? = some mj)
    (hid : mi.MilestoneID = mj.MilestoneID)
    (hcreate : CreateContract ws contractID projectID clientAddress freelancerAddress
      totalAmount (.ok ms) createdAt updatedAt = ⟨none, ws1⟩)
    (calls : List Call) (c : EscrowContractData)
    (hget : GetContract (run ws1 calls) contractID = .ok c) :
    (∃ m, c.Milestones[j]? = some m ∧ m.MilestoneID = mj.MilestoneID
        ∧ m.Status ≠ "RELEASED")
      ∧ c.Status ≠ "COMPLETED" := by
  have hrun := run_record
    (fun r => (∃ a b, r.Milestones[i]? = some a ∧ r.Milestones[j]? = some b
        ∧ a.MilestoneID = mj.MilestoneID ∧ b.MilestoneID = mj.MilestoneID
        ∧ b.Status ≠ "RELEASED") ∧ r.Status ≠ "COMPLETED")
    (fun r _ _ hr _ => ⟨hr.1, (by decide : "FUNDED" ≠ "COMPLETED")⟩)
    (fun r l1 milestoneID releasedAt _ hr hf => by
      obtain ⟨⟨a, b, ha, hb, hia, hib, hst⟩, _⟩ := hr
      have hb1 : l1[j]? = some b :=
        findAndRelease_later_duplicate r.Milestones milestoneID releasedAt l1 true hf
          i j a b hij ha hb (hia.trans hib.symm)
      have hids := findAndRelease_ids r.Milestones l1 milestoneID releasedAt true hf
      have ha1 : ∃ a1, l1[i]? = some a1 ∧ a1.MilestoneID = a.MilestoneID := by
        have hi1 := congrArg (fun l => l[i]?) hids
        simp only [List.getElem?_map, ha, Option.map_some'] at hi1
        cases hx : l1[i]? with
        | none => rw [hx] at hi1; simp at hi1
        | some a1 =>
          rw [hx] at hi1
          simp only [Option.map_some', Option.some.injEq] at hi1
          exact ⟨a1, rfl, hi1⟩
      obtain ⟨a1, ha1, hida⟩ := ha1
      refine ⟨⟨a1, b, ha1, hb1, hida.trans hia, hib, hst⟩, ?_⟩
      have hnot : allReleased l1 ≠ true := by
        intro hall
        exact hst ((allReleased_eq l1).mp hall b (List.getElem?_mem hb1))
      show (if allReleased l1 = true then "COMPLETED" else "IN_PROGRESS") ≠ "COMPLETED"
      rw [if_neg hnot]
      decide)
    (fun r _ hr _ => by
      obtain ⟨⟨a, b, ha, hb, hia, hib, hst⟩, _⟩ := hr
      refine ⟨⟨if a.Status = "PENDING" then { a with Status := "REFUNDED" } else a,
        if b.Status = "PENDING" then { b with Status := "REFUNDED" } else b,
        ?_, ?_, ?_, ?_, ?_⟩, (by decide : "REFUNDED" ≠ "COMPLETED")⟩
      · show (List.map _ r.Milestones)[i]? = _
        rw [List.getElem?_map, ha]
        rfl
      · show (List.map _ r.Milestones)[j]? = _
        rw [List.getElem?_map, hb]
        rfl
      · split <;> exact hia
      · split <;> exact hib
      · split
        · exact (by decide : "REFUNDED" ≠ "RELEASED")
        · exact hst)
    contractID ws1
    ⟨_, CreateContract_stored hcreate, fun r hr => by
      cases hr
      refine ⟨⟨{ mi with Status := "PENDING" }, { mj with Status := "PENDING" },
        ?_, ?_, hid, rfl, (by decide : "PENDING" ≠ "RELEASED")⟩,
        (by decide : "CREATED" ≠ "COMPLETED")⟩
      · show (List.map _ ms)[i]? = _
        rw [List.getElem?_map, hi]
        rfl
      · show (List.map _ ms)[j]? = _
        rw [List.getElem?_map, hj]
        rfl⟩
    calls
  obtain ⟨v, hv, hK⟩ := hrun
  have hg := GetContract_ok hget
  rw [hv] at hg
  obtain ⟨⟨a, b, _, hb, _, hib, hst⟩, hs⟩ := hK c (Option.some.inj hg)
  exact ⟨⟨b, hb, hib, hst⟩, hs⟩

theorem duplicate_milestone_never_released_witness :
    (∃ m, (sampleRecord "IN_PROGRESS"
          [⟨"m1", "design", "10", "RELEASED", "2024-01-03T00:00:00Z"⟩,
            ⟨"m1", "build", "20", "PENDING", ""⟩]).Milestones[1]? = some m
        ∧ m.MilestoneID = "m1" ∧ m.Status ≠ "RELEASED")
      ∧ (sampleRecord "IN_PROGRESS"
          [⟨"m1", "design", "10", "RELEASED", "2024-01-03T00:00:00Z"⟩,
            ⟨"m1", "build", "20", "PENDING", ""⟩]).Status ≠ "COMPLETED" :=
  duplicate_milestone_never_released [] duplicateCreated "c1" "p1" "client" "freelancer" "60"
    "2024-01-01T00:00:00Z" "2024-01-01T00:00:00Z" duplicateMilestones 0 1
    ⟨"m1", "design", "10", "", ""⟩ ⟨"m1", "build", "20", "", ""⟩ (by decide) (by decide)
    (by decide) (by decide) (by decide)
    [.lockFunds "c1" "60" "2024-01-02T00:00:00Z",
      .releaseMilestone "c1" "m1" "2024-01-03T00:00:00Z" "2024-01-03T00:00:00Z",
      .releaseMilestone "c1" "m1" "2024-01-04T00:00:00Z" "2024-01-04T00:00:00Z"]
    _ (by decide)

end Escrow

namespace CertificateRegistry

open Stub

/-! ### The registry on concrete invocations -/

/-- C31: in a state where the project `p1`, its group and the certificate
`cert1` exist, `RegisterContractCertificate` with the identifier `cert1` and a
freelancer who is not yet a member of the group returns the error
`certificate cert1 already exists`, but the world state it leaves differs from
the one it started from: the group record now lists the freelancer and carries
the new `updatedAt`.  `RegisterMilestoneCertificate` with the same identifier
returns the same error and leaves the state as it was. -/
theorem duplicate_certificate_updates_group :
    GetProject certified "p1" = .ok
        { ProjectID := "p1", Title := "Site", Description := "A web site", Category := "web",
          ClientID := "client1", TotalBudget := "100", Deadline := "", SkillsRequired := [],
          IPFSHash := "QmProject", IPFSGroupID := "group:p1",
          RegisteredAt := "2024-01-01T00:00:00Z", Status := "open" }
      ∧ GetState certified "group:p1" = some (.group
          { GroupID := "group:p1", ProjectID := "p1", IPFSHash := "QmGroup",
            Members := ["client1", "freelancer1"], CreatedAt := "2024-01-01T00:00:00Z",
            UpdatedAt := "2024-01-02T00:00:00Z" })
      ∧ (GetCertificate certified "cert1").isOk = true
      ∧ (RegisterContractCertificate certified duplicateArgs (.ok "2024-01-03T00:00:00Z")).err
          = some "certificate cert1 already exists"
      ∧ GetState
          (RegisterContractCertificate certified duplicateArgs
            (.ok "2024-01-03T00:00:00Z")).state "group:p1"
        = some (.group
          { GroupID := "group:p1", ProjectID := "p1", IPFSHash := "QmGroup",
            Members := ["client1", "freelancer1", "freelancer2"],
            CreatedAt := "2024-01-01T00:00:00Z", UpdatedAt := "2024-01-03T00:00:00Z" })
      ∧ (RegisterContractCertificate certified duplicateArgs
            (.ok "2024-01-03T00:00:00Z")).state ≠ certified
      ∧ RegisterMilestoneCertificate certified
          ["RegisterMilestoneCertificate", "cert1", "p1", "contract2", "m1", "QmOther",
            "0xdef", "freelancer2", "client1", "50"] (.ok "2024-01-03T00:00:00Z")
        = ⟨some "certificate cert1 already exists", certified⟩ := by
  decide

/-- C32: after `RegisterProject` with the one-character project identifier `a`
on an empty ledger, the group record is stored under the key `group:a`, which
the skip test of `GetAllCertificates` lets through, and `GetAllCertificates`
returns one entry, decoded from that group record.  With the identifier `ab`
it returns none. -/
theorem getAllCertificates_returns_group :
    (RegisterProject [] (projectArgs "a") (.ok []) (.ok "2024-01-01T00:00:00Z")).err = none
      ∧ GetState (registered "a") "group:a" = some (.group
          { GroupID := "group:a", ProjectID := "a", IPFSHash := "QmGroup",
            Members := ["client1"], CreatedAt := "2024-01-01T00:00:00Z",
            UpdatedAt := "2024-01-01T00:00:00Z" })
      ∧ skipKey "group:a" = false
      ∧ skipKey "project:a" = true
      ∧ GetAllCertificates (registered "a") = .ok
          [{ CertificateID := "", ProjectID := "a", ContractID := "", MilestoneID := "",
             IPFSHash := "QmGroup", TransactionHash := "", FreelancerID := "",
             ClientID := "", Amount := "", Timestamp := "", Status := "",
             CertificateType := "", IPFSGroupID := "" }]
      ∧ GetAllCertificates (registered "ab") = .ok [] := by
  decide

end CertificateRegistry

namespace BobCoin

open GoStrings BigInt Stub

/-! ### `Burn` without token metadata -/

/-- What `BalanceOf` returns is the decimal string of an integer. -/
theorem BalanceOf_toStr {ws : WorldState} {address cur : String}
    (h : BalanceOf ws address = .ok cur) : ∃ x : Int, cur = BigInt.toStr x := by
  unfold BalanceOf at h
  split at h
  · exact ⟨0, by cases h; rfl⟩
  · split at h
    · simp at h
    · split at h
      · simp at h
      · exact ⟨_, by cases h; rfl⟩

/-- A balance that `BalanceOf` reports and that reads as a positive integer is
scaled by `10^18` when `parseAmount` reads it. -/
theorem parseAmount_reported {ws : WorldState} {address cur : String} {r : Int}
    (h : BalanceOf ws address = .ok cur) (hraw : SetString cur.data = some r)
    (hpos : 0 < r) : parseAmount cur = .ok (r * 10 ^ 18) := by
  obtain ⟨x, rfl⟩ := BalanceOf_toStr h
  cases x with
  | ofNat n =>
    have hn : SetString (BigInt.toStr (n : Int)).data = some (n : Int) := SetString_toStr_nat n
    have hr : r = (n : Int) := by
      have h1 : SetString (BigInt.toStr (Int.ofNat n)).data = some (n : Int) := hn
      rw [h1] at hraw
      exact (Option.some.inj hraw).symm
    rw [hr]
    exact parseAmount_toStr_nat n
  | negSucc n =>
    exfalso
    have hs : SetString ('-' :: natDigits (n + 2) (n + 1)) = some r := hraw
    simp only [SetString] at hs
    split at hs
    · have := Option.some.inj hs
      omega
    · simp at hs

/-- The token metadata is missing from a state after a write under a balance
key when it was missing before. -/
theorem metadata_absent_store_balance {ws : WorldState} (address : String) (v : Value)
    (hmeta : GetState ws "TOKEN_METADATA" = none) :
    GetState (store ws (balanceKey address) v) "TOKEN_METADATA" = none := by
  rw [GetState_store_other _ _ _ _ (Ne.symm (balanceKey_ne_metadata address))]
  exact hmeta

/-- C26, amended: on every world state without a token metadata record in
which the balance of the address, as `BalanceOf` reports it, covers the
amount, a positive one, `Burn` returns the decode error
`unexpected end of JSON input`, and by then it has issued the write of the
debited balance record, the only change in the state it leaves; the platform
discards the writes of the failed invocation, so the committed world state is
the one before the call. -/
theorem burn_without_metadata_debits_first (ws : WorldState)
    (fromAddr amount cur : String) (r b : Int)
    (hmeta : GetState ws "TOKEN_METADATA" = none)
    (hcur : BalanceOf ws fromAddr = .ok cur)
    (hraw : SetString cur.data = some r)
    (hamt : parseAmount amount = .ok b) (hpos : 0 < b) (hcover : b ≤ r) :
    Burn ws fromAddr amount
        = ⟨some "unexpected end of JSON input",
            store ws (balanceKey fromAddr)
              (.balance ⟨fromAddr, BigInt.toStr (r * 10 ^ 18 - b)⟩)⟩
      ∧ commit ws (Burn ws fromAddr amount) = ws := by
  have hbal := parseAmount_reported hcur hraw (by omega)
  have hnp : ¬ b ≤ 0 := by omega
  have hge : ¬ r * 10 ^ 18 < b := by
    have : r ≤ r * 10 ^ 18 := le_mul_of_one_le_right (by omega) (by norm_num)
    omega
  have hm := metadata_absent_store_balance fromAddr
    (.balance ⟨fromAddr, BigInt.toStr (r * 10 ^ 18 - b)⟩) hmeta
  have hzero : parseAmount "0" = .ok 0 := by decide
  have hout : Burn ws fromAddr amount
      = ⟨some "unexpected end of JSON input",
          store ws (balanceKey fromAddr)
            (.balance ⟨fromAddr, BigInt.toStr (r * 10 ^ 18 - b)⟩)⟩ := by
    simp only [Burn, hcur, hbal, hamt, hnp, hge, if_false, setBalance_eq, TotalSupply, hm,
      hzero, unmarshalToken]
  refine ⟨hout, ?_⟩
  rw [hout]
  simp [commit]

theorem burn_without_metadata_debits_first_witness :
    Burn balanceWithoutMetadata "A" "1"
        = ⟨some "unexpected end of JSON input",
            store balanceWithoutMetadata (balanceKey "A")
              (.balance ⟨"A", BigInt.toStr (5000000000000000000 * 10 ^ 18
                - 1000000000000000000)⟩)⟩
      ∧ commit balanceWithoutMetadata (Burn balanceWithoutMetadata "A" "1")
        = balanceWithoutMetadata :=
  burn_without_metadata_debits_first balanceWithoutMetadata "A" "1" "5000000000000000000"
    5000000000000000000 1000000000000000000 (by decide) (by decide) (by decide) (by decide)
    (by decide) (by decide)

/-- Before `InitLedger` no invocation of `Mint`, `Burn` or `Transfer` commits a
write: the ledger stays empty. -/
theorem run_empty (calls : List Call) : run [] calls = [] := by
  induction calls using List.reverseRecOn with
  | nil => rfl
  | append_singleton pre call ih =>
    rw [ledger_run_append, ih]
    unfold commit
    split
    · rename_i herr
      exfalso
      have hzero : parseAmount "0" = .ok 0 := by decide
      cases call with
      | mint toAddr amount =>
        simp only [invoke, Mint, TotalSupply, GetState] at herr
        repeat' split at herr
        all_goals simp at herr
      | burn fromAddr amount =>
        simp only [invoke, Burn, BalanceOf, GetState, hzero] at herr
        repeat' split at herr
        all_goals first
          | (simp at herr; done)
          | omega
      | transfer fromAddr toAddr amount =>
        simp only [invoke, Transfer, BalanceOf, GetState, hzero] at herr
        repeat' split at herr
        all_goals first
          | (simp at herr; done)
          | omega
    · rfl

theorem GetState_store_present {V : Type} {ws : List (String × V)} {key : String}
    (h : GetState ws key ≠ none) (other : String) (value : V) :
    GetState (store ws other value) key ≠ none := by
  by_cases hk : key = other
  · subst hk
    rw [GetState_store_self]
    simp
  · rw [GetState_store_other _ _ _ _ hk]
    exact h

/-- A state reached from the empty ledger is empty or holds the token
metadata: `InitLedger` writes the record, and a committed `Mint`, `Burn` or
`Transfer` keeps an empty ledger empty and a metadata record in place.  A
state with a balance record and no metadata, such as
`balanceWithoutMetadata`, is therefore not reached. -/
theorem commit_initialised (ws : WorldState) (call : Call)
    (h : ws = [] ∨ GetState ws "TOKEN_METADATA" ≠ none) :
    (commit ws (invoke ws call) = []
        ∨ GetState (commit ws (invoke ws call)) "TOKEN_METADATA" ≠ none)
      ∧ GetState (InitLedger ws).state "TOKEN_METADATA" ≠ none := by
  refine ⟨?_, ?_⟩
  · rcases h with h | h
    · left
      subst h
      have := run_empty [call]
      simpa [run] using this
    · right
      unfold commit
      split
      swap
      · exact h
      cases call with
      | mint toAddr amount =>
        simp only [invoke, Mint, setBalance_eq]
        repeat' split
        all_goals first
          | exact h
          | skip
        all_goals
          have hw := (PutState_ok ‹PutState ws "TOKEN_METADATA" _ = .ok _›).2
          subst hw
        all_goals first
          | exact GetState_store_present h _ _
          | exact GetState_store_present (GetState_store_present h _ _) _ _
      | burn fromAddr amount =>
        simp only [invoke, Burn, setBalance_eq]
        repeat' split
        all_goals first
          | exact h
          | exact GetState_store_present h _ _
          | skip
        have hw := (PutState_ok ‹PutState _ "TOKEN_METADATA" _ = .ok _›).2
        rw [hw]
        exact GetState_store_present (GetState_store_present h _ _) _ _
      | transfer fromAddr toAddr amount =>
        simp only [invoke]
        rcases Transfer_writes ws fromAddr toAddr amount with hs | ⟨a, hs⟩ | ⟨a, c, hs⟩
        · rw [hs]; exact h
        · rw [hs]; exact GetState_store_present h _ _
        · rw [hs]; exact GetState_store_present (GetState_store_present h _ _) _ _
  · simp [InitLedger, PutState, GetState_store_self]

end BobCoin
